import Mathlib

/-!
OpenHoldem formula parser (`CFormulaParser.cpp`)

A shallow embedding of the recursive-descent parser of OpenHoldem's formula
language: the expression parser, the action parser, the builder of
when-condition chains and the back-patcher that resolves the chain's
"else" links.

Conventions of the embedding
* The tokenizer is an external collaborator.  It is modelled as the list of
  tokens that have not been consumed yet, followed by an endless supply of
  end-of-file tokens.
* `CParseErrors::Error` appends to a list of reported errors; the message
  texts are represented by the constructors of `ParseError`.
* Expression and action subtrees are built once and never mutated or shared,
  so they are values of `CParseTreeNode`.  When-condition nodes are mutated
  after construction (chain builder, back-patcher); they live in a heap and
  are addressed by their index.
* Source line numbers stored in the nodes are diagnostic payload and are not
  modelled.
* Recursion of `ParseExpression` and the loops are driven by a fuel argument;
  `none` means that the fuel ran out.
-/

namespace OpenHoldem

/-! ## Tokens -/

/-- Modelled from the spec: the token identifiers of `TokenizerConstants.h`
(a closed enumeration: end-of-file, end-of-function, identifier, number,
card literal, unary and binary operators, the percentage operator, the
ternary markers, the "when" marker, three kinds of brackets, the action
keywords, the keyword Force and the unsupported keyword Delay). -/
inductive TokenKind
  | kTokenEndOfFile
  | kTokenEndOfFunction
  | kTokenIdentifier
  | kTokenNumber
  | kTokenCards
  | kTokenOperatorUnary (id : Nat)
  | kTokenOperatorBinary (id : Nat)
  | kTokenOperatorPercentage
  | kTokenOperatorConditionalIf
  | kTokenOperatorConditionalElse
  | kTokenOperatorConditionalWhen
  | kTokenBracketOpen_1
  | kTokenBracketOpen_2
  | kTokenBracketOpen_3
  | kTokenBracketClose_1
  | kTokenBracketClose_2
  | kTokenBracketClose_3
  | kTokenActionReturn
  | kTokenActionRaiseTo
  | kTokenActionRaiseBy
  | kTokenActionRaise
  | kTokenActionUserVariableToBeSet
  | kTokenActionFixed (id : Nat)
  | kTokenKeywordForce
  | kTokenUnsupportedDelay
  deriving DecidableEq, Repr

open TokenKind

/-- Modelled from the spec: `TokenIsBracketOpen` of `TokenizerConstants.h`. -/
def TokenIsBracketOpen (token_ID : TokenKind) : Bool :=
  match token_ID with
  | kTokenBracketOpen_1 => true
  | kTokenBracketOpen_2 => true
  | kTokenBracketOpen_3 => true
  | _ => false

/-- Modelled from the spec: the closing brackets of the three kinds. -/
def TokenIsBracketClose (token_ID : TokenKind) : Bool :=
  match token_ID with
  | kTokenBracketClose_1 => true
  | kTokenBracketClose_2 => true
  | kTokenBracketClose_3 => true
  | _ => false

/-- Modelled from the spec: `TokenIsUnary` of `TokenizerConstants.h`.  The
source remarks that brackets are also "unary". -/
def TokenIsUnary (token_ID : TokenKind) : Bool :=
  match token_ID with
  | kTokenOperatorUnary _ => true
  | kTokenBracketOpen_1 => true
  | kTokenBracketOpen_2 => true
  | kTokenBracketOpen_3 => true
  | _ => false

/-- Modelled from the spec: `TokenIsBinary` of `TokenizerConstants.h`.  The
percentage operator is a binary operator (`ParseExpression` tests for it
inside the binary branch). -/
def TokenIsBinary (token_ID : TokenKind) : Bool :=
  match token_ID with
  | kTokenOperatorBinary _ => true
  | kTokenOperatorPercentage => true
  | _ => false

/-- Modelled from the spec: `TokenIsOpenPPLAction` of `TokenizerConstants.h`:
the four action keywords with an operand and the fixed keyword actions. -/
def TokenIsOpenPPLAction (token_ID : TokenKind) : Bool :=
  match token_ID with
  | kTokenActionReturn => true
  | kTokenActionRaiseTo => true
  | kTokenActionRaiseBy => true
  | kTokenActionRaise => true
  | kTokenActionUserVariableToBeSet => true
  | kTokenActionFixed _ => true
  | _ => false

/-- A token as the tokenizer delivers it.  `action` is the classification an
identifier-like token gets when it is peeked in action-sensitive mode
(`LookAhead(true)`), if it names an action. -/
structure Token where
  kind : TokenKind
  text : String
  action : Option TokenKind
  deriving DecidableEq, Repr

/-- The messages handed to `CParseErrors::Error` in `CFormulaParser.cpp`. -/
inductive ParseError
  /-- Message "Invalid function name: ..." -/
  | InvalidFunctionName
  /-- Message "Malformed conditional expression. \":\" expected, ..." -/
  | MalformedConditionalExpression
  /-- Message "Unexpected token(s) after end of function. This function is
  OH-script-style ... starts an OpenPPL-style WHEN-condition." -/
  | UnexpectedWhenAfterEndOfFunction
  /-- Message "Unexpected token(s) after end of function." -/
  | UnexpectedTokensAfterEndOfFunction
  /-- Message "Expecting a closing bracket (or bracket of another type)." -/
  | ExpectingClosingBracket
  /-- Message "Malformed function-header. Expecting a ##f$function## here." -/
  | MalformedFunctionHeader
  /-- Message "Found unknown function type. Did you forget \"f$\"?" -/
  | UnknownFunctionType
  /-- Message "Unexpected token inside list. ..." -/
  | UnexpectedTokenInsideList
  /-- Message "Unexpected token inside expression. Expecting: opening bracket,
  unary operator, identifier or number." -/
  | UnexpectedTokenInsideExpression
  /-- Message "Missing action after when-condition" without further detail. -/
  | MissingAction
  /-- Message "Missing action after when-condition ... Found a number." -/
  | MissingActionFoundNumber
  /-- Message "Missing action after when-condition ... Found a bracket." -/
  | MissingActionFoundBracket
  /-- Message "Missing action after when-condition ... Found a user-variable." -/
  | MissingActionFoundUserVariable
  /-- Message "Missing action after when-condition ... Found an identifier." -/
  | MissingActionFoundIdentifier
  /-- Message "Unexpected token. User-variable or memory-store-command expected." -/
  | UnexpectedTokenUserVariableExpected
  /-- Message "Unexpected identifier. Valid options: ..." -/
  | UnexpectedIdentifierUserVariableExpected
  /-- Message "Unsupported Shanky-style delay. ..." -/
  | UnsupportedDelay
  /-- Message "Missing keyword FORCE after action Raise. ... use RaiseTo or RaiseBy." -/
  | MissingKeywordForceAfterRaise
  /-- Message "Missing keyword FORCE after action." -/
  | MissingKeywordForce
  /-- Message "Missing expression after keyword RaiseTo. ..." -/
  | MissingExpressionAfterRaiseTo
  /-- Message "Missing expression after keyword RaiseBy. ..." -/
  | MissingExpressionAfterRaiseBy
  deriving DecidableEq, Repr

/-! ## Parse trees -/

/-- The three betsize actions of `CParseTreeTerminalNodeBetsizeAction`. -/
inductive BetsizeMode
  | RaiseTo
  | RaiseBy
  | RaiseByPercentagedPotsize
  deriving DecidableEq, Repr

/-- Expression and action nodes.  `NULL` is the absent tree.  A number node
keeps the text of the literal (its value is `StringToNumber` of that text). -/
inductive CParseTreeNode
  | NULL
  | Identifier (name : String)
  | Number (text : String)
  | FixedAction (token_ID : TokenKind)
  | BetsizeAction (mode : BetsizeMode) (expression : CParseTreeNode)
  | UserVariable (name : String)
  | EndOfFunction
  | UnaryOperator (token_ID : TokenKind) (first : CParseTreeNode)
  | BinaryOperator (token_ID : TokenKind) (first second : CParseTreeNode)
  | TernaryOperator (token_ID : TokenKind) (first second third : CParseTreeNode)
  deriving DecidableEq, Repr

/-- A node pointer (`TPParseTreeNode`): the address of a when-condition node
in the heap, or a (possibly absent) expression or action subtree. -/
inductive TPParseTreeNode
  | when (address : Nat)
  | tree (node : CParseTreeNode)
  deriving DecidableEq, Repr

/-- The absent pointer. -/
def TPParseTreeNode.null : TPParseTreeNode := TPParseTreeNode.tree CParseTreeNode.NULL

/-- A when-condition operator node (`MakeWhenCondition`): the condition in the
first sibling; second and third sibling start absent. -/
structure CParseTreeOperatorNode where
  _first_sibbling : CParseTreeNode
  _second_sibbling : TPParseTreeNode
  _third_sibbling : TPParseTreeNode
  deriving DecidableEq, Repr

/-- The node `MakeWhenCondition(condition)` builds. -/
def MakeWhenCondition (condition : CParseTreeNode) : CParseTreeOperatorNode :=
  { _first_sibbling := condition,
    _second_sibbling := TPParseTreeNode.null,
    _third_sibbling := TPParseTreeNode.null }

/-! ## Parser state -/

/-- The state the parser works on: the tokenizer (unconsumed input and the
text of the token just consumed), the error sink and the heap of
when-condition nodes allocated so far. -/
structure CFormulaParser where
  input : List Token
  token_string : String
  errors : List ParseError
  heap : List CParseTreeOperatorNode
  deriving DecidableEq, Repr

/-- A fresh parse of the given tokens. -/
def CFormulaParser.init (tokens : List Token) : CFormulaParser :=
  { input := tokens, token_string := "", errors := [], heap := [] }

/-- The call `CParseErrors::Error(message)`. -/
def Error (message : ParseError) (s : CFormulaParser) : CFormulaParser :=
  { s with errors := s.errors ++ [message] }

/-- Modelled from the spec: `GetToken() -> Token` consumes and returns the
next token; past the end of the input it keeps returning end-of-file. -/
def GetToken (s : CFormulaParser) : TokenKind × CFormulaParser :=
  match s.input with
  | [] => (kTokenEndOfFile, { s with token_string := "" })
  | t :: rest => (t.kind, { s with input := rest, token_string := t.text })

/-- Modelled from the spec: `LookAhead()` peeks without consuming. -/
def LookAhead (s : CFormulaParser) : TokenKind :=
  match s.input with
  | [] => kTokenEndOfFile
  | t :: _ => t.kind

/-- Modelled from the spec: `LookAhead(true)`, the action-sensitive peek: an
identifier that names an action is classified as that action keyword, and the
token is then delivered as such. -/
def LookAheadAction (s : CFormulaParser) : TokenKind × CFormulaParser :=
  match s.input with
  | [] => (kTokenEndOfFile, s)
  | t :: rest =>
    if t.kind = kTokenIdentifier then
      match t.action with
      | some a => (a, { s with input := { t with kind := a, action := none } :: rest })
      | none => (t.kind, s)
    else (t.kind, s)

/-- Modelled from the spec: `PushBackAdditionalPercentageOperator()`
un-consumes the percentage operator that was returned last. -/
def PushBackAdditionalPercentageOperator (s : CFormulaParser) : CFormulaParser :=
  { s with input := { kind := kTokenOperatorPercentage, text := "%", action := none } :: s.input }

/-! ## Expression parser -/

/-- The result of a parsing function: the node it returns and the state it
leaves; `none` when the fuel ran out. -/
abbrev ParseResult := Option (CParseTreeNode × CFormulaParser)

/-- `CFormulaParser::ExpectConditionalThen` (lines 188-196). -/
def ExpectConditionalThen (s : CFormulaParser) : Bool × CFormulaParser :=
  let r := GetToken s
  if r.1 ≠ kTokenOperatorConditionalElse then
    (false, Error ParseError.MalformedConditionalExpression r.2)
  else (true, r.2)

/-- `CFormulaParser::ExpectMatchingBracketClose` (lines 214-227).  The cases of
the switch have no break: a case whose test fails falls through to the tests
of the cases below it. -/
def ExpectMatchingBracketClose (opening_bracket : TokenKind) (s : CFormulaParser) :
    CFormulaParser :=
  let r := GetToken s
  let expected_bracket_close := r.1
  match opening_bracket with
  | kTokenBracketOpen_1 =>
    if expected_bracket_close = kTokenBracketClose_1 then r.2
    else if expected_bracket_close = kTokenBracketClose_2 then r.2
    else if expected_bracket_close = kTokenBracketClose_3 then r.2
    else Error ParseError.ExpectingClosingBracket r.2
  | kTokenBracketOpen_2 =>
    if expected_bracket_close = kTokenBracketClose_2 then r.2
    else if expected_bracket_close = kTokenBracketClose_3 then r.2
    else Error ParseError.ExpectingClosingBracket r.2
  | kTokenBracketOpen_3 =>
    if expected_bracket_close = kTokenBracketClose_3 then r.2
    else Error ParseError.ExpectingClosingBracket r.2
  | _ => Error ParseError.ExpectingClosingBracket r.2

/-- `CFormulaParser::ParseBracketExpression` (lines 438-451); `pe` is the
recursive call of `ParseExpression`. -/
def ParseBracketExpression (pe : CFormulaParser → ParseResult) (s : CFormulaParser) :
    ParseResult :=
  let r := GetToken s
  let opening_bracket := r.1
  match pe r.2 with
  | none => none
  | some (expression, s1) =>
    let s2 := ExpectMatchingBracketClose opening_bracket s1
    some (CParseTreeNode.UnaryOperator opening_bracket expression, s2)

/-- `CFormulaParser::ParseUnaryExpression` (lines 453-463). -/
def ParseUnaryExpression (pe : CFormulaParser → ParseResult) (s : CFormulaParser) :
    ParseResult :=
  let r := GetToken s
  let unary_operator := r.1
  match pe r.2 with
  | none => none
  | some (expression, s1) =>
    some (CParseTreeNode.UnaryOperator unary_operator expression, s1)

/-- `CFormulaParser::ParseSimpleExpression` (lines 465-492). -/
def ParseSimpleExpression (s : CFormulaParser) : CParseTreeNode × CFormulaParser :=
  let r := GetToken s
  let terminal := r.1
  if terminal = kTokenIdentifier then
    (CParseTreeNode.Identifier r.2.token_string, r.2)
  else if terminal = kTokenNumber then
    (CParseTreeNode.Number r.2.token_string, r.2)
  else (CParseTreeNode.NULL, r.2)

/-- `CFormulaParser::ParseConditionalPartialThenElseExpressions`
(lines 494-508); the two out-parameters are returned as a pair. -/
def ParseConditionalPartialThenElseExpressions (pe : CFormulaParser → ParseResult)
    (s : CFormulaParser) : Option ((CParseTreeNode × CParseTreeNode) × CFormulaParser) :=
  let r := GetToken s
  match pe r.2 with
  | none => none
  | some (then_expression, s1) =>
    let c := ExpectConditionalThen s1
    if c.1 = false then
      some ((then_expression, CParseTreeNode.NULL), c.2)
    else
      match pe c.2 with
      | none => none
      | some (else_expression, s2) => some ((then_expression, else_expression), s2)

/-- The first part of `CFormulaParser::ParseExpression` (lines 379-393): the
operand the expression starts with.  The inner `none` stands for the early
`return NULL` after the error for an unexpected token. -/
def ParseExpression_operand (pe : CFormulaParser → ParseResult) (s : CFormulaParser) :
    Option (Option CParseTreeNode × CFormulaParser) :=
  let token_ID := LookAhead s
  if TokenIsBracketOpen token_ID then
    match ParseBracketExpression pe s with
    | none => none
    | some (expression, s1) => some (some expression, s1)
  else if TokenIsUnary token_ID then
    match ParseUnaryExpression pe s with
    | none => none
    | some (expression, s1) => some (some expression, s1)
  else if token_ID = kTokenIdentifier ∨ token_ID = kTokenNumber then
    some (some (ParseSimpleExpression s).1, (ParseSimpleExpression s).2)
  else
    some (none, Error ParseError.UnexpectedTokenInsideExpression s)

/-- The second part of `CFormulaParser::ParseExpression` (lines 394-435): what
follows the operand `expression`. -/
def ParseExpression_continue (pe : CFormulaParser → ParseResult)
    (expression : CParseTreeNode) (s : CFormulaParser) : ParseResult :=
  let token_ID := LookAhead s
  if TokenIsBinary token_ID then
    let s1 := (GetToken s).2
    if token_ID = kTokenOperatorPercentage ∧ LookAhead s1 = kTokenKeywordForce then
      some (expression, PushBackAdditionalPercentageOperator s1)
    else
      match pe s1 with
      | none => none
      | some (second_expression, s2) =>
        some (CParseTreeNode.BinaryOperator token_ID expression second_expression, s2)
  else if token_ID = kTokenOperatorConditionalIf then
    match ParseConditionalPartialThenElseExpressions pe s with
    | none => none
    | some (branches, s1) =>
      some (CParseTreeNode.TernaryOperator token_ID expression branches.1 branches.2, s1)
  else
    some (expression, s)

/-- `CFormulaParser::ParseExpression` (lines 378-436). -/
def ParseExpression : Nat → CFormulaParser → ParseResult
  | 0, _ => none
  | fuel + 1, s =>
    match ParseExpression_operand (ParseExpression fuel) s with
    | none => none
    | some (none, s1) => some (CParseTreeNode.NULL, s1)
    | some (some expression, s1) => ParseExpression_continue (ParseExpression fuel) expression s1

/-! ## Action parser -/

/-- `CFormulaParser::ExpectKeywordForce` (lines 652-681). -/
def ExpectKeywordForce (last_important_roken_ID : TokenKind) (s : CFormulaParser) :
    Bool × CFormulaParser :=
  let r := GetToken s
  if r.1 = kTokenKeywordForce then
    if LookAhead r.2 = kTokenUnsupportedDelay then
      let s1 := Error ParseError.UnsupportedDelay r.2
      (true, (GetToken (GetToken s1).2).2)
    else (true, r.2)
  else if last_important_roken_ID = kTokenActionRaise then
    (false, Error ParseError.MissingKeywordForceAfterRaise r.2)
  else
    (false, Error ParseError.MissingKeywordForce r.2)

/-- `CFormulaParser::ParseOpenPPLUserVar` (lines 588-613).  `Left(4)` lowered
must be "user", or `Left(3)` must be "me_". -/
def ParseOpenPPLUserVar (s : CFormulaParser) : CParseTreeNode × CFormulaParser :=
  let r := GetToken s
  if r.1 ≠ kTokenIdentifier then
    (CParseTreeNode.NULL, Error ParseError.UnexpectedTokenUserVariableExpected r.2)
  else
    let identifier := r.2.token_string
    if (identifier.data.take 4).map Char.toLower ≠ ['u', 's', 'e', 'r']
        ∧ identifier.data.take 3 ≠ ['m', 'e', '_'] then
      (CParseTreeNode.NULL, Error ParseError.UnexpectedIdentifierUserVariableExpected r.2)
    else
      (CParseTreeNode.UserVariable identifier, r.2)

/-- `CFormulaParser::ParseOpenPPLRaiseToExpression` (lines 683-700). -/
def ParseOpenPPLRaiseToExpression (pe : CFormulaParser → ParseResult) (s : CFormulaParser) :
    ParseResult :=
  let _token_ID := LookAhead s
  if _token_ID = kTokenNumber ∨ _token_ID = kTokenIdentifier
      ∨ TokenIsBracketOpen _token_ID = true then
    match pe s with
    | none => none
    | some (expression, s1) =>
      some (CParseTreeNode.BetsizeAction BetsizeMode.RaiseTo expression, s1)
  else
    some (CParseTreeNode.NULL, Error ParseError.MissingExpressionAfterRaiseTo s)

/-- `CFormulaParser::ParseOpenPPLRaiseByExpression` (lines 702-732). -/
def ParseOpenPPLRaiseByExpression (pe : CFormulaParser → ParseResult) (s : CFormulaParser) :
    ParseResult :=
  let _token_ID := LookAhead s
  if _token_ID = kTokenNumber ∨ _token_ID = kTokenIdentifier
      ∨ TokenIsBracketOpen _token_ID = true then
    match pe s with
    | none => none
    | some (expression, s1) =>
      if LookAhead s1 = kTokenOperatorPercentage then
        some (CParseTreeNode.BetsizeAction BetsizeMode.RaiseByPercentagedPotsize expression,
          (GetToken s1).2)
      else
        some (CParseTreeNode.BetsizeAction BetsizeMode.RaiseBy expression, s1)
  else
    some (CParseTreeNode.NULL, Error ParseError.MissingExpressionAfterRaiseBy s)

/-- `CFormulaParser::ParseOpenPPLAction` (lines 615-650). -/
def ParseOpenPPLAction (pe : CFormulaParser → ParseResult) (s : CFormulaParser) :
    ParseResult :=
  let r := GetToken s
  let token_ID := r.1
  if token_ID = kTokenActionReturn then
    match pe r.2 with
    | none => none
    | some (action, s1) => some (action, (ExpectKeywordForce token_ID s1).2)
  else if token_ID = kTokenActionRaiseTo then
    match ParseOpenPPLRaiseToExpression pe r.2 with
    | none => none
    | some (action, s1) => some (action, (ExpectKeywordForce token_ID s1).2)
  else if token_ID = kTokenActionRaiseBy then
    match ParseOpenPPLRaiseByExpression pe r.2 with
    | none => none
    | some (action, s1) => some (action, (ExpectKeywordForce token_ID s1).2)
  else if token_ID = kTokenActionUserVariableToBeSet then
    some (ParseOpenPPLUserVar r.2)
  else
    some (CParseTreeNode.FixedAction token_ID, (ExpectKeywordForce token_ID r.2).2)

/-! ## When-condition nodes in the heap -/

/-- The when-condition node a pointer addresses, if it addresses one. -/
def WhenNodeAt (heap : List CParseTreeOperatorNode) (p : TPParseTreeNode) :
    Option CParseTreeOperatorNode :=
  match p with
  | TPParseTreeNode.when a => heap[a]?
  | TPParseTreeNode.tree _ => none

/-- The assignment `p->_second_sibbling = v`. -/
def SetSecondSibbling (p v : TPParseTreeNode) (heap : List CParseTreeOperatorNode) :
    List CParseTreeOperatorNode :=
  match p with
  | TPParseTreeNode.when a =>
    match heap[a]? with
    | some n => heap.set a { n with _second_sibbling := v }
    | none => heap
  | TPParseTreeNode.tree _ => heap

/-- The assignment `p->_third_sibbling = v`. -/
def SetThirdSibbling (p v : TPParseTreeNode) (heap : List CParseTreeOperatorNode) :
    List CParseTreeOperatorNode :=
  match p with
  | TPParseTreeNode.when a =>
    match heap[a]? with
    | some n => heap.set a { n with _third_sibbling := v }
    | none => heap
  | TPParseTreeNode.tree _ => heap

/-- Modelled from the spec: `CParseTreeNode::IsAnyKindOfWhenCondition`; only
the nodes in the heap are when-conditions. -/
def IsAnyKindOfWhenCondition (heap : List CParseTreeOperatorNode) (p : TPParseTreeNode) :
    Bool :=
  (WhenNodeAt heap p).isSome

/-- Modelled from the spec: `CParseTreeNode::IsOpenEndedWhenCondition`, which
is not among the sources at hand.  By the spec a when-condition is open-ended
when its then_link (second sibling) holds another when-condition, and closed
when it holds an action.  The spec does not say how a when-condition whose
second sibling is absent is classified.  The back-patcher of the source leaves
its loop on an absent current node and asks again whether the last open-ended
node is open-ended after it has set a third sibling, which presupposes that a
when-condition with neither second nor third sibling counts as open-ended.
`unlinked_is_open_ended` selects that reading (`true`) or the reading by the
spec's words alone (`false`); the results below hold for both. -/
def IsOpenEndedWhenCondition (unlinked_is_open_ended : Bool)
    (heap : List CParseTreeOperatorNode) (p : TPParseTreeNode) : Bool :=
  match WhenNodeAt heap p with
  | none => false
  | some n =>
    match n._second_sibbling with
    | TPParseTreeNode.when _ => true
    | TPParseTreeNode.tree CParseTreeNode.NULL =>
      unlinked_is_open_ended && decide (n._third_sibbling = TPParseTreeNode.null)
    | TPParseTreeNode.tree _ => false

/-- Modelled from the spec: `CParseTreeNode::IsWhenConditionWithAction`, the
closed when-condition: a when-condition that is not open-ended (the
back-patcher asserts that a node which is neither open-ended nor a
when-condition with action is no when-condition at all). -/
def IsWhenConditionWithAction (unlinked_is_open_ended : Bool)
    (heap : List CParseTreeOperatorNode) (p : TPParseTreeNode) : Bool :=
  IsAnyKindOfWhenCondition heap p && !IsOpenEndedWhenCondition unlinked_is_open_ended heap p

/-- Modelled from the spec: `GetRightMostSibbling` of a when-condition is its
else_link, the third sibling. -/
def GetRightMostSibbling (heap : List CParseTreeOperatorNode) (p : TPParseTreeNode) :
    TPParseTreeNode :=
  match WhenNodeAt heap p with
  | some n => n._third_sibbling
  | none => TPParseTreeNode.null

/-- Modelled from the spec: `SetRightMostSibbling` of a when-condition sets
its else_link, the third sibling. -/
def SetRightMostSibbling (p v : TPParseTreeNode) (heap : List CParseTreeOperatorNode) :
    List CParseTreeOperatorNode :=
  SetThirdSibbling p v heap

/-- The second sibling of the node `p` addresses (absent for a dangling `p`). -/
def SecondSibbling (heap : List CParseTreeOperatorNode) (p : TPParseTreeNode) :
    TPParseTreeNode :=
  match WhenNodeAt heap p with
  | some n => n._second_sibbling
  | none => TPParseTreeNode.null

/-! ## Chain builder -/

/-- Modelled from the spec: the text `GetTokenString` yields inside
`ErrorMissingAction`, the text of the offending token that `LookAhead` has
just scanned. -/
def LookAheadTokenString (s : CFormulaParser) : String :=
  match s.input with
  | [] => ""
  | t :: _ => t.text

/-- `CFormulaParser::ErrorMissingAction` (lines 510-527). -/
def ErrorMissingAction (token_ID : TokenKind) (s : CFormulaParser) : CFormulaParser :=
  if token_ID = kTokenNumber then
    Error ParseError.MissingActionFoundNumber s
  else if TokenIsBracketOpen token_ID then
    Error ParseError.MissingActionFoundBracket s
  else if token_ID = kTokenIdentifier then
    if ((LookAheadTokenString s).data.map Char.toLower).take 4 = ['u', 's', 'e', 'r'] then
      Error ParseError.MissingActionFoundUserVariable s
    else
      Error ParseError.MissingActionFoundIdentifier s
  else
    Error ParseError.MissingAction s

/-- The while loop of `CFormulaParser::ParseOpenEndedWhenConditionSequence`
(lines 534-584), entered with the current values of the local variables. -/
def ParseOpenEndedWhenConditionSequence_loop :
    Nat → TokenKind → TPParseTreeNode → Bool → TPParseTreeNode → CFormulaParser →
    Option (TPParseTreeNode × CFormulaParser)
  | 0, _, _, _, _, _ => none
  | fuel + 1, token_ID, last_when_condition, last_when_condition_was_open_ended,
      first_when_condition_of_sequence, s =>
    if token_ID ≠ kTokenOperatorConditionalWhen then
      some (first_when_condition_of_sequence, s)
    else
      match ParseExpression fuel (GetToken s).2 with
      | none => none
      | some (condition, s1) =>
        let when_condition := TPParseTreeNode.when s1.heap.length
        let heap1 := s1.heap ++ [MakeWhenCondition condition]
        let first :=
          if first_when_condition_of_sequence = TPParseTreeNode.null then when_condition
          else first_when_condition_of_sequence
        let heap2 :=
          if last_when_condition ≠ TPParseTreeNode.null then
            if last_when_condition_was_open_ended then
              SetSecondSibbling last_when_condition when_condition heap1
            else
              SetThirdSibbling last_when_condition when_condition heap1
          else heap1
        let la := LookAheadAction { s1 with heap := heap2 }
        if TokenIsOpenPPLAction la.1 then
          match ParseOpenPPLAction (ParseExpression fuel) la.2 with
          | none => none
          | some (action, s2) =>
            let heap3 := SetSecondSibbling when_condition (TPParseTreeNode.tree action) s2.heap
            let s3 := { s2 with heap := heap3 }
            ParseOpenEndedWhenConditionSequence_loop fuel (LookAhead s3) when_condition false
              first s3
        else if la.1 = kTokenOperatorConditionalWhen then
          ParseOpenEndedWhenConditionSequence_loop fuel la.1 when_condition true first la.2
        else if la.1 = kTokenEndOfFile ∨ la.1 = kTokenEndOfFunction then
          some (first, la.2)
        else
          some (first, ErrorMissingAction la.1 la.2)

/-- `CFormulaParser::ParseOpenEndedWhenConditionSequence` (lines 529-586). -/
def ParseOpenEndedWhenConditionSequence (fuel : Nat) (s : CFormulaParser) :
    Option (TPParseTreeNode × CFormulaParser) :=
  ParseOpenEndedWhenConditionSequence_loop fuel (LookAhead s) TPParseTreeNode.null false
    TPParseTreeNode.null s

/-! ## Back-patcher -/

/-- The values of the local variables of the back-patcher when its loop ends. -/
structure BackPatchLocals where
  heap : List CParseTreeOperatorNode
  last_open_ended_when_condition : TPParseTreeNode
  last_when_condition : TPParseTreeNode
  deriving DecidableEq, Repr

/-- The while loop of `CFormulaParser::BackPatchOpenEndedWhenConditionSequence`
(lines 742-776). -/
def BackPatch_loop (unlinked_is_open_ended : Bool) :
    Nat → List CParseTreeOperatorNode → TPParseTreeNode → TPParseTreeNode →
    TPParseTreeNode → Option BackPatchLocals
  | 0, _, _, _, _ => none
  | fuel + 1, heap, last_open_ended_when_condition, current_when_condition,
      last_when_condition =>
    if current_when_condition = TPParseTreeNode.null then
      some ⟨heap, last_open_ended_when_condition, last_when_condition⟩
    else if IsOpenEndedWhenCondition unlinked_is_open_ended heap current_when_condition then
      let heap1 :=
        if last_open_ended_when_condition ≠ TPParseTreeNode.null then
          SetRightMostSibbling last_open_ended_when_condition current_when_condition heap
        else heap
      BackPatch_loop unlinked_is_open_ended fuel heap1 current_when_condition
        (SecondSibbling heap1 current_when_condition) current_when_condition
    else if IsWhenConditionWithAction unlinked_is_open_ended heap current_when_condition then
      let right_most_sibbling := GetRightMostSibbling heap current_when_condition
      if right_most_sibbling = TPParseTreeNode.null
          ∨ IsAnyKindOfWhenCondition heap right_most_sibbling = false then
        some ⟨heap, last_open_ended_when_condition, current_when_condition⟩
      else
        BackPatch_loop unlinked_is_open_ended fuel heap last_open_ended_when_condition
          right_most_sibbling current_when_condition
    else
      some ⟨heap, last_open_ended_when_condition, current_when_condition⟩

/-- The end-of-function node the back-patcher allocates. -/
def end_of_function_node : TPParseTreeNode :=
  TPParseTreeNode.tree CParseTreeNode.EndOfFunction

/-- The part of the back-patcher after its loop (lines 777-789). -/
def BackPatch_finish (unlinked_is_open_ended : Bool) (l : BackPatchLocals) :
    List CParseTreeOperatorNode :=
  let heap1 := SetThirdSibbling l.last_when_condition end_of_function_node l.heap
  if l.last_open_ended_when_condition ≠ TPParseTreeNode.null then
    if IsOpenEndedWhenCondition unlinked_is_open_ended heap1
        l.last_open_ended_when_condition then
      SetThirdSibbling l.last_open_ended_when_condition end_of_function_node heap1
    else heap1
  else heap1

/-- `CFormulaParser::BackPatchOpenEndedWhenConditionSequence` (lines 734-790),
on the heap. -/
def BackPatchOpenEndedWhenConditionSequence (unlinked_is_open_ended : Bool) (fuel : Nat)
    (first_when_condition_of_a_function : TPParseTreeNode)
    (heap : List CParseTreeOperatorNode) : Option (List CParseTreeOperatorNode) :=
  match BackPatch_loop unlinked_is_open_ended fuel heap TPParseTreeNode.null
      first_when_condition_of_a_function first_when_condition_of_a_function with
  | none => none
  | some l => some (BackPatch_finish unlinked_is_open_ended l)

/-- `CFormulaParser::ParseFunctionBody` (lines 350-376). -/
def ParseFunctionBody (unlinked_is_open_ended : Bool) (fuel : Nat) (s : CFormulaParser) :
    Option (TPParseTreeNode × CFormulaParser) :=
  let token_ID := LookAhead s
  if token_ID = kTokenEndOfFile ∨ token_ID = kTokenEndOfFunction then
    some (end_of_function_node, s)
  else if token_ID = kTokenOperatorConditionalWhen then
    match ParseOpenEndedWhenConditionSequence fuel s with
    | none => none
    | some (open_ended_when_condition, s1) =>
      match BackPatchOpenEndedWhenConditionSequence unlinked_is_open_ended fuel
          open_ended_when_condition s1.heap with
      | none => none
      | some heap1 => some (open_ended_when_condition, { s1 with heap := heap1 })
  else
    match ParseExpression fuel s with
    | none => none
    | some (expression, s1) => some (TPParseTreeNode.tree expression, s1)

/-! ## Lists, names and the driver -/

/-- `CFormulaParser::CheckForExtraTokensAfterEndOfFunction` (lines 198-212). -/
def CheckForExtraTokensAfterEndOfFunction (s : CFormulaParser) : CFormulaParser :=
  let r := GetToken s
  if r.1 = kTokenOperatorConditionalWhen then
    Error ParseError.UnexpectedWhenAfterEndOfFunction r.2
  else if r.1 ≠ kTokenEndOfFile ∧ r.1 ≠ kTokenEndOfFunction then
    Error ParseError.UnexpectedTokensAfterEndOfFunction r.2
  else r.2

/-- The while loop of `CFormulaParser::ParseListBody` (lines 326-347), entered
with the token just read.  `Set` is the setter of the list (`list->Set`), an
external collaborator: it says whether it accepts the text of a token.  The
texts handed to the setter so far are collected in `received`. -/
def ParseListBody_loop (Set : String → Bool) :
    Nat → TokenKind → List String → CFormulaParser → Option (List String × CFormulaParser)
  | 0, _, _, _ => none
  | fuel + 1, token_ID, received, s =>
    if token_ID = kTokenEndOfFunction then some (received, s)
    else if token_ID = kTokenIdentifier ∨ token_ID = kTokenNumber ∨ token_ID = kTokenCards then
      let _token := s.token_string
      if Set _token = false then some (received ++ [_token], s)
      else
        ParseListBody_loop Set fuel (GetToken s).1 (received ++ [_token]) (GetToken s).2
    else
      some (received, Error ParseError.UnexpectedTokenInsideList s)

/-- `CFormulaParser::ParseListBody` (lines 324-348): the texts handed to the
setter of the list, in order, and the state the parser is left in. -/
def ParseListBody (Set : String → Bool) (fuel : Nat) (s : CFormulaParser) :
    Option (List String × CFormulaParser) :=
  ParseListBody_loop Set fuel (GetToken s).1 [] (GetToken s).2

/-- The character `name[0]` of a `CString`; for the empty string this is the
terminating zero. -/
def FirstCharacter (name : String) : Char :=
  match name.data with
  | [] => Char.ofNat 0
  | c :: _ => c

/-- `CFormulaParser::VerifyFunctionNamingConventions` (lines 149-174).
`OpenPPLLibraryLoaded` is the answer of `p_function_collection`; `Left(n)` is
the string of the first `n` characters; `isupper` is taken in the C locale. -/
def VerifyFunctionNamingConventions (OpenPPLLibraryLoaded : Bool) (name : String)
    (s : CFormulaParser) : Bool × CFormulaParser :=
  if OpenPPLLibraryLoaded then
    if name.data.take 2 = ['f', '$'] then (true, s)
    else if name.data.take 4 = ['l', 'i', 's', 't'] then (true, s)
    else if name = "notes" then (true, s)
    else if name = "dll" then (true, s)
    else if name.data.take 2 = ['2', '0'] then (true, s)
    else (false, Error ParseError.InvalidFunctionName s)
  else
    if (FirstCharacter name).isUpper then (true, s)
    else (false, Error ParseError.InvalidFunctionName s)

/-- The loop of `CFormulaParser::IsValidFunctionName` (lines 178-184) over the
characters that are left; `isalnum` is taken in the C locale. -/
def IsValidFunctionName_loop : List Char → Bool
  | [] => true
  | next_character :: rest =>
    if next_character.isAlphanum then IsValidFunctionName_loop rest
    else if next_character = '_' then IsValidFunctionName_loop rest
    else if next_character = '$' then IsValidFunctionName_loop rest
    else false

/-- `CFormulaParser::IsValidFunctionName` (lines 176-186). -/
def IsValidFunctionName (name : String) : Bool :=
  IsValidFunctionName_loop name.data

/-- Modelled from the spec: the named unit handed to `ParseFormula`
(`COHScriptObject`, not among the sources at hand): its name, its source text
as the tokens the tokenizer delivers for it, the answers of `IsFunction`,
`IsOpenPPLSymbol` and `IsList`, and, for a list, its setter. -/
structure COHScriptObject where
  name : String
  tokens : List Token
  IsFunction : Bool
  IsOpenPPLSymbol : Bool
  IsList : Bool
  Set : String → Bool

/-- The calls `ParseFormula` makes to its collaborators, as they are logged. -/
inductive CollaboratorCall
  /-- The call `p_watchdog->MarkThisInstanceAsAlive()`. -/
  | MarkThisInstanceAsAlive
  /-- The call `list->Set(token)` with the text of a token. -/
  | Set (token : String)
  /-- The call `SetParseTree(function_body)` on the function looked up under `name`. -/
  | SetParseTree (name : String) (function_body : TPParseTreeNode)
  /-- The call `_parse_tree_rotator.Rotate` for the function looked up under `name`. -/
  | Rotate (name : String)
  deriving DecidableEq, Repr

/-- The parser as `ParseFormula` sees it: the state of the parsing functions,
the reentrancy counter, the global `_function_name` and the log of the calls
to the collaborators. -/
structure ParseSession where
  parser : CFormulaParser
  _is_parsing_counter : Int
  _function_name : String
  calls : List CollaboratorCall
  deriving DecidableEq, Repr

/-- `CFormulaParser::EnterParserCode` (lines 63-69). -/
def EnterParserCode (p : ParseSession) : ParseSession :=
  { p with _is_parsing_counter := p._is_parsing_counter + 1 }

/-- `CFormulaParser::LeaveParserCode` (lines 71-74). -/
def LeaveParserCode (p : ParseSession) : ParseSession :=
  { p with _is_parsing_counter := p._is_parsing_counter - 1 }

/-- Modelled from the spec: `_tokenizer.SetInputFunction` binds the tokenizer
to the source text of the unit; no token is consumed. -/
def SetInputFunction (function_or_list_to_be_parsed : COHScriptObject) (s : CFormulaParser) :
    CFormulaParser :=
  { s with input := function_or_list_to_be_parsed.tokens }

/-- The in-place `CString::MakeLower`. -/
def MakeLower (name : String) : String :=
  String.mk (name.data.map Char.toLower)

/-- The end of `CFormulaParser::ParseFormula` (lines 309-321): the tree is
attached to the function looked up under `_function_name`, the rotator is
invoked for it, and the parser code is left. -/
def ParseFormula_attach (function_body : TPParseTreeNode) (p : ParseSession) : ParseSession :=
  let attach := CollaboratorCall.SetParseTree p._function_name function_body
  let rotate := CollaboratorCall.Rotate p._function_name
  LeaveParserCode { p with calls := p.calls ++ [attach, rotate] }

/-- `CFormulaParser::ParseFormula` (lines 229-322).  The writes to `vali_err`
on line 277 only gate a log line and are not modelled. -/
def ParseFormula (unlinked_is_open_ended : Bool) (fuel : Nat)
    (function_or_list_to_be_parsed : COHScriptObject) (p : ParseSession) :
    Option ParseSession :=
  let p1 := EnterParserCode p
  let p2 := { p1 with calls := p1.calls ++ [CollaboratorCall.MarkThisInstanceAsAlive] }
  let s3 := SetInputFunction function_or_list_to_be_parsed p2.parser
  let p3 := { p2 with _function_name := function_or_list_to_be_parsed.name, parser := s3 }
  if (FirstCharacter p3._function_name).isDigit then
    some (LeaveParserCode p3)
  else if IsValidFunctionName p3._function_name = false then
    let s4 := Error ParseError.MalformedFunctionHeader p3.parser
    some (LeaveParserCode { p3 with parser := s4 })
  else if function_or_list_to_be_parsed.IsFunction
      || function_or_list_to_be_parsed.IsOpenPPLSymbol then
    match ParseFunctionBody unlinked_is_open_ended fuel p3.parser with
    | none => none
    | some (function_body, s4) =>
      let s5 := CheckForExtraTokensAfterEndOfFunction s4
      some (ParseFormula_attach function_body { p3 with parser := s5 })
  else if function_or_list_to_be_parsed.IsList then
    match ParseListBody function_or_list_to_be_parsed.Set fuel p3.parser with
    | none => none
    | some (received, s4) =>
      let calls4 := p3.calls ++ received.map CollaboratorCall.Set
      some (LeaveParserCode { p3 with parser := s4, calls := calls4 })
  else
    let p4 := { p3 with _function_name := MakeLower p3._function_name }
    if p4._function_name = "dll" then
      some (ParseFormula_attach TPParseTreeNode.null p4)
    else if MakeLower p4._function_name = "notes" then
      let p5 := { p4 with _function_name := MakeLower p4._function_name }
      some (ParseFormula_attach TPParseTreeNode.null p5)
    else
      let p5 := { p4 with _function_name := MakeLower p4._function_name }
      let s6 := Error ParseError.UnknownFunctionType p5.parser
      some (LeaveParserCode { p5 with parser := s6 })

/-! ## Game states (`CGameState.cpp`) -/

/-- `kMaxIndex` (line 52); it must be 2^N - 1 for the bitwise range
normalisation. -/
def kMaxIndex : Nat := 0xFF

/-- The members of `CGameState` the functions below work on: the ring index
`state_index` (an `int` that `AssertRange` keeps within 0..kMaxIndex; it is
only ever set to `kMaxIndex`, incremented and masked) and the array `state` of
game states.  The type of a game state (`SHoldemState`) is not among the
sources at hand and is a parameter. -/
structure CGameState (SHoldemState : Type) where
  state_index : Nat
  state : List SHoldemState

/-- `CGameState::CGameState` (lines 54-62): the index starts at `kMaxIndex`;
the array is left as it is. -/
def CGameState.CGameState {SHoldemState : Type} (state : List SHoldemState) :
    CGameState SHoldemState :=
  { state_index := kMaxIndex, state := state }

/-- `CGameState::AdvanceStateIndex` (lines 67-72). -/
def AdvanceStateIndex {SHoldemState : Type} (g : CGameState SHoldemState) :
    CGameState SHoldemState :=
  { g with state_index := (g.state_index + 1) &&& kMaxIndex }

/-- `CGameState::CaptureState` (lines 74-128): advances the index and fills
the slot `state[state_index]`.  `Capture` is what the assignments of lines
76-127 make of that slot out of the table state held by the collaborators
(scraper, table state, symbol engines). -/
def CaptureState {SHoldemState : Type} (Capture : SHoldemState → SHoldemState)
    (g : CGameState SHoldemState) : CGameState SHoldemState :=
  let g1 := AdvanceStateIndex g
  { g1 with state := g1.state.modify Capture g1.state_index }

/-! ## Entry points for whole files -/

/-- The parser object the entry points work on: the parse session and the two
mode flags of `CFormulaParser` (constructor, lines 54-58). -/
structure CFormulaParserObject where
  session : ParseSession
  _is_parsing_read_only_function_library : Bool
  _is_parsing_debug_tab : Bool
  deriving DecidableEq, Repr

/-- `CFormulaParser::CFormulaParser` (lines 54-58): the counter starts at 0,
both flags are off; the global `_function_name` starts empty. -/
def CFormulaParserObject.CFormulaParser : CFormulaParserObject :=
  { session := ParseSession.mk (CFormulaParser.init []) 0 "" [],
    _is_parsing_read_only_function_library := false,
    _is_parsing_debug_tab := false }

/-- `EnterParserCode` (lines 63-69) on the parser object. -/
def CFormulaParserObject.EnterParserCode (o : CFormulaParserObject) : CFormulaParserObject :=
  { o with session := OpenHoldem.EnterParserCode o.session }

/-- `LeaveParserCode` (lines 71-74) on the parser object. -/
def CFormulaParserObject.LeaveParserCode (o : CFormulaParserObject) : CFormulaParserObject :=
  { o with session := OpenHoldem.LeaveParserCode o.session }

/-- Modelled from the spec: the collaborators outside `CFormulaParser.cpp`
that the entry points for whole files call.  They act on the world outside the
parser (`World`: files, function collection, debug tab); the file splitter,
`ParseAll` and `Evaluate` may call back into the parser and so act on the
parser object as well.  `_access` is true when the file exists
(`_access(path, F_OK) == 0`); `kOpenPPLLibraries` holds the paths of the
modular OpenPPL libraries; `SetInputBufferByDebugTab` is the token stream the
tokenizer scans from a line of the debug tab; `RotateExpression` is
`_parse_tree_rotator.Rotate(expression, &expression)`. -/
structure Collaborators (World : Type) where
  _access : String → World → Bool
  OH_MessageBox_Error_Warning : String → World → World
  SplitFile : String → World × CFormulaParserObject → World × CFormulaParserObject
  ParseAll : World × CFormulaParserObject → World × CFormulaParserObject
  Evaluate : World × CFormulaParserObject → World × CFormulaParserObject
  SetOpenPPLLibraryLoaded : Bool → World → World
  VerifyExistenceOfOpenPPLInitializationInLibrary : World → World
  kOpenPPLLibraries : List String
  CustomLibraryPath : World → String
  DebugTabClear : World → World
  AddExpression : String → CParseTreeNode → World → World
  RotateExpression : CParseTreeNode → CParseTreeNode
  SetInputBufferByDebugTab : String → List Token

/-- `CFormulaParser::LoadFunctionsFromArchive` (lines 144-146). -/
def LoadFunctionsFromArchive {World : Type} (c : Collaborators World) (formula_file : String)
    (w : World × CFormulaParserObject) : World × CFormulaParserObject :=
  c.SplitFile formula_file w

/-- `CFormulaParser::ParseFormulaFileWithUserDefinedBotLogic` (lines 86-95). -/
def ParseFormulaFileWithUserDefinedBotLogic {World : Type} (c : Collaborators World)
    (formula_file : String) (w : World × CFormulaParserObject) :
    World × CFormulaParserObject :=
  let w1 := (w.1, w.2.EnterParserCode)
  let w2 := LoadFunctionsFromArchive c formula_file w1
  let w3 := c.ParseAll w2
  let w4 := (w3.1, w3.2.LeaveParserCode)
  c.Evaluate w4

/-- `CFormulaParser::LoadFunctionsFromLibrary` (lines 121-142). -/
def LoadFunctionsFromLibrary {World : Type} (c : Collaborators World) (library_path : String)
    (w : World × CFormulaParserObject) : World × CFormulaParserObject :=
  if c._access library_path w.1 = false then
    let message := "Can not load \"" ++ library_path ++ "\".\nFile not found.\n"
    (c.OH_MessageBox_Error_Warning message w.1, w.2)
  else
    let w1 := (w.1, w.2.EnterParserCode)
    let w2 := (w1.1, { w1.2 with _is_parsing_read_only_function_library := true })
    let w3 := LoadFunctionsFromArchive c library_path w2
    let w4 := (w3.1, { w3.2 with _is_parsing_read_only_function_library := false })
    (w4.1, w4.2.LeaveParserCode)

/-- `CFormulaParser::ParseDefaultLibraries` (lines 97-119). -/
def ParseDefaultLibraries {World : Type} (c : Collaborators World)
    (w : World × CFormulaParserObject) : World × CFormulaParserObject :=
  let w1 := (w.1, w.2.EnterParserCode)
  let w2 := (c.SetOpenPPLLibraryLoaded false w1.1, w1.2)
  let w3 := c.kOpenPPLLibraries.foldl
    (fun w0 library_path => LoadFunctionsFromLibrary c library_path w0) w2
  let w4 := (c.SetOpenPPLLibraryLoaded true w3.1, w3.2)
  let w5 := LoadFunctionsFromLibrary c (c.CustomLibraryPath w4.1) w4
  let w6 := (c.VerifyExistenceOfOpenPPLInitializationInLibrary w5.1, w5.2)
  let w7 := c.ParseAll w6
  (w7.1, w7.2.LeaveParserCode)

/-- The expression text of a line of the debug tab (lines 802-809): everything
behind the first "=", or nothing when the line has no "=". -/
def DebugTabExpressionText (next_line : String) : Option String :=
  match next_line.data.dropWhile (fun ch => ch ≠ '=') with
  | [] => none
  | _ :: expression_text => some (String.mk expression_text)

/-- The tokenizer bound to a line of the debug tab. -/
def SetInputBuffer (tokens : List Token) (o : CFormulaParserObject) : CFormulaParser :=
  { o.session.parser with input := tokens }

/-- The parser object with the state the expression parser has left. -/
def WithParser (s : CFormulaParser) (o : CFormulaParserObject) : CFormulaParserObject :=
  { o with session := { o.session with parser := s } }

/-- The loop over the lines of `CFormulaParser::ParseDebugTab`
(lines 800-818). -/
def ParseDebugTab_loop {World : Type} (c : Collaborators World) (fuel : Nat) :
    List String → World × CFormulaParserObject → Option (World × CFormulaParserObject)
  | [], w => some w
  | next_line :: lines, w =>
    match DebugTabExpressionText next_line with
    | none => ParseDebugTab_loop c fuel lines w
    | some expression_text =>
      let s1 := SetInputBuffer (c.SetInputBufferByDebugTab expression_text) w.2
      match ParseExpression fuel s1 with
      | none => none
      | some (expression, s2) =>
        let expression1 := c.RotateExpression expression
        ParseDebugTab_loop c fuel lines
          (c.AddExpression expression_text expression1 w.1, WithParser s2 w.2)

/-- `CFormulaParser::ParseDebugTab` (lines 792-821).  The lines are the
substrings `AfxExtractSubString` extracts: the text split at the line
feeds. -/
def ParseDebugTab {World : Type} (c : Collaborators World) (fuel : Nat)
    (function_text : String) (w : World × CFormulaParserObject) :
    Option (World × CFormulaParserObject) :=
  let w1 := (w.1, w.2.EnterParserCode)
  let w2 := (c.DebugTabClear w1.1, { w1.2 with _is_parsing_debug_tab := true })
  match ParseDebugTab_loop c fuel (function_text.splitOn "\n") w2 with
  | none => none
  | some w3 =>
    let w4 := (w3.1, { w3.2 with _is_parsing_debug_tab := false })
    some (w4.1, w4.2.LeaveParserCode)

/-! ## How the chain builder leaves its loop -/

/-- The while loop of `CFormulaParser::ParseOpenEndedWhenConditionSequence`
(lines 534-584) once more, with the same steps on the same state, returning in
addition how the loop was left: `true` when it was left through the branch
commented "Parsing successfully finished" (lines 574-579), that is when
end-of-file or end-of-function follows a when-condition directly, so that the
last when-condition has no action; `false` when it was left at the loop test
(the token after an action is not "when") or after `ErrorMissingAction`. -/
def ParseOpenEndedWhenConditionSequence_loop_exit :
    Nat → TokenKind → TPParseTreeNode → Bool → TPParseTreeNode → CFormulaParser →
    Option (Bool × TPParseTreeNode × CFormulaParser)
  | 0, _, _, _, _, _ => none
  | fuel + 1, token_ID, last_when_condition, last_when_condition_was_open_ended,
      first_when_condition_of_sequence, s =>
    if token_ID ≠ kTokenOperatorConditionalWhen then
      some (false, first_when_condition_of_sequence, s)
    else
      match ParseExpression fuel (GetToken s).2 with
      | none => none
      | some (condition, s1) =>
        let when_condition := TPParseTreeNode.when s1.heap.length
        let heap1 := s1.heap ++ [MakeWhenCondition condition]
        let first :=
          if first_when_condition_of_sequence = TPParseTreeNode.null then when_condition
          else first_when_condition_of_sequence
        let heap2 :=
          if last_when_condition ≠ TPParseTreeNode.null then
            if last_when_condition_was_open_ended then
              SetSecondSibbling last_when_condition when_condition heap1
            else
              SetThirdSibbling last_when_condition when_condition heap1
          else heap1
        let la := LookAheadAction { s1 with heap := heap2 }
        if TokenIsOpenPPLAction la.1 then
          match ParseOpenPPLAction (ParseExpression fuel) la.2 with
          | none => none
          | some (action, s2) =>
            let heap3 := SetSecondSibbling when_condition (TPParseTreeNode.tree action) s2.heap
            let s3 := { s2 with heap := heap3 }
            ParseOpenEndedWhenConditionSequence_loop_exit fuel (LookAhead s3) when_condition
              false first s3
        else if la.1 = kTokenOperatorConditionalWhen then
          ParseOpenEndedWhenConditionSequence_loop_exit fuel la.1 when_condition true first la.2
        else if la.1 = kTokenEndOfFile ∨ la.1 = kTokenEndOfFunction then
          some (true, first, la.2)
        else
          some (false, first, ErrorMissingAction la.1 la.2)

/-! ## Vocabulary of the statements -/

/-- The state `s1` comes after `s` in a parse: the heap is the same, the input
has not grown and no reported error has been dropped. -/
def Advances (s s1 : CFormulaParser) : Prop :=
  s1.heap = s.heap ∧ s1.input.length ≤ s.input.length ∧ s.errors.length ≤ s1.errors.length

/-- Node `i` of a chain is linked to the node of the next clause: either it is
open-ended (second sibling is node `i + 1`, third sibling absent) or it holds
an action slot in its second sibling and node `i + 1` in its third. -/
def LinkedAt (i : Nat) (n : CParseTreeOperatorNode) : Prop :=
  (n._second_sibbling = TPParseTreeNode.when (i + 1)
      ∧ n._third_sibbling = TPParseTreeNode.null) ∨
  (∃ t, n._second_sibbling = TPParseTreeNode.tree t
      ∧ n._third_sibbling = TPParseTreeNode.when (i + 1))

/-- The last node of a chain: no when-condition in its second sibling and an
absent third sibling. -/
def EndsChain (n : CParseTreeOperatorNode) : Prop :=
  (∃ t, n._second_sibbling = TPParseTreeNode.tree t)
    ∧ n._third_sibbling = TPParseTreeNode.null

/-- The shape of the heap the chain builder leaves: every node but the last is
linked to its successor, and the last node ends the chain. -/
def ChainShaped (heap : List CParseTreeOperatorNode) : Prop :=
  ∀ i n, heap[i]? = some n →
    (i + 1 < heap.length → LinkedAt i n) ∧ (i + 1 = heap.length → EndsChain n)

/-- Every node but the last has a second sibling. -/
def ThenLinksPresent (heap : List CParseTreeOperatorNode) : Prop :=
  ∀ i n, heap[i]? = some n → i + 1 < heap.length →
    n._second_sibbling ≠ TPParseTreeNode.null

/-- The first node among `j`, `j + 1`, ..., `j + d - 1` that is open-ended in
`heap`, or the end-of-function node when there is none. -/
def NextOpenEnded (unlinked_is_open_ended : Bool) (heap : List CParseTreeOperatorNode) :
    Nat → Nat → TPParseTreeNode
  | 0, _ => end_of_function_node
  | d + 1, j =>
    if IsOpenEndedWhenCondition unlinked_is_open_ended heap (TPParseTreeNode.when j) then
      TPParseTreeNode.when j
    else NextOpenEnded unlinked_is_open_ended heap d (j + 1)

/-- The third sibling node `i` has after back-patching the chain `heap`: an
open-ended node points to the next open-ended node, or to the end-of-function
node when none follows; the last node points to the end-of-function node; any
other node keeps the third sibling the chain builder gave it. -/
def BackPatchedThirdSibbling (unlinked_is_open_ended : Bool)
    (heap : List CParseTreeOperatorNode) (i : Nat) (n : CParseTreeOperatorNode) :
    TPParseTreeNode :=
  if IsOpenEndedWhenCondition unlinked_is_open_ended heap (TPParseTreeNode.when i) then
    NextOpenEnded unlinked_is_open_ended heap (heap.length - (i + 1)) (i + 1)
  else if i + 1 = heap.length then end_of_function_node
  else n._third_sibbling

/-- The third sibling of node `i` before the back-patcher's loop visits node
`k`, with `last_open_ended` the last open-ended node seen: the open-ended nodes
before `k`, other than `last_open_ended`, have their final third sibling. -/
def ThirdSibblingBefore (unlinked_is_open_ended : Bool) (heap : List CParseTreeOperatorNode)
    (k : Nat) (last_open_ended : TPParseTreeNode) (i : Nat) (n : CParseTreeOperatorNode) :
    TPParseTreeNode :=
  if IsOpenEndedWhenCondition unlinked_is_open_ended heap (TPParseTreeNode.when i) = true
      ∧ i < k ∧ last_open_ended ≠ TPParseTreeNode.when i then
    NextOpenEnded unlinked_is_open_ended heap (heap.length - (i + 1)) (i + 1)
  else n._third_sibbling

/-- The state of the back-patcher's loop before it visits node `k` of the chain
`heap`: `current` is the heap so far, `last_open_ended` the last open-ended
node seen, which is the last open-ended node before `k`. -/
def PatchedBefore (unlinked_is_open_ended : Bool) (heap : List CParseTreeOperatorNode)
    (k : Nat) (last_open_ended : TPParseTreeNode) (current : List CParseTreeOperatorNode) :
    Prop :=
  current.length = heap.length ∧
  (∀ i n, heap[i]? = some n →
    let third := ThirdSibblingBefore unlinked_is_open_ended heap k last_open_ended i n
    current[i]? = some { n with _third_sibbling := third }) ∧
  ((last_open_ended = TPParseTreeNode.null ∧
      ∀ i, i < k →
        IsOpenEndedWhenCondition unlinked_is_open_ended heap (TPParseTreeNode.when i) = false) ∨
    (∃ j, last_open_ended = TPParseTreeNode.when j ∧ j < k ∧
      IsOpenEndedWhenCondition unlinked_is_open_ended heap (TPParseTreeNode.when j) = true ∧
      ∀ i, j < i → i < k →
        IsOpenEndedWhenCondition unlinked_is_open_ended heap (TPParseTreeNode.when i) = false))

/-- Walking the third siblings (else links) from `p`: the addresses of the
when-conditions visited, in order, and the node the walk ends at; `none` when
the fuel runs out or a pointer dangles. -/
def ElseWalk : Nat → List CParseTreeOperatorNode → TPParseTreeNode →
    Option (List Nat × TPParseTreeNode)
  | 0, _, _ => none
  | _ + 1, _, TPParseTreeNode.tree t => some ([], TPParseTreeNode.tree t)
  | fuel + 1, heap, TPParseTreeNode.when a =>
    match heap[a]? with
    | none => none
    | some n =>
      match ElseWalk fuel heap n._third_sibbling with
      | none => none
      | some r => some (a :: r.1, r.2)

/-- Node `j` is the second or the third sibling of node `i`. -/
def IsSibblingOf (heap : List CParseTreeOperatorNode) (i j : Nat) : Prop :=
  ∃ n, heap[i]? = some n ∧
    (n._second_sibbling = TPParseTreeNode.when j ∨ n._third_sibbling = TPParseTreeNode.when j)

/-- The heap `heap1` keeps every node of `heap` at its address, with the
condition (first sibling) it was built with. -/
def KeepsConditions (heap heap1 : List CParseTreeOperatorNode) : Prop :=
  ∀ (i : Nat) (n : CParseTreeOperatorNode), heap[i]? = some n →
    ∃ n1 : CParseTreeOperatorNode, heap1[i]? = some n1 ∧ n1._first_sibbling = n._first_sibbling

/-- The token is of a kind `ParseListBody` hands to the setter of the list
(identifier, number or card literal) and the setter accepts its text. -/
def AcceptedByList (Set : String → Bool) (t : Token) : Prop :=
  (t.kind = kTokenIdentifier ∨ t.kind = kTokenNumber ∨ t.kind = kTokenCards)
    ∧ Set t.text = true

/-- The terminal node `ParseSimpleExpression` builds for an identifier or a
number token. -/
def TerminalNode (t : Token) : CParseTreeNode :=
  if t.kind = kTokenIdentifier then CParseTreeNode.Identifier t.text
  else CParseTreeNode.Number t.text

/-- The token is a simple operand: an identifier or a number. -/
def IsSimpleOperand (t : Token) : Prop :=
  t.kind = kTokenIdentifier ∨ t.kind = kTokenNumber

/-- No expression goes on into `rest`: its first token, if there is one, is
neither a binary operator nor the "?" of a ternary condition. -/
def EndsExpression (rest : List Token) : Prop :=
  ∀ (t : Token) (rest1 : List Token), rest = t :: rest1 →
    TokenIsBinary t.kind = false ∧ t.kind ≠ kTokenOperatorConditionalIf

/-- The tokens of `t1 op1 t2 op2 ... opn tn+1`, given as the first operand
and the pairs of an operator and the operand after it. -/
def OperandSequence (first : Token) : List (Token × Token) → List Token
  | [] => [first]
  | (op, next) :: more => first :: op :: OperandSequence next more

/-- The fully right-nested tree over such a sequence, by the words of the
grammar `Expression := UnaryOrPrimary (BinaryOp Expression)?`:
`Binary(op1, t1, Binary(op2, t2, ... Binary(opn, tn, tn+1)))`. -/
def RightNested (first : Token) : List (Token × Token) → CParseTreeNode
  | [] => TerminalNode first
  | (op, next) :: more =>
    CParseTreeNode.BinaryOperator op.kind (TerminalNode first) (RightNested next more)

/-- The token kind starts an expression: an opening bracket, a unary operator,
an identifier or a number (the tests of `ParseExpression`, lines 382-387). -/
def StartsExpression (token_ID : TokenKind) : Prop :=
  TokenIsBracketOpen token_ID = true ∨ TokenIsUnary token_ID = true
    ∨ token_ID = kTokenIdentifier ∨ token_ID = kTokenNumber

/-- One `CaptureState` call after the other, one for each element of
`captures`, in order. -/
def CaptureStates {SHoldemState : Type} (captures : List (SHoldemState → SHoldemState))
    (g : CGameState SHoldemState) : CGameState SHoldemState :=
  captures.foldl (fun g1 Capture => CaptureState Capture g1) g

/-- The collaborators that act on the parser object return with the reentrancy
counter they were entered with (they change it only through the balanced
entry points of the parser). -/
def KeepsCounter {World : Type} (c : Collaborators World) : Prop :=
  (∀ (formula_file : String) (w : World × CFormulaParserObject),
    (c.SplitFile formula_file w).2.session._is_parsing_counter
      = w.2.session._is_parsing_counter) ∧
  (∀ w : World × CFormulaParserObject,
    (c.ParseAll w).2.session._is_parsing_counter = w.2.session._is_parsing_counter) ∧
  (∀ w : World × CFormulaParserObject,
    (c.Evaluate w).2.session._is_parsing_counter = w.2.session._is_parsing_counter)

/-- Collaborators around a function collection that holds the one unit
`unit`: `ParseAll` has the parser parse it with `ParseFormula`; no file exists,
and the other collaborators leave everything as it is. -/
def SingleUnitCollaborators (fuel : Nat) (unit : COHScriptObject) : Collaborators Unit :=
  { _access := fun _ _ => false,
    OH_MessageBox_Error_Warning := fun _ w => w,
    SplitFile := fun _ w => w,
    ParseAll := fun w =>
      match ParseFormula true fuel unit w.2.session with
      | some p1 => (w.1, { w.2 with session := p1 })
      | none => w,
    Evaluate := fun w => w,
    SetOpenPPLLibraryLoaded := fun _ w => w,
    VerifyExistenceOfOpenPPLInitializationInLibrary := fun w => w,
    kOpenPPLLibraries := ["OpenPPL_Library.ohf"],
    CustomLibraryPath := fun _ => "custom.ohf",
    DebugTabClear := fun w => w,
    AddExpression := fun _ _ w => w,
    RotateExpression := fun expression => expression,
    SetInputBufferByDebugTab := fun _ => [] }

/-- The right-nested tree over such a sequence with `inner` applied to the
last operand in place of its terminal node:
`Binary(op1, t1, ... Binary(opn, tn, inner tn+1))`. -/
def RightNestedWith (inner : Token → CParseTreeNode) (first : Token) :
    List (Token × Token) → CParseTreeNode
  | [] => inner first
  | (op, next) :: more =>
    CParseTreeNode.BinaryOperator op.kind (TerminalNode first) (RightNestedWith inner next more)

/-- The when-condition sequence at the head of the input of `s` ends with a
when-condition without action: end-of-file or end-of-function follows the
condition of its last "when" directly (the chain builder leaves its loop at
lines 574-579). -/
def EndsWithoutAction (fuel : Nat) (s : CFormulaParser) : Bool :=
  match ParseOpenEndedWhenConditionSequence_loop_exit fuel (LookAhead s) TPParseTreeNode.null
      false TPParseTreeNode.null s with
  | some r => r.1
  | none => false

/-! ## Facts about the tokenizer model -/

theorem getElem?_lt {α : Type} (l : List α) (i : Nat) (a : α) (h : l[i]? = some a) :
    i < l.length := by
  by_contra hge
  rw [List.getElem?_eq_none (by omega)] at h
  cases h

theorem GetToken_fst (s : CFormulaParser) : (GetToken s).1 = LookAhead s := by
  unfold GetToken LookAhead
  cases s.input <;> rfl

theorem GetToken_errors (s : CFormulaParser) : (GetToken s).2.errors = s.errors := by
  unfold GetToken
  cases s.input <;> rfl

theorem GetToken_heap (s : CFormulaParser) : (GetToken s).2.heap = s.heap := by
  unfold GetToken
  cases s.input <;> rfl

theorem GetToken_input_cons (s : CFormulaParser) (t : Token) (rest : List Token)
    (h : s.input = t :: rest) : (GetToken s).2.input = rest := by
  unfold GetToken
  rw [h]

theorem LookAhead_cons (s : CFormulaParser) (t : Token) (rest : List Token)
    (h : s.input = t :: rest) : LookAhead s = t.kind := by
  unfold LookAhead
  rw [h]

theorem GetToken_input_length (s : CFormulaParser) :
    (GetToken s).2.input.length = s.input.length - 1 := by
  unfold GetToken
  cases s.input <;> simp

/-! ## Brackets -/

/-- C5 (as stated) fails: after the opener of kind 2 the closing bracket of kind 1
is reported as an error. -/
theorem ExpectMatchingBracketClose_rejects_earlier_kind :
    (ExpectMatchingBracketClose kTokenBracketOpen_2
      (CFormulaParser.init [⟨kTokenBracketClose_1, ")", none⟩])).errors
      = [ParseError.ExpectingClosingBracket] := by
  decide

/-- C5 (amended): `ExpectMatchingBracketClose` consumes one token; it reports no
error when that token is the closing bracket of the same kind as the opener,
and it reports the error "Expecting a closing bracket" when the opener is of
kind 2 and the token closes kind 1, or the opener is of kind 3 and the token
closes kind 1 or 2. -/
theorem ExpectMatchingBracketClose_kinds (s : CFormulaParser) (o c : TokenKind)
    (hc : LookAhead s = c) :
    ((o, c) ∈ [(kTokenBracketOpen_1, kTokenBracketClose_1),
        (kTokenBracketOpen_2, kTokenBracketClose_2),
        (kTokenBracketOpen_3, kTokenBracketClose_3)] →
      ExpectMatchingBracketClose o s = (GetToken s).2) ∧
    ((o, c) ∈ [(kTokenBracketOpen_2, kTokenBracketClose_1),
        (kTokenBracketOpen_3, kTokenBracketClose_1),
        (kTokenBracketOpen_3, kTokenBracketClose_2)] →
      ExpectMatchingBracketClose o s
        = Error ParseError.ExpectingClosingBracket (GetToken s).2) := by
  constructor
  · intro h
    simp only [List.mem_cons, Prod.mk.injEq, List.mem_singleton, List.not_mem_nil,
      or_false] at h
    rcases h with ⟨rfl, rfl⟩ | ⟨rfl, rfl⟩ | ⟨rfl, rfl⟩ <;>
      simp [ExpectMatchingBracketClose, GetToken_fst, hc]
  · intro h
    simp only [List.mem_cons, Prod.mk.injEq, List.mem_singleton, List.not_mem_nil,
      or_false] at h
    rcases h with ⟨rfl, rfl⟩ | ⟨rfl, rfl⟩ | ⟨rfl, rfl⟩ <;>
      simp [ExpectMatchingBracketClose, GetToken_fst, hc]

theorem ExpectMatchingBracketClose_kinds_witness :
    (ExpectMatchingBracketClose kTokenBracketOpen_2
        (CFormulaParser.init [⟨kTokenBracketClose_2, "]", none⟩])).errors = [] ∧
    (ExpectMatchingBracketClose kTokenBracketOpen_3
        (CFormulaParser.init [⟨kTokenBracketClose_2, "]", none⟩])).errors
      = [ParseError.ExpectingClosingBracket] := by
  constructor
  · rw [(ExpectMatchingBracketClose_kinds
      (CFormulaParser.init [⟨kTokenBracketClose_2, "]", none⟩])
      kTokenBracketOpen_2 kTokenBracketClose_2 (by decide)).1 (by decide)]
    decide
  · rw [(ExpectMatchingBracketClose_kinds
      (CFormulaParser.init [⟨kTokenBracketClose_2, "]", none⟩])
      kTokenBracketOpen_3 kTokenBracketClose_2 (by decide)).2 (by decide)]
    decide

theorem ExpectMatchingBracketClose_no_close (o : TokenKind) (s : CFormulaParser)
    (h : TokenIsBracketClose (LookAhead s) = false) :
    ExpectMatchingBracketClose o s
      = Error ParseError.ExpectingClosingBracket (GetToken s).2 := by
  simp only [ExpectMatchingBracketClose, GetToken_fst]
  have h1 : LookAhead s ≠ kTokenBracketClose_1 := by
    intro e; rw [e] at h; simp [TokenIsBracketClose] at h
  have h2 : LookAhead s ≠ kTokenBracketClose_2 := by
    intro e; rw [e] at h; simp [TokenIsBracketClose] at h
  have h3 : LookAhead s ≠ kTokenBracketClose_3 := by
    intro e; rw [e] at h; simp [TokenIsBracketClose] at h
  cases o <;> simp [h1, h2, h3]

/-- C6: when the token after the inner expression of a bracket expression is
not a closing bracket of any kind, `ParseBracketExpression` still returns the
unary bracket node over the tree of the inner expression, consumes that token
and reports exactly one error, "Expecting a closing bracket". -/
theorem ParseBracketExpression_missing_close (fuel : Nat) (s s1 : CFormulaParser)
    (e : CParseTreeNode)
    (hopen : TokenIsBracketOpen (LookAhead s) = true)
    (hinner : ParseExpression fuel (GetToken s).2 = some (e, s1))
    (hwell : s1.errors = s.errors)
    (hclose : TokenIsBracketClose (LookAhead s1) = false) :
    ∃ s2, ParseBracketExpression (ParseExpression fuel) s
        = some (CParseTreeNode.UnaryOperator (LookAhead s) e, s2) ∧
      s2.errors = s.errors ++ [ParseError.ExpectingClosingBracket] ∧
      s2.input = (GetToken s1).2.input := by
  have _ := hopen
  refine ⟨Error ParseError.ExpectingClosingBracket (GetToken s1).2, ?_, ?_, rfl⟩
  · unfold ParseBracketExpression
    simp only [hinner, GetToken_fst]
    rw [ExpectMatchingBracketClose_no_close _ _ hclose]
  · simp [Error, GetToken_errors, hwell]

theorem ParseBracketExpression_missing_close_witness :
    ∃ s2, ParseBracketExpression (ParseExpression 3)
        (CFormulaParser.init [⟨kTokenBracketOpen_1, "(", none⟩, ⟨kTokenNumber, "1", none⟩,
          ⟨kTokenOperatorBinary 0, "+", none⟩, ⟨kTokenNumber, "2", none⟩])
        = some (CParseTreeNode.UnaryOperator kTokenBracketOpen_1
            (CParseTreeNode.BinaryOperator (kTokenOperatorBinary 0)
              (CParseTreeNode.Number "1") (CParseTreeNode.Number "2")), s2) ∧
      s2.errors = [] ++ [ParseError.ExpectingClosingBracket] ∧
      s2.input = [] :=
  ParseBracketExpression_missing_close 3
    (CFormulaParser.init [⟨kTokenBracketOpen_1, "(", none⟩, ⟨kTokenNumber, "1", none⟩,
      ⟨kTokenOperatorBinary 0, "+", none⟩, ⟨kTokenNumber, "2", none⟩])
    { input := [], token_string := "2", errors := [], heap := [] }
    (CParseTreeNode.BinaryOperator (kTokenOperatorBinary 0)
      (CParseTreeNode.Number "1") (CParseTreeNode.Number "2"))
    (by decide) (by decide) (by decide) (by decide)

/-! ## Expressions -/

/-- C7: when the next token is not an opening bracket, a unary operator, an
identifier or a number, `ParseExpression` returns the absent tree, reports
exactly one error, "Unexpected token inside expression", and consumes no
token. -/
theorem ParseExpression_unexpected_token (fuel : Nat) (s : CFormulaParser)
    (hbracket : TokenIsBracketOpen (LookAhead s) = false)
    (hunary : TokenIsUnary (LookAhead s) = false)
    (hidentifier : LookAhead s ≠ kTokenIdentifier)
    (hnumber : LookAhead s ≠ kTokenNumber) :
    ∃ s1, ParseExpression (fuel + 1) s = some (CParseTreeNode.NULL, s1) ∧
      s1.errors = s.errors ++ [ParseError.UnexpectedTokenInsideExpression] ∧
      s1.input = s.input ∧ s1.heap = s.heap := by
  refine ⟨Error ParseError.UnexpectedTokenInsideExpression s, ?_, rfl, rfl, rfl⟩
  simp [ParseExpression, ParseExpression_operand, hbracket, hunary, hidentifier, hnumber]

theorem ParseExpression_unexpected_token_witness :
    ∃ s1, ParseExpression 1 (CFormulaParser.init [⟨kTokenKeywordForce, "Force", none⟩])
        = some (CParseTreeNode.NULL, s1) ∧
      s1.errors = [] ++ [ParseError.UnexpectedTokenInsideExpression] ∧
      s1.input = [⟨kTokenKeywordForce, "Force", none⟩] ∧ s1.heap = [] :=
  ParseExpression_unexpected_token 0
    (CFormulaParser.init [⟨kTokenKeywordForce, "Force", none⟩])
    (by decide) (by decide) (by decide) (by decide)

theorem ParseExpression_continue_percentage_force
    (pe : CFormulaParser → ParseResult) (expression : CParseTreeNode) (s : CFormulaParser)
    (t1 t2 : Token) (rest : List Token)
    (hinput : s.input = t1 :: t2 :: rest)
    (h1 : t1.kind = kTokenOperatorPercentage) (h2 : t2.kind = kTokenKeywordForce) :
    ParseExpression_continue pe expression s
      = some (expression, PushBackAdditionalPercentageOperator (GetToken s).2) := by
  have hla : LookAhead s = kTokenOperatorPercentage := by
    rw [LookAhead_cons s t1 _ hinput, h1]
  have hla2 : LookAhead (GetToken s).2 = kTokenKeywordForce := by
    rw [LookAhead_cons _ t2 rest (GetToken_input_cons s t1 _ hinput), h2]
  simp [ParseExpression_continue, hla, hla2, TokenIsBinary]

/-- C4: when `ParseExpression` has parsed its operand and the next two tokens
are the percentage operator and the keyword Force, it returns the operand
alone (no binary node), reports no error, and leaves the tokenizer so that the
next token delivered is the percentage operator, followed by Force and the
rest of the input. -/
theorem ParseExpression_percentage_force (fuel : Nat) (s s1 : CFormulaParser)
    (expression : CParseTreeNode) (t1 t2 : Token) (rest : List Token)
    (hoperand : ParseExpression_operand (ParseExpression fuel) s = some (some expression, s1))
    (hinput : s1.input = t1 :: t2 :: rest)
    (h1 : t1.kind = kTokenOperatorPercentage) (h2 : t2.kind = kTokenKeywordForce) :
    ∃ s2, ParseExpression (fuel + 1) s = some (expression, s2) ∧
      s2.errors = s1.errors ∧ s2.heap = s1.heap ∧
      (GetToken s2).1 = kTokenOperatorPercentage ∧
      (GetToken (GetToken s2).2).1 = kTokenKeywordForce ∧
      (GetToken (GetToken s2).2).2.input = rest := by
  refine ⟨PushBackAdditionalPercentageOperator (GetToken s1).2, ?_, ?_, ?_, ?_, ?_, ?_⟩
  · simp only [ParseExpression, hoperand]
    exact ParseExpression_continue_percentage_force _ _ _ t1 t2 rest hinput h1 h2
  · simp [PushBackAdditionalPercentageOperator, GetToken_errors]
  · simp [PushBackAdditionalPercentageOperator, GetToken_heap]
  · simp [PushBackAdditionalPercentageOperator, GetToken]
  · simp [PushBackAdditionalPercentageOperator, GetToken, hinput, h2]
  · simp [PushBackAdditionalPercentageOperator, GetToken, hinput]

theorem ParseExpression_percentage_force_witness :
    ∃ s2, ParseExpression 1 (CFormulaParser.init [⟨kTokenNumber, "60", none⟩,
          ⟨kTokenOperatorPercentage, "%", none⟩, ⟨kTokenKeywordForce, "Force", none⟩])
        = some (CParseTreeNode.Number "60", s2) ∧
      s2.errors = [] ∧ s2.heap = [] ∧
      (GetToken s2).1 = kTokenOperatorPercentage ∧
      (GetToken (GetToken s2).2).1 = kTokenKeywordForce ∧
      (GetToken (GetToken s2).2).2.input = [] :=
  ParseExpression_percentage_force 0
    (CFormulaParser.init [⟨kTokenNumber, "60", none⟩,
      ⟨kTokenOperatorPercentage, "%", none⟩, ⟨kTokenKeywordForce, "Force", none⟩])
    { input := [⟨kTokenOperatorPercentage, "%", none⟩, ⟨kTokenKeywordForce, "Force", none⟩],
      token_string := "60", errors := [], heap := [] }
    (CParseTreeNode.Number "60") ⟨kTokenOperatorPercentage, "%", none⟩
    ⟨kTokenKeywordForce, "Force", none⟩ [] (by decide) rfl rfl rfl

/-! ## Actions -/

theorem ExpectKeywordForce_force (last : TokenKind) (s : CFormulaParser) (t : Token)
    (rest : List Token) (hinput : s.input = t :: rest) (ht : t.kind = kTokenKeywordForce)
    (hrest : ∀ t2 rest2, rest = t2 :: rest2 → t2.kind ≠ kTokenUnsupportedDelay) :
    ExpectKeywordForce last s = (true, (GetToken s).2) := by
  have hla : LookAhead s = kTokenKeywordForce := by rw [LookAhead_cons s t _ hinput, ht]
  have hla2 : LookAhead (GetToken s).2 ≠ kTokenUnsupportedDelay := by
    unfold LookAhead
    rw [GetToken_input_cons s t rest hinput]
    cases rest with
    | nil => simp
    | cons t2 rest2 => exact hrest t2 rest2 rfl
  simp [ExpectKeywordForce, GetToken_fst, hla, hla2]

/-- C3: `ParseOpenPPLAction` on `RaiseBy e % Force`, where the operand starts
with a number, an identifier or an opening bracket and `ParseExpression`
returns the tree `e` for it: the action is the betsize action tagged
percent-of-pot over `e`, no error is reported and exactly the tokens up to and
including Force are consumed.  On `RaiseBy e Force` the action is the betsize
action tagged raise-by over `e`.  In every case the tag is percent-of-pot if
and only if the percentage operator follows the parsed expression. -/
theorem ParseOpenPPLAction_RaiseBy (fuel : Nat) (s s1 : CFormulaParser)
    (e : CParseTreeNode)
    (hraiseby : LookAhead s = kTokenActionRaiseBy)
    (hstart : LookAhead (GetToken s).2 = kTokenNumber
      ∨ LookAhead (GetToken s).2 = kTokenIdentifier
      ∨ TokenIsBracketOpen (LookAhead (GetToken s).2) = true)
    (hexpression : ParseExpression fuel (GetToken s).2 = some (e, s1)) :
    (∀ (t1 t2 : Token) (rest : List Token), s1.input = t1 :: t2 :: rest →
      t1.kind = kTokenOperatorPercentage → t2.kind = kTokenKeywordForce →
      (∀ t3 rest3, rest = t3 :: rest3 → t3.kind ≠ kTokenUnsupportedDelay) →
      ∃ s2, ParseOpenPPLAction (ParseExpression fuel) s
          = some (CParseTreeNode.BetsizeAction BetsizeMode.RaiseByPercentagedPotsize e, s2) ∧
        s2.errors = s1.errors ∧ s2.input = rest) ∧
    (∀ (t1 : Token) (rest : List Token), s1.input = t1 :: rest →
      t1.kind = kTokenKeywordForce →
      (∀ t3 rest3, rest = t3 :: rest3 → t3.kind ≠ kTokenUnsupportedDelay) →
      ∃ s2, ParseOpenPPLAction (ParseExpression fuel) s
          = some (CParseTreeNode.BetsizeAction BetsizeMode.RaiseBy e, s2) ∧
        s2.errors = s1.errors ∧ s2.input = rest) ∧
    (∃ mode s2, ParseOpenPPLAction (ParseExpression fuel) s
        = some (CParseTreeNode.BetsizeAction mode e, s2) ∧
      (mode = BetsizeMode.RaiseByPercentagedPotsize
        ↔ LookAhead s1 = kTokenOperatorPercentage)) := by
  have hstart2 : (LookAhead (GetToken s).2 = kTokenNumber
      ∨ LookAhead (GetToken s).2 = kTokenIdentifier
      ∨ TokenIsBracketOpen (LookAhead (GetToken s).2) = true) = True := by
    simp [hstart]
  refine ⟨?_, ?_, ?_⟩
  · intro t1 t2 rest hinput h1 h2 hrest
    have hla : LookAhead s1 = kTokenOperatorPercentage := by
      rw [LookAhead_cons s1 t1 _ hinput, h1]
    have hin2 : (GetToken s1).2.input = t2 :: rest := GetToken_input_cons s1 t1 _ hinput
    refine ⟨(GetToken (GetToken s1).2).2, ?_, ?_, ?_⟩
    · simp only [ParseOpenPPLAction, GetToken_fst, hraiseby, ParseOpenPPLRaiseByExpression,
        hstart2, hexpression, hla, if_true]
      rw [ExpectKeywordForce_force kTokenActionRaiseBy _ t2 rest hin2 h2 hrest]
      simp
    · simp [GetToken_errors]
    · exact GetToken_input_cons _ t2 rest hin2
  · intro t1 rest hinput h1 hrest
    have hla : LookAhead s1 ≠ kTokenOperatorPercentage := by
      rw [LookAhead_cons s1 t1 _ hinput, h1]; decide
    refine ⟨(GetToken s1).2, ?_, ?_, ?_⟩
    · simp only [ParseOpenPPLAction, GetToken_fst, hraiseby, ParseOpenPPLRaiseByExpression,
        hstart2, hexpression, hla, if_true, if_false]
      rw [ExpectKeywordForce_force kTokenActionRaiseBy _ t1 rest hinput h1 hrest]
      simp
    · simp [GetToken_errors]
    · exact GetToken_input_cons _ t1 rest hinput
  · by_cases hla : LookAhead s1 = kTokenOperatorPercentage
    · refine ⟨BetsizeMode.RaiseByPercentagedPotsize,
        (ExpectKeywordForce kTokenActionRaiseBy (GetToken s1).2).2, ?_, by simp [hla]⟩
      simp only [ParseOpenPPLAction, GetToken_fst, hraiseby, ParseOpenPPLRaiseByExpression,
        hstart2, hexpression, hla]
      simp
    · refine ⟨BetsizeMode.RaiseBy, (ExpectKeywordForce kTokenActionRaiseBy s1).2, ?_,
        by simp [hla]⟩
      simp only [ParseOpenPPLAction, GetToken_fst, hraiseby, ParseOpenPPLRaiseByExpression,
        hstart2, hexpression]
      simp [hla]

theorem ParseOpenPPLAction_RaiseBy_witness :
    ∃ s2, ParseOpenPPLAction (ParseExpression 1)
        (CFormulaParser.init [⟨kTokenActionRaiseBy, "RaiseBy", none⟩,
          ⟨kTokenNumber, "60", none⟩, ⟨kTokenOperatorPercentage, "%", none⟩,
          ⟨kTokenKeywordForce, "Force", none⟩])
        = some (CParseTreeNode.BetsizeAction BetsizeMode.RaiseByPercentagedPotsize
            (CParseTreeNode.Number "60"), s2) ∧
      s2.errors = [] ∧ s2.input = [] :=
  (ParseOpenPPLAction_RaiseBy 1
    (CFormulaParser.init [⟨kTokenActionRaiseBy, "RaiseBy", none⟩,
      ⟨kTokenNumber, "60", none⟩, ⟨kTokenOperatorPercentage, "%", none⟩,
      ⟨kTokenKeywordForce, "Force", none⟩])
    { input := [⟨kTokenOperatorPercentage, "%", none⟩, ⟨kTokenKeywordForce, "Force", none⟩],
      token_string := "%", errors := [], heap := [] }
    (CParseTreeNode.Number "60") (by decide) (by decide) (by decide)).1
    ⟨kTokenOperatorPercentage, "%", none⟩ ⟨kTokenKeywordForce, "Force", none⟩ []
    rfl rfl rfl (by simp)

/-! ## Every parse returns -/

theorem Advances.refl (s : CFormulaParser) : Advances s s :=
  ⟨rfl, Nat.le_refl _, Nat.le_refl _⟩

theorem Advances.trans {s s1 s2 : CFormulaParser} (h1 : Advances s s1) (h2 : Advances s1 s2) :
    Advances s s2 :=
  ⟨h2.1.trans h1.1, Nat.le_trans h2.2.1 h1.2.1, Nat.le_trans h1.2.2 h2.2.2⟩

theorem Advances_GetToken (s : CFormulaParser) : Advances s (GetToken s).2 := by
  refine ⟨GetToken_heap s, ?_, ?_⟩
  · rw [GetToken_input_length]; omega
  · rw [GetToken_errors]

theorem Advances_Error (m : ParseError) (s : CFormulaParser) : Advances s (Error m s) := by
  refine ⟨rfl, Nat.le_refl _, ?_⟩
  simp [Error]

theorem Error_errors_length (m : ParseError) (s : CFormulaParser) :
    (Error m s).errors.length = s.errors.length + 1 := by
  simp [Error]

theorem LookAhead_ne_EndOfFile_input (s : CFormulaParser) (h : LookAhead s ≠ kTokenEndOfFile) :
    0 < s.input.length := by
  unfold LookAhead at h
  cases hs : s.input with
  | nil => rw [hs] at h; exact absurd rfl h
  | cons t rest => simp

theorem Advances_ExpectMatchingBracketClose (o : TokenKind) (s : CFormulaParser) :
    Advances s (ExpectMatchingBracketClose o s) := by
  have hg := Advances_GetToken s
  have he := hg.trans (Advances_Error ParseError.ExpectingClosingBracket (GetToken s).2)
  unfold ExpectMatchingBracketClose
  cases o <;> simp only <;> repeat' split
  all_goals first | exact hg | exact he

theorem Advances_ExpectConditionalThen (s : CFormulaParser) :
    Advances s (ExpectConditionalThen s).2 := by
  have hg := Advances_GetToken s
  have he := hg.trans (Advances_Error ParseError.MalformedConditionalExpression (GetToken s).2)
  unfold ExpectConditionalThen
  simp only
  split
  · exact he
  · exact hg

theorem ParseExpression_operand_returns (fuel : Nat) (pe : CFormulaParser → ParseResult)
    (hpe : ∀ s, s.input.length < fuel → ∃ e s1, pe s = some (e, s1) ∧ Advances s s1)
    (s : CFormulaParser) (hs : s.input.length < fuel + 1) :
    (∃ s1, ParseExpression_operand pe s = some (none, s1) ∧ Advances s s1 ∧
        s.errors.length < s1.errors.length) ∨
    (∃ e s1, ParseExpression_operand pe s = some (some e, s1) ∧ Advances s s1 ∧
        e ≠ CParseTreeNode.NULL ∧ s1.input.length < s.input.length) := by
  unfold ParseExpression_operand
  simp only
  by_cases hb : TokenIsBracketOpen (LookAhead s) = true
  · have hpos : 0 < s.input.length :=
      LookAhead_ne_EndOfFile_input s (by intro h; rw [h] at hb; simp [TokenIsBracketOpen] at hb)
    have hlen := GetToken_input_length s
    obtain ⟨e, s1, he, ha⟩ := hpe (GetToken s).2 (by omega)
    right
    refine ⟨CParseTreeNode.UnaryOperator (GetToken s).1 e,
      ExpectMatchingBracketClose (GetToken s).1 s1, ?_, ?_, by simp, ?_⟩
    · simp [hb, ParseBracketExpression, he]
    · exact ((Advances_GetToken s).trans ha).trans (Advances_ExpectMatchingBracketClose _ _)
    · have h2 := (Advances_ExpectMatchingBracketClose (GetToken s).1 s1).2.1
      have h3 := ha.2.1
      omega
  · by_cases hu : TokenIsUnary (LookAhead s) = true
    · have hpos : 0 < s.input.length :=
        LookAhead_ne_EndOfFile_input s (by intro h; rw [h] at hu; simp [TokenIsUnary] at hu)
      have hlen := GetToken_input_length s
      obtain ⟨e, s1, he, ha⟩ := hpe (GetToken s).2 (by omega)
      right
      refine ⟨CParseTreeNode.UnaryOperator (GetToken s).1 e, s1, ?_, ?_, by simp, ?_⟩
      · simp [hb, hu, ParseUnaryExpression, he]
      · exact (Advances_GetToken s).trans ha
      · have h3 := ha.2.1
        omega
    · by_cases hi : LookAhead s = kTokenIdentifier ∨ LookAhead s = kTokenNumber
      · have hpos : 0 < s.input.length :=
          LookAhead_ne_EndOfFile_input s (by
            intro h; rw [h] at hi; rcases hi with hi | hi <;> exact absurd hi (by decide))
        have hlen := GetToken_input_length s
        right
        refine ⟨(ParseSimpleExpression s).1, (ParseSimpleExpression s).2, ?_, ?_, ?_, ?_⟩
        · simp [hb, hu, hi]
        · unfold ParseSimpleExpression
          simp only
          repeat' split
          all_goals exact Advances_GetToken s
        · unfold ParseSimpleExpression
          simp only [GetToken_fst]
          rcases hi with hi | hi <;> simp [hi]
        · unfold ParseSimpleExpression
          simp only
          repeat' split
          all_goals (simp only; omega)
      · left
        refine ⟨Error ParseError.UnexpectedTokenInsideExpression s, ?_, Advances_Error _ _, ?_⟩
        · simp [hb, hu, hi]
        · rw [Error_errors_length]; omega


theorem Advances_PushBack (s : CFormulaParser) (hpos : 0 < s.input.length) :
    Advances s (PushBackAdditionalPercentageOperator (GetToken s).2) := by
  refine ⟨?_, ?_, ?_⟩
  · simp [PushBackAdditionalPercentageOperator, GetToken_heap]
  · simp only [PushBackAdditionalPercentageOperator, List.length_cons, GetToken_input_length]
    omega
  · simp [PushBackAdditionalPercentageOperator, GetToken_errors]

theorem ParseExpression_continue_returns (fuel : Nat) (pe : CFormulaParser → ParseResult)
    (hpe : ∀ s, s.input.length < fuel → ∃ e s1, pe s = some (e, s1) ∧ Advances s s1)
    (expression : CParseTreeNode) (s : CFormulaParser) (hs : s.input.length < fuel + 1) :
    ∃ e s1, ParseExpression_continue pe expression s = some (e, s1) ∧ Advances s s1 ∧
      (expression ≠ CParseTreeNode.NULL → e ≠ CParseTreeNode.NULL) := by
  unfold ParseExpression_continue
  simp only
  by_cases hb : TokenIsBinary (LookAhead s) = true
  · have hpos : 0 < s.input.length :=
      LookAhead_ne_EndOfFile_input s (by intro h; rw [h] at hb; simp [TokenIsBinary] at hb)
    have hlen := GetToken_input_length s
    rw [if_pos hb]
    by_cases hp : LookAhead s = kTokenOperatorPercentage
        ∧ LookAhead (GetToken s).2 = kTokenKeywordForce
    · rw [if_pos hp]
      exact ⟨expression, _, rfl, Advances_PushBack s hpos, fun h => h⟩
    · rw [if_neg hp]
      obtain ⟨e, s1, he, ha⟩ := hpe (GetToken s).2 (by omega)
      rw [he]
      exact ⟨CParseTreeNode.BinaryOperator (LookAhead s) expression e, s1, rfl,
        (Advances_GetToken s).trans ha, fun _ => by simp⟩
  · rw [if_neg hb]
    by_cases hi : LookAhead s = kTokenOperatorConditionalIf
    · rw [if_pos hi]
      have hpos : 0 < s.input.length :=
        LookAhead_ne_EndOfFile_input s (by rw [hi]; decide)
      have hlen := GetToken_input_length s
      obtain ⟨e, s1, he, ha⟩ := hpe (GetToken s).2 (by omega)
      have hc := Advances_ExpectConditionalThen s1
      unfold ParseConditionalPartialThenElseExpressions
      simp only [he]
      by_cases hthen : (ExpectConditionalThen s1).1 = false
      · rw [if_pos hthen]
        exact ⟨_, (ExpectConditionalThen s1).2, rfl,
          ((Advances_GetToken s).trans ha).trans hc, fun _ => by simp⟩
      · rw [if_neg hthen]
        have h1 := ha.2.1
        have h2 := hc.2.1
        obtain ⟨e2, s2, he2, ha2⟩ := hpe (ExpectConditionalThen s1).2 (by omega)
        simp only [he2]
        exact ⟨_, s2, rfl,
          (((Advances_GetToken s).trans ha).trans hc).trans ha2, fun _ => by simp⟩
    · rw [if_neg hi]
      exact ⟨expression, s, rfl, Advances.refl s, fun h => h⟩

/-- `ParseExpression` returns whenever its fuel exceeds the number of tokens
left; it leaves the heap alone, does not lengthen the input and only adds
errors, at least one when it returns the absent tree. -/
theorem ParseExpression_returns (fuel : Nat) :
    ∀ s : CFormulaParser, s.input.length < fuel →
      ∃ e s1, ParseExpression fuel s = some (e, s1) ∧ Advances s s1 ∧
        (e = CParseTreeNode.NULL → s.errors.length < s1.errors.length) := by
  induction fuel with
  | zero => intro s hs; omega
  | succ fuel ih =>
    intro s hs
    have hpe : ∀ s, s.input.length < fuel →
        ∃ e s1, ParseExpression fuel s = some (e, s1) ∧ Advances s s1 := by
      intro s hs
      obtain ⟨e, s1, h1, h2, _⟩ := ih s hs
      exact ⟨e, s1, h1, h2⟩
    rcases ParseExpression_operand_returns fuel _ hpe s hs with
      ⟨s1, h1, ha, herr⟩ | ⟨e, s1, h1, ha, hne, hlt⟩
    · exact ⟨CParseTreeNode.NULL, s1, by simp [ParseExpression, h1], ha, fun _ => herr⟩
    · obtain ⟨e2, s2, h2, ha2, hne2⟩ :=
        ParseExpression_continue_returns fuel _ hpe e s1 (by omega)
      exact ⟨e2, s2, by simp [ParseExpression, h1, h2], ha.trans ha2,
        fun h => absurd h (hne2 hne)⟩


theorem Advances_ExpectKeywordForce (last : TokenKind) (s : CFormulaParser) :
    Advances s (ExpectKeywordForce last s).2 := by
  have hg := Advances_GetToken s
  unfold ExpectKeywordForce
  simp only
  repeat' split
  · exact ((hg.trans (Advances_Error _ _)).trans (Advances_GetToken _)).trans
      (Advances_GetToken _)
  · exact hg
  · exact hg.trans (Advances_Error _ _)
  · exact hg.trans (Advances_Error _ _)

theorem ParseOpenPPLUserVar_returns (s : CFormulaParser) :
    Advances s (ParseOpenPPLUserVar s).2 ∧
      ((ParseOpenPPLUserVar s).1 = CParseTreeNode.NULL →
        s.errors.length < (ParseOpenPPLUserVar s).2.errors.length) := by
  have hg := Advances_GetToken s
  have hl := GetToken_errors s
  unfold ParseOpenPPLUserVar
  simp only
  repeat' split
  · exact ⟨hg.trans (Advances_Error _ _), fun _ => by rw [Error_errors_length, hl]; omega⟩
  · exact ⟨hg.trans (Advances_Error _ _), fun _ => by rw [Error_errors_length, hl]; omega⟩
  · exact ⟨hg, fun h => by simp at h⟩

theorem ParseOpenPPLRaiseToExpression_returns (fuel : Nat) (s : CFormulaParser)
    (hs : s.input.length < fuel) :
    ∃ a s1, ParseOpenPPLRaiseToExpression (ParseExpression fuel) s = some (a, s1) ∧
      Advances s s1 ∧ (a = CParseTreeNode.NULL → s.errors.length < s1.errors.length) := by
  unfold ParseOpenPPLRaiseToExpression
  simp only
  split
  · obtain ⟨e, s1, he, ha, _⟩ := ParseExpression_returns fuel s hs
    rw [he]
    exact ⟨_, s1, rfl, ha, fun h => by simp at h⟩
  · exact ⟨_, _, rfl, Advances_Error _ _, fun _ => by rw [Error_errors_length]; omega⟩

theorem ParseOpenPPLRaiseByExpression_returns (fuel : Nat) (s : CFormulaParser)
    (hs : s.input.length < fuel) :
    ∃ a s1, ParseOpenPPLRaiseByExpression (ParseExpression fuel) s = some (a, s1) ∧
      Advances s s1 ∧ (a = CParseTreeNode.NULL → s.errors.length < s1.errors.length) := by
  unfold ParseOpenPPLRaiseByExpression
  simp only
  split
  · obtain ⟨e, s1, he, ha, _⟩ := ParseExpression_returns fuel s hs
    rw [he]
    simp only
    split
    · exact ⟨_, _, rfl, ha.trans (Advances_GetToken s1), fun h => by simp at h⟩
    · exact ⟨_, s1, rfl, ha, fun h => by simp at h⟩
  · exact ⟨_, _, rfl, Advances_Error _ _, fun _ => by rw [Error_errors_length]; omega⟩

/-- `ParseOpenPPLAction` returns whenever the fuel of its expression parser
exceeds the number of tokens left, and it reports an error whenever it returns
an absent action. -/
theorem ParseOpenPPLAction_returns (fuel : Nat) (s : CFormulaParser)
    (hs : s.input.length < fuel) :
    ∃ a s1, ParseOpenPPLAction (ParseExpression fuel) s = some (a, s1) ∧
      Advances s s1 ∧ (a = CParseTreeNode.NULL → s.errors.length < s1.errors.length) := by
  have hg := Advances_GetToken s
  have hlen : (GetToken s).2.input.length < fuel := by have := hg.2.1; omega
  have herr : (GetToken s).2.errors.length = s.errors.length := by rw [GetToken_errors]
  unfold ParseOpenPPLAction
  simp only
  split
  · obtain ⟨e, s1, he, ha, hn⟩ := ParseExpression_returns fuel _ hlen
    rw [he]
    have hf := Advances_ExpectKeywordForce (GetToken s).1 s1
    refine ⟨e, _, rfl, (hg.trans ha).trans hf, fun h => ?_⟩
    have h1 := hn h
    have h2 := hf.2.2
    simp only at h2 ⊢
    omega
  · split
    · obtain ⟨e, s1, he, ha, hn⟩ := ParseOpenPPLRaiseToExpression_returns fuel _ hlen
      rw [he]
      have hf := Advances_ExpectKeywordForce (GetToken s).1 s1
      refine ⟨e, _, rfl, (hg.trans ha).trans hf, fun h => ?_⟩
      have h1 := hn h
      have h2 := hf.2.2
      simp only at h2 ⊢
      omega
    · split
      · obtain ⟨e, s1, he, ha, hn⟩ := ParseOpenPPLRaiseByExpression_returns fuel _ hlen
        rw [he]
        have hf := Advances_ExpectKeywordForce (GetToken s).1 s1
        refine ⟨e, _, rfl, (hg.trans ha).trans hf, fun h => ?_⟩
        have h1 := hn h
        have h2 := hf.2.2
        simp only at h2 ⊢
        omega
      · split
        · have hu := ParseOpenPPLUserVar_returns (GetToken s).2
          refine ⟨(ParseOpenPPLUserVar (GetToken s).2).1, (ParseOpenPPLUserVar (GetToken s).2).2,
            rfl, hg.trans hu.1, fun h => ?_⟩
          have h3 := hu.2 h
          omega
        · exact ⟨_, _, rfl, hg.trans (Advances_ExpectKeywordForce _ _), fun h => by simp at h⟩


/-! ## Heap assignments -/

theorem SetSecondSibbling_length (p v : TPParseTreeNode) (heap : List CParseTreeOperatorNode) :
    (SetSecondSibbling p v heap).length = heap.length := by
  cases p with
  | tree t => rfl
  | when a =>
    simp only [SetSecondSibbling]
    split <;> simp

theorem SetThirdSibbling_length (p v : TPParseTreeNode) (heap : List CParseTreeOperatorNode) :
    (SetThirdSibbling p v heap).length = heap.length := by
  cases p with
  | tree t => rfl
  | when a =>
    simp only [SetThirdSibbling]
    split <;> simp

theorem SetSecondSibbling_get_ne (a : Nat) (v : TPParseTreeNode)
    (heap : List CParseTreeOperatorNode) (j : Nat) (h : j ≠ a) :
    (SetSecondSibbling (TPParseTreeNode.when a) v heap)[j]? = heap[j]? := by
  simp only [SetSecondSibbling]
  split
  · exact List.getElem?_set_ne (Ne.symm h)
  · rfl

theorem SetSecondSibbling_get_self (a : Nat) (v : TPParseTreeNode)
    (heap : List CParseTreeOperatorNode) (n : CParseTreeOperatorNode) (hn : heap[a]? = some n) :
    (SetSecondSibbling (TPParseTreeNode.when a) v heap)[a]?
      = some { n with _second_sibbling := v } := by
  have hlt : a < heap.length := (List.getElem?_eq_some.mp hn).1
  simp only [SetSecondSibbling, hn]
  exact List.getElem?_set_self hlt

theorem SetThirdSibbling_get_ne (a : Nat) (v : TPParseTreeNode)
    (heap : List CParseTreeOperatorNode) (j : Nat) (h : j ≠ a) :
    (SetThirdSibbling (TPParseTreeNode.when a) v heap)[j]? = heap[j]? := by
  simp only [SetThirdSibbling]
  split
  · exact List.getElem?_set_ne (Ne.symm h)
  · rfl

theorem SetThirdSibbling_get_self (a : Nat) (v : TPParseTreeNode)
    (heap : List CParseTreeOperatorNode) (n : CParseTreeOperatorNode) (hn : heap[a]? = some n) :
    (SetThirdSibbling (TPParseTreeNode.when a) v heap)[a]?
      = some { n with _third_sibbling := v } := by
  have hlt : a < heap.length := (List.getElem?_eq_some.mp hn).1
  simp only [SetThirdSibbling, hn]
  exact List.getElem?_set_self hlt

theorem when_ne_null (a : Nat) : TPParseTreeNode.when a ≠ TPParseTreeNode.null := by
  simp [TPParseTreeNode.null]

/-! ## The chain builder -/

/-- One iteration of the chain builder appends the new node and links the
previous last node to it; the heap stays a chain. -/
theorem ChainShaped_link (heap : List CParseTreeOperatorNode) (condition : CParseTreeNode)
    (last_when_condition : TPParseTreeNode) (was_open_ended : Bool)
    (hshape : ChainShaped heap)
    (hlast : (heap = [] ∧ last_when_condition = TPParseTreeNode.null)
      ∨ (heap ≠ [] ∧ last_when_condition = TPParseTreeNode.when (heap.length - 1))) :
    let heap1 := heap ++ [MakeWhenCondition condition]
    let heap2 :=
      if last_when_condition ≠ TPParseTreeNode.null then
        if was_open_ended then
          SetSecondSibbling last_when_condition (TPParseTreeNode.when heap.length) heap1
        else
          SetThirdSibbling last_when_condition (TPParseTreeNode.when heap.length) heap1
      else heap1
    ChainShaped heap2 ∧ heap2.length = heap.length + 1 ∧
      heap2[heap.length]? = some (MakeWhenCondition condition) ∧
      (ThenLinksPresent heap →
        (was_open_ended = false → ∀ n, heap[heap.length - 1]? = some n →
          n._second_sibbling ≠ TPParseTreeNode.null) →
        ThenLinksPresent heap2) := by
  intro heap1 heap2
  have hnew : heap1[heap.length]? = some (MakeWhenCondition condition) :=
    List.getElem?_concat_length heap _
  have hlen1 : heap1.length = heap.length + 1 := by simp [heap1]
  have hends : EndsChain (MakeWhenCondition condition) :=
    ⟨⟨CParseTreeNode.NULL, rfl⟩, rfl⟩
  rcases hlast with ⟨hnil, hl⟩ | ⟨hne, hl⟩
  · have h2 : heap2 = heap1 := by simp [heap2, hl]
    rw [h2]
    subst hnil
    refine ⟨?_, hlen1, hnew, ?_⟩
    · intro i n hi
      have hi0 : i = 0 := by
        have := getElem?_lt _ i n hi
        simp [heap1] at this
        exact this
      subst hi0
      simp [heap1] at hi
      subst hi
      exact ⟨fun h => by simp [heap1] at h, fun _ => hends⟩
    · intro _ _ i n hi hlt
      simp [heap1] at hlt
  · have hpos : 0 < heap.length := List.length_pos.mpr hne
    obtain ⟨m, hm⟩ : ∃ m, heap[heap.length - 1]? = some m := by
      have : heap.length - 1 < heap.length := by omega
      exact ⟨_, List.getElem?_eq_getElem this⟩
    have hm1 : heap1[heap.length - 1]? = some m := by
      rw [List.getElem?_append_left (by omega)]
      exact hm
    have hmEnds : EndsChain m := (hshape _ m hm).2 (by omega)
    have hold : ∀ i, i < heap.length → heap1[i]? = heap[i]? := fun i hi =>
      List.getElem?_append_left hi
    have hlen2 : heap2.length = heap.length + 1 := by
      simp only [heap2, hl]
      rw [if_pos (when_ne_null _)]
      split
      · rw [SetSecondSibbling_length, hlen1]
      · rw [SetThirdSibbling_length, hlen1]
    have hget_ne : ∀ j, j ≠ heap.length - 1 → heap2[j]? = heap1[j]? := by
      intro j hj
      simp only [heap2, hl]
      rw [if_pos (when_ne_null _)]
      split
      · exact SetSecondSibbling_get_ne _ _ _ _ hj
      · exact SetThirdSibbling_get_ne _ _ _ _ hj
    have hget_self : heap2[heap.length - 1]? = some
        (if was_open_ended then
          { m with _second_sibbling := TPParseTreeNode.when heap.length }
        else { m with _third_sibbling := TPParseTreeNode.when heap.length }) := by
      simp only [heap2, hl]
      rw [if_pos (when_ne_null _)]
      split
      · exact SetSecondSibbling_get_self _ _ _ _ hm1
      · exact SetThirdSibbling_get_self _ _ _ _ hm1
    have hsucc : heap.length - 1 + 1 = heap.length := by omega
    refine ⟨?_, hlen2, ?_, ?_⟩
    · intro i n hi
      rw [hlen2]
      by_cases hi1 : i = heap.length - 1
      · subst hi1
        rw [hget_self] at hi
        injection hi with hi
        subst hi
        refine ⟨fun _ => ?_, fun h => by omega⟩
        cases was_open_ended
        · right
          obtain ⟨⟨t, ht⟩, _⟩ := hmEnds
          exact ⟨t, by simpa using ht, by simp [hsucc]⟩
        · left
          exact ⟨by simp [hsucc], by simpa using hmEnds.2⟩
      · rw [hget_ne i hi1] at hi
        by_cases hi2 : i < heap.length
        · rw [hold i hi2] at hi
          exact ⟨fun _ => (hshape i n hi).1 (by omega), fun h => by omega⟩
        · have hlt := getElem?_lt _ i n hi
          have hi3 : i = heap.length := by omega
          subst hi3
          rw [hnew] at hi
          injection hi with hi
          subst hi
          exact ⟨fun h => by omega, fun _ => hends⟩
    · rw [hget_ne _ (by omega)]
      exact hnew
    · intro htlp hlastp i n hi hlt
      rw [hlen2] at hlt
      by_cases hi1 : i = heap.length - 1
      · subst hi1
        rw [hget_self] at hi
        injection hi with hi
        subst hi
        cases hw : was_open_ended
        · simpa using hlastp hw m hm
        · simp [TPParseTreeNode.null]
      · rw [hget_ne i hi1, hold i (by omega)] at hi
        exact htlp i n hi (by omega)


theorem LookAheadAction_facts (s : CFormulaParser) :
    (LookAheadAction s).2.heap = s.heap ∧ (LookAheadAction s).2.errors = s.errors ∧
      (LookAheadAction s).2.input.length = s.input.length ∧
      (LookAheadAction s).1 = LookAhead (LookAheadAction s).2 := by
  unfold LookAheadAction
  cases hs : s.input with
  | nil => simp [LookAhead, hs]
  | cons t rest =>
    simp only
    split
    · cases ha : t.action with
      | none => simp [LookAhead, hs]
      | some a => simp [LookAhead]
    · simp [LookAhead, hs]

/-- Storing the parsed action in the last node keeps the heap a chain. -/
theorem ChainShaped_action (heap : List CParseTreeOperatorNode) (action : CParseTreeNode)
    (hshape : ChainShaped heap) (hne : heap ≠ []) :
    let heap3 := SetSecondSibbling (TPParseTreeNode.when (heap.length - 1))
      (TPParseTreeNode.tree action) heap
    ChainShaped heap3 ∧ heap3.length = heap.length ∧
      (ThenLinksPresent heap → ThenLinksPresent heap3) ∧
      (∀ n, heap3[heap.length - 1]? = some n →
        n._second_sibbling = TPParseTreeNode.tree action) := by
  intro heap3
  have hpos : 0 < heap.length := List.length_pos.mpr hne
  obtain ⟨m, hm⟩ : ∃ m, heap[heap.length - 1]? = some m :=
    ⟨_, List.getElem?_eq_getElem (by omega)⟩
  have hlen3 : heap3.length = heap.length := SetSecondSibbling_length _ _ _
  have hself : heap3[heap.length - 1]?
      = some { m with _second_sibbling := TPParseTreeNode.tree action } :=
    SetSecondSibbling_get_self _ _ _ _ hm
  have hother : ∀ j, j ≠ heap.length - 1 → heap3[j]? = heap[j]? := fun j hj =>
    SetSecondSibbling_get_ne _ _ _ _ hj
  refine ⟨?_, hlen3, ?_, ?_⟩
  · intro i n hi
    rw [hlen3]
    by_cases hi1 : i = heap.length - 1
    · subst hi1
      rw [hself] at hi
      injection hi with hi
      subst hi
      refine ⟨fun h => by omega, fun _ => ⟨⟨action, rfl⟩, ?_⟩⟩
      exact ((hshape _ m hm).2 (by omega)).2
    · rw [hother i hi1] at hi
      exact hshape i n hi
  · intro htlp i n hi hlt
    rw [hlen3] at hlt
    rw [hother i (by omega)] at hi
    exact htlp i n hi hlt
  · intro n hn
    rw [hself] at hn
    injection hn with hn
    subst hn
    rfl

/-- The loop of the chain builder returns whenever its fuel exceeds the number
of tokens left, for every input; the heap it leaves is a chain, and if no
error was reported, every node but the last has a second sibling. -/
theorem ParseOpenEndedWhenConditionSequence_loop_returns (e0 : Nat) (fuel : Nat) :
    ∀ (last : TPParseTreeNode) (was_open : Bool) (first : TPParseTreeNode)
      (s : CFormulaParser),
      s.input.length < fuel →
      ChainShaped s.heap →
      ((s.heap = [] ∧ last = TPParseTreeNode.null ∧ first = TPParseTreeNode.null)
        ∨ (s.heap ≠ [] ∧ last = TPParseTreeNode.when (s.heap.length - 1)
            ∧ first = TPParseTreeNode.when 0)) →
      e0 ≤ s.errors.length →
      (s.errors.length = e0 → ThenLinksPresent s.heap ∧
        (was_open = false → ∀ n, s.heap[s.heap.length - 1]? = some n →
          n._second_sibbling ≠ TPParseTreeNode.null)) →
      ∃ first1 s1,
        ParseOpenEndedWhenConditionSequence_loop fuel (LookAhead s) last was_open first s
          = some (first1, s1) ∧
        ChainShaped s1.heap ∧
        ((s1.heap = [] ∧ first1 = TPParseTreeNode.null)
          ∨ (s1.heap ≠ [] ∧ first1 = TPParseTreeNode.when 0)) ∧
        s.heap.length ≤ s1.heap.length ∧
        s1.heap.length + s1.input.length ≤ s.heap.length + s.input.length ∧
        (LookAhead s = kTokenOperatorConditionalWhen → s1.heap ≠ []) ∧
        s1.input.length ≤ s.input.length ∧ s.errors.length ≤ s1.errors.length ∧
        (s1.errors.length = e0 → ThenLinksPresent s1.heap) := by
  induction fuel with
  | zero => intro _ _ _ s hs; omega
  | succ fuel ih =>
    intro last was_open first s hs hshape hvars he0 hclean
    unfold ParseOpenEndedWhenConditionSequence_loop
    by_cases hw : LookAhead s = kTokenOperatorConditionalWhen
    swap
    · rw [if_pos hw]
      refine ⟨first, s, rfl, hshape, ?_, Nat.le_refl _, Nat.le_refl _,
        fun h => absurd h hw, Nat.le_refl _, Nat.le_refl _, fun h => (hclean h).1⟩
      rcases hvars with ⟨h1, _, h3⟩ | ⟨h1, _, h3⟩
      · exact Or.inl ⟨h1, h3⟩
      · exact Or.inr ⟨h1, h3⟩
    · rw [if_neg (by simpa using hw)]
      have hpos : 0 < s.input.length :=
        LookAhead_ne_EndOfFile_input s (by rw [hw]; decide)
      have hg := Advances_GetToken s
      have hglen := GetToken_input_length s
      obtain ⟨condition, s1, hcond, ha1, _⟩ :=
        ParseExpression_returns fuel (GetToken s).2 (by omega)
      simp only [hcond]
      have hheap1 : s1.heap = s.heap := (hg.trans ha1).1
      have hlink := ChainShaped_link s.heap condition last was_open hshape
        (by
          rcases hvars with ⟨h1, h2, _⟩ | ⟨h1, h2, _⟩
          · exact Or.inl ⟨h1, h2⟩
          · exact Or.inr ⟨h1, h2⟩)
      simp only at hlink
      rw [hheap1]
      generalize hheap2 :
        (if last ≠ TPParseTreeNode.null then
          if was_open = true then
            SetSecondSibbling last (TPParseTreeNode.when s.heap.length)
              (s.heap ++ [MakeWhenCondition condition])
          else
            SetThirdSibbling last (TPParseTreeNode.when s.heap.length)
              (s.heap ++ [MakeWhenCondition condition])
        else s.heap ++ [MakeWhenCondition condition]) = heap2 at hlink ⊢
      obtain ⟨hshape2, hlen2, hnew2, htlp2⟩ := hlink
      have hne2 : heap2 ≠ [] := by
        intro h; rw [h] at hlen2; simp at hlen2
      have hfirst : (if first = TPParseTreeNode.null then TPParseTreeNode.when s.heap.length
          else first) = TPParseTreeNode.when 0 := by
        rcases hvars with ⟨h1, _, h3⟩ | ⟨_, _, h3⟩
        · simp [h1, h3]
        · simp [h3, when_ne_null]
      rw [hfirst]
      have hlast2 : TPParseTreeNode.when s.heap.length
          = TPParseTreeNode.when (heap2.length - 1) := by rw [hlen2]; rfl
      obtain ⟨hla1, hla2, hla3, hla4⟩ := LookAheadAction_facts { s1 with heap := heap2 }
      generalize hla : LookAheadAction { s1 with heap := heap2 } = la at hla1 hla2 hla3 hla4 ⊢
      simp only at hla1 hla2 hla3
      have hs1len : s1.input.length ≤ s.input.length - 1 := by have := ha1.2.1; omega
      have hs1err : s.errors.length ≤ s1.errors.length := by
        have := ha1.2.2; have := hg.2.2; omega
      have hclean2 : s1.errors.length = e0 → ThenLinksPresent heap2 := by
        intro h
        have hc := hclean (by omega)
        exact htlp2 hc.1 hc.2
      by_cases hact : TokenIsOpenPPLAction la.1 = true
      · rw [if_pos hact]
        obtain ⟨action, s2, hact2, ha2, hnull⟩ :=
          ParseOpenPPLAction_returns fuel la.2 (by omega)
        simp only [hact2]
        have hheap2s : s2.heap = heap2 := by rw [ha2.1, hla1]
        rw [hheap2s]
        have hstep := ChainShaped_action heap2 action hshape2 hne2
        simp only at hstep
        rw [hlen2] at hstep
        simp only [Nat.add_sub_cancel] at hstep
        generalize hheap3 : SetSecondSibbling (TPParseTreeNode.when s.heap.length)
          (TPParseTreeNode.tree action) heap2 = heap3 at hstep ⊢
        obtain ⟨hshape3, hlen3, htlp3, hsecond3⟩ := hstep
        have hne3 : heap3 ≠ [] := by
          intro h; rw [h] at hlen3; simp at hlen3
        have hs2err : la.2.errors.length ≤ s2.errors.length := ha2.2.2
        have hs2len : s2.input.length ≤ la.2.input.length := ha2.2.1
        obtain ⟨first1, s4, hloop, hsh4, hf4, hmono4, hsum4, _, hlen4, herr4, hcl4⟩ :=
          ih (TPParseTreeNode.when s.heap.length) false (TPParseTreeNode.when 0)
            { s2 with heap := heap3 } (by show s2.input.length < fuel; omega) hshape3
            (Or.inr ⟨hne3, by show _ = TPParseTreeNode.when (heap3.length - 1); rw [hlen3]; rfl,
              rfl⟩)
            (by show e0 ≤ s2.errors.length; rw [hla2] at hs2err; omega)
            (by
              show s2.errors.length = e0 → ThenLinksPresent heap3 ∧
                (false = false → ∀ n, heap3[heap3.length - 1]? = some n →
                  n._second_sibbling ≠ TPParseTreeNode.null)
              intro h
              rw [hla2] at hs2err
              refine ⟨htlp3 (hclean2 (by omega)), fun _ n hn => ?_⟩
              rw [hlen3] at hn
              simp only [Nat.add_sub_cancel] at hn
              rw [hsecond3 n hn]
              intro hnull2
              have : action = CParseTreeNode.NULL := by
                simpa [TPParseTreeNode.null] using hnull2
              have := hnull this
              rw [hla2] at this
              omega)
        have hmono : s.heap.length + 1 ≤ s4.heap.length := by
          have : heap3.length ≤ s4.heap.length := hmono4
          omega
        have hne4 : s4.heap ≠ [] := by
          intro h; rw [h] at hmono; simp at hmono
        have hsum : s4.heap.length + s4.input.length ≤ heap3.length + s2.input.length := hsum4
        refine ⟨first1, s4, hloop, hsh4, hf4, by omega, by omega, fun _ => hne4, ?_, ?_, hcl4⟩
        · have : s4.input.length ≤ s2.input.length := hlen4
          omega
        · have : s2.errors.length ≤ s4.errors.length := herr4
          rw [hla2] at hs2err
          omega
      · rw [if_neg hact]
        have hla_err : la.2.errors.length = s1.errors.length := by rw [hla2]
        have hla_heap : la.2.heap = heap2 := hla1
        by_cases hw2 : la.1 = kTokenOperatorConditionalWhen
        · rw [if_pos hw2]
          obtain ⟨first1, s4, hloop, hsh4, hf4, hmono4, hsum4, _, hlen4, herr4, hcl4⟩ :=
            ih (TPParseTreeNode.when s.heap.length) true (TPParseTreeNode.when 0)
              la.2 (by omega) (by rw [hla_heap]; exact hshape2)
              (Or.inr ⟨by rw [hla_heap]; exact hne2,
                by rw [hla_heap, hlen2]; rfl, rfl⟩)
              (by omega)
              (by
                intro h
                rw [hla_heap]
                exact ⟨hclean2 (by omega), fun h => by simp at h⟩)
          rw [hw2, ← hw2, hla4]
          have hmono : s.heap.length + 1 ≤ s4.heap.length := by
            rw [hla_heap, hlen2] at hmono4
            exact hmono4
          have hne4 : s4.heap ≠ [] := by
            intro h; rw [h] at hmono; simp at hmono
          rw [hla_heap, hlen2] at hsum4
          exact ⟨first1, s4, hloop, hsh4, hf4, by omega, by omega, fun _ => hne4, by omega,
            by omega, hcl4⟩
        · rw [if_neg hw2]
          by_cases hend : la.1 = kTokenEndOfFile ∨ la.1 = kTokenEndOfFunction
          · rw [if_pos hend]
            refine ⟨_, la.2, rfl, by rw [hla_heap]; exact hshape2,
              Or.inr ⟨by rw [hla_heap]; exact hne2, rfl⟩, by rw [hla_heap]; omega,
              by rw [hla_heap]; omega,
              fun _ => by rw [hla_heap]; exact hne2, by omega, by omega, ?_⟩
            intro h
            rw [hla_heap]
            exact hclean2 (by omega)
          · rw [if_neg hend]
            have hem : Advances la.2 (ErrorMissingAction la.1 la.2) := by
              unfold ErrorMissingAction
              repeat' split
              all_goals exact Advances_Error _ _
            have hem1 := hem.1
            have hem2 := hem.2.1
            have hem3 := hem.2.2
            refine ⟨_, _, rfl, by rw [hem1, hla_heap]; exact hshape2,
              Or.inr ⟨by rw [hem1, hla_heap]; exact hne2, rfl⟩,
              by rw [hem1, hla_heap]; omega,
              by rw [hem1, hla_heap]; omega,
              fun _ => by rw [hem1, hla_heap]; exact hne2, by omega, by omega, ?_⟩
            intro h
            rw [hem1, hla_heap]
            exact hclean2 (by omega)


/-- `ParseOpenEndedWhenConditionSequence` returns on every token stream, given
fuel beyond the number of tokens; the heap of a fresh parse is then a chain
whose head is node 0. -/
theorem ParseOpenEndedWhenConditionSequence_returns (tokens : List Token) (fuel : Nat)
    (hfuel : tokens.length < fuel) :
    ∃ first s1,
      ParseOpenEndedWhenConditionSequence fuel (CFormulaParser.init tokens) = some (first, s1) ∧
      ChainShaped s1.heap ∧
      ((s1.heap = [] ∧ first = TPParseTreeNode.null)
        ∨ (s1.heap ≠ [] ∧ first = TPParseTreeNode.when 0)) ∧
      (LookAhead (CFormulaParser.init tokens) = kTokenOperatorConditionalWhen → s1.heap ≠ []) ∧
      s1.heap.length ≤ tokens.length ∧
      (s1.errors = [] → ThenLinksPresent s1.heap) := by
  have hshape0 : ChainShaped (CFormulaParser.init tokens).heap := by
    intro i n hi
    simp [CFormulaParser.init] at hi
  obtain ⟨first, s1, h1, h2, h3, _, hsum, h5, _, _, h8⟩ :=
    ParseOpenEndedWhenConditionSequence_loop_returns 0 fuel TPParseTreeNode.null false
      TPParseTreeNode.null (CFormulaParser.init tokens) hfuel hshape0
      (Or.inl ⟨rfl, rfl, rfl⟩) (Nat.zero_le _)
      (fun _ => ⟨fun i n hi _ => by simp [CFormulaParser.init] at hi,
        fun _ n hn => by simp [CFormulaParser.init] at hn⟩)
  refine ⟨first, s1, h1, h2, h3, h5, ?_, fun h => h8 (by simp [h])⟩
  have : s1.heap.length + s1.input.length ≤ 0 + tokens.length := hsum
  omega

/-- C9 (as stated) fails: in `when x Fold Force when x Fold Force` the chain
builder itself sets the third sibling of the first node to the second node. -/
theorem ParseOpenEndedWhenConditionSequence_sets_third_sibbling :
    (ParseOpenEndedWhenConditionSequence 9 (CFormulaParser.init
      [⟨kTokenOperatorConditionalWhen, "when", none⟩, ⟨kTokenIdentifier, "x", none⟩,
        ⟨kTokenIdentifier, "Fold", some (kTokenActionFixed 0)⟩,
        ⟨kTokenKeywordForce, "Force", none⟩,
        ⟨kTokenOperatorConditionalWhen, "when", none⟩, ⟨kTokenIdentifier, "x", none⟩,
        ⟨kTokenIdentifier, "Fold", some (kTokenActionFixed 0)⟩,
        ⟨kTokenKeywordForce, "Force", none⟩])).map
      (fun r => r.2.heap.map (fun n => n._third_sibbling))
    = some [TPParseTreeNode.when 1, TPParseTreeNode.null] := by
  decide

/-- C9 (amended): after `ParseOpenEndedWhenConditionSequence` returns, for every
input, the third sibling is unset in the last node of the chain and in every
node whose second sibling is a when-condition (the open-ended nodes, whose
second sibling is the node of the next clause); in every other node the chain
builder has set the third sibling to the node of the next clause. -/
theorem ParseOpenEndedWhenConditionSequence_third_sibblings (tokens : List Token)
    (fuel : Nat) (hfuel : tokens.length < fuel) :
    ∃ first s1,
      ParseOpenEndedWhenConditionSequence fuel (CFormulaParser.init tokens) = some (first, s1) ∧
      ∀ i n, s1.heap[i]? = some n →
        (i + 1 = s1.heap.length → n._third_sibbling = TPParseTreeNode.null) ∧
        (∀ j, n._second_sibbling = TPParseTreeNode.when j →
          j = i + 1 ∧ n._third_sibbling = TPParseTreeNode.null) ∧
        (i + 1 < s1.heap.length → (∀ j, n._second_sibbling ≠ TPParseTreeNode.when j) →
          n._third_sibbling = TPParseTreeNode.when (i + 1)) := by
  obtain ⟨first, s1, h1, hshape, _, _, _, _⟩ :=
    ParseOpenEndedWhenConditionSequence_returns tokens fuel hfuel
  refine ⟨first, s1, h1, fun i n hi => ?_⟩
  have hlt : i < s1.heap.length := getElem?_lt _ i n hi
  obtain ⟨hlinked, hends⟩ := hshape i n hi
  refine ⟨fun h => (hends h).2, fun j hj => ?_, fun h hno => ?_⟩
  · by_cases hlast : i + 1 < s1.heap.length
    · rcases hlinked hlast with ⟨h2, h3⟩ | ⟨t, h2, _⟩
      · rw [h2] at hj
        injection hj with hj
        exact ⟨hj.symm, h3⟩
      · rw [h2] at hj
        cases hj
    · obtain ⟨⟨t, h2⟩, _⟩ := hends (by omega)
      rw [h2] at hj
      cases hj
  · rcases hlinked h with ⟨h2, _⟩ | ⟨t, _, h3⟩
    · exact absurd h2 (hno _)
    · exact h3

theorem ParseOpenEndedWhenConditionSequence_third_sibblings_witness :
    ∃ first s1,
      ParseOpenEndedWhenConditionSequence 5 (CFormulaParser.init
        [⟨kTokenOperatorConditionalWhen, "when", none⟩, ⟨kTokenIdentifier, "x", none⟩,
          ⟨kTokenIdentifier, "Fold", some (kTokenActionFixed 0)⟩,
          ⟨kTokenKeywordForce, "Force", none⟩]) = some (first, s1) ∧
      ∀ i n, s1.heap[i]? = some n →
        (i + 1 = s1.heap.length → n._third_sibbling = TPParseTreeNode.null) ∧
        (∀ j, n._second_sibbling = TPParseTreeNode.when j →
          j = i + 1 ∧ n._third_sibbling = TPParseTreeNode.null) ∧
        (i + 1 < s1.heap.length → (∀ j, n._second_sibbling ≠ TPParseTreeNode.when j) →
          n._third_sibbling = TPParseTreeNode.when (i + 1)) :=
  ParseOpenEndedWhenConditionSequence_third_sibblings
    [⟨kTokenOperatorConditionalWhen, "when", none⟩, ⟨kTokenIdentifier, "x", none⟩,
      ⟨kTokenIdentifier, "Fold", some (kTokenActionFixed 0)⟩,
      ⟨kTokenKeywordForce, "Force", none⟩] 5 (by decide)


/-! ## The back-patcher -/

theorem IsOpenEndedWhenCondition_congr (flag : Bool) (heap1 heap2 : List CParseTreeOperatorNode)
    (i : Nat) (h : heap1[i]? = heap2[i]?) :
    IsOpenEndedWhenCondition flag heap1 (TPParseTreeNode.when i)
      = IsOpenEndedWhenCondition flag heap2 (TPParseTreeNode.when i) := by
  simp [IsOpenEndedWhenCondition, WhenNodeAt, h]

theorem open_ended_linked (flag : Bool) (heap : List CParseTreeOperatorNode)
    (hshape : ChainShaped heap) (i : Nat) (n : CParseTreeOperatorNode)
    (hi : heap[i]? = some n)
    (hop : IsOpenEndedWhenCondition flag heap (TPParseTreeNode.when i) = true)
    (hlt : i + 1 < heap.length) :
    n._second_sibbling = TPParseTreeNode.when (i + 1)
      ∧ n._third_sibbling = TPParseTreeNode.null := by
  rcases (hshape i n hi).1 hlt with h | ⟨t, h2, h3⟩
  · exact h
  · exfalso
    simp only [IsOpenEndedWhenCondition, WhenNodeAt, hi, h2, h3] at hop
    cases t <;> simp [TPParseTreeNode.null] at hop

theorem closed_linked (flag : Bool) (heap : List CParseTreeOperatorNode)
    (hshape : ChainShaped heap) (i : Nat) (n : CParseTreeOperatorNode)
    (hi : heap[i]? = some n)
    (hop : IsOpenEndedWhenCondition flag heap (TPParseTreeNode.when i) = false)
    (hlt : i + 1 < heap.length) :
    n._third_sibbling = TPParseTreeNode.when (i + 1) := by
  rcases (hshape i n hi).1 hlt with ⟨h2, _⟩ | ⟨t, _, h3⟩
  · exfalso
    simp [IsOpenEndedWhenCondition, WhenNodeAt, hi, h2] at hop
  · exact h3

theorem open_ended_last (flag : Bool) (heap : List CParseTreeOperatorNode)
    (hshape : ChainShaped heap) (i : Nat) (n : CParseTreeOperatorNode)
    (hi : heap[i]? = some n)
    (hop : IsOpenEndedWhenCondition flag heap (TPParseTreeNode.when i) = true)
    (hlast : i + 1 = heap.length) :
    n._second_sibbling = TPParseTreeNode.null
      ∧ n._third_sibbling = TPParseTreeNode.null := by
  obtain ⟨⟨t, h2⟩, h3⟩ := (hshape i n hi).2 hlast
  refine ⟨?_, h3⟩
  simp only [IsOpenEndedWhenCondition, WhenNodeAt, hi, h2] at hop
  cases t <;> simp at hop
  rw [h2]
  rfl

theorem NextOpenEnded_found (flag : Bool) (heap : List CParseTreeOperatorNode) :
    ∀ (d j target : Nat), j ≤ target → target < j + d →
      IsOpenEndedWhenCondition flag heap (TPParseTreeNode.when target) = true →
      (∀ m, j ≤ m → m < target →
        IsOpenEndedWhenCondition flag heap (TPParseTreeNode.when m) = false) →
      NextOpenEnded flag heap d j = TPParseTreeNode.when target := by
  intro d
  induction d with
  | zero => intro j target h1 h2; omega
  | succ d ih =>
    intro j target h1 h2 hop hno
    unfold NextOpenEnded
    by_cases hj : j = target
    · subst hj
      rw [if_pos hop]
    · rw [hno j (Nat.le_refl _) (by omega)]
      simp only [Bool.false_eq_true, if_false]
      exact ih (j + 1) target (by omega) (by omega) hop
        (fun m hm1 hm2 => hno m (by omega) hm2)

theorem NextOpenEnded_none (flag : Bool) (heap : List CParseTreeOperatorNode) :
    ∀ (d j : Nat),
      (∀ m, j ≤ m → m < j + d →
        IsOpenEndedWhenCondition flag heap (TPParseTreeNode.when m) = false) →
      NextOpenEnded flag heap d j = end_of_function_node := by
  intro d
  induction d with
  | zero => intro j _; rfl
  | succ d ih =>
    intro j hno
    unfold NextOpenEnded
    rw [hno j (Nat.le_refl _) (by omega)]
    simp only [Bool.false_eq_true, if_false]
    exact ih (j + 1) (fun m hm1 hm2 => hno m (by omega) (by omega))

theorem ThirdSibblingBefore_not_before (flag : Bool) (heap : List CParseTreeOperatorNode)
    (k : Nat) (lo : TPParseTreeNode) (i : Nat) (n : CParseTreeOperatorNode) (hik : k ≤ i) :
    ThirdSibblingBefore flag heap k lo i n = n._third_sibbling := by
  unfold ThirdSibblingBefore
  have : ¬ (IsOpenEndedWhenCondition flag heap (TPParseTreeNode.when i) = true
      ∧ i < k ∧ lo ≠ TPParseTreeNode.when i) := by
    intro h; omega
  rw [if_neg this]

theorem PatchedBefore_get_at (flag : Bool) (heap current : List CParseTreeOperatorNode)
    (k : Nat) (lo : TPParseTreeNode) (hinv : PatchedBefore flag heap k lo current)
    (i : Nat) (hik : k ≤ i) : current[i]? = heap[i]? := by
  obtain ⟨hlen, hget, _⟩ := hinv
  cases hi : heap[i]? with
  | none =>
    have := List.getElem?_eq_none_iff.mp hi
    exact List.getElem?_eq_none (by rw [hlen]; exact this)
  | some n =>
    rw [hget i n hi, ThirdSibblingBefore_not_before flag heap k lo i n hik]

theorem PatchedBefore_initial (flag : Bool) (heap : List CParseTreeOperatorNode) :
    PatchedBefore flag heap 0 TPParseTreeNode.null heap := by
  refine ⟨rfl, fun i n hi => ?_, Or.inl ⟨rfl, fun i hi => by omega⟩⟩
  rw [hi, ThirdSibblingBefore_not_before flag heap 0 _ i n (Nat.zero_le _)]


theorem TPParseTreeNode.when_inj (a b : Nat) :
    (TPParseTreeNode.when a = TPParseTreeNode.when b) ↔ a = b :=
  ⟨fun h => by injection h, fun h => by rw [h]⟩

/-- Passing a node that is not open-ended leaves the state of the loop as it
is. -/
theorem PatchedBefore_step_closed (flag : Bool) (heap current : List CParseTreeOperatorNode)
    (k : Nat) (lo : TPParseTreeNode) (hinv : PatchedBefore flag heap k lo current)
    (hop : IsOpenEndedWhenCondition flag heap (TPParseTreeNode.when k) = false) :
    PatchedBefore flag heap (k + 1) lo current := by
  obtain ⟨hlen, hget, hlo⟩ := hinv
  refine ⟨hlen, fun i n hi => ?_, ?_⟩
  · have h := hget i n hi
    simp only at h ⊢
    rw [h]
    have : ThirdSibblingBefore flag heap (k + 1) lo i n
        = ThirdSibblingBefore flag heap k lo i n := by
      unfold ThirdSibblingBefore
      by_cases hik : i = k
      · subst hik
        simp [hop]
      · have : i < k + 1 ↔ i < k := by omega
        simp only [this]
    rw [this]
  · rcases hlo with ⟨h1, h2⟩ | ⟨j, h1, h2, h3, h4⟩
    · refine Or.inl ⟨h1, fun i hi => ?_⟩
      by_cases hik : i = k
      · subst hik; exact hop
      · exact h2 i (by omega)
    · refine Or.inr ⟨j, h1, by omega, h3, fun i hi1 hi2 => ?_⟩
      by_cases hik : i = k
      · subst hik; exact hop
      · exact h4 i hi1 (by omega)

/-- Passing an open-ended node: the previous open-ended node gets it as third
sibling, and it becomes the last open-ended node. -/
theorem PatchedBefore_step_open (flag : Bool) (heap current : List CParseTreeOperatorNode)
    (k : Nat) (lo : TPParseTreeNode) (hinv : PatchedBefore flag heap k lo current)
    (hk : k < heap.length)
    (hop : IsOpenEndedWhenCondition flag heap (TPParseTreeNode.when k) = true) :
    PatchedBefore flag heap (k + 1) (TPParseTreeNode.when k)
      (if lo ≠ TPParseTreeNode.null then
        SetRightMostSibbling lo (TPParseTreeNode.when k) current
      else current) := by
  obtain ⟨hlen, hget, hlo⟩ := hinv
  have hlonew : ∃ j, TPParseTreeNode.when k = TPParseTreeNode.when j ∧ j < k + 1 ∧
      IsOpenEndedWhenCondition flag heap (TPParseTreeNode.when j) = true ∧
      ∀ i, j < i → i < k + 1 →
        IsOpenEndedWhenCondition flag heap (TPParseTreeNode.when i) = false :=
    ⟨k, rfl, by omega, hop, fun i h1 h2 => by omega⟩
  rcases hlo with ⟨h1, h2⟩ | ⟨j, h1, h2, h3, h4⟩
  · subst h1
    rw [if_neg (by simp)]
    refine ⟨hlen, fun i n hi => ?_, Or.inr hlonew⟩
    have h := hget i n hi
    simp only at h ⊢
    rw [h]
    have : ThirdSibblingBefore flag heap (k + 1) (TPParseTreeNode.when k) i n
        = ThirdSibblingBefore flag heap k TPParseTreeNode.null i n := by
      unfold ThirdSibblingBefore
      by_cases hik : i < k
      · simp [h2 i hik]
      · by_cases hik2 : i = k
        · subst hik2; simp
        · have h3 : ¬ i < k + 1 := by omega
          simp [hik, h3]
    rw [this]
  · subst h1
    rw [if_pos (when_ne_null j)]
    unfold SetRightMostSibbling
    refine ⟨by rw [SetThirdSibbling_length]; exact hlen, fun i n hi => ?_, Or.inr hlonew⟩
    simp only
    by_cases hij : i = j
    · subst hij
      have h := hget i n hi
      simp only at h
      rw [SetThirdSibbling_get_self _ _ _ _ h]
      have : ThirdSibblingBefore flag heap (k + 1) (TPParseTreeNode.when k) i n
          = TPParseTreeNode.when k := by
        unfold ThirdSibblingBefore
        have hne : TPParseTreeNode.when k ≠ TPParseTreeNode.when i := by
          rw [Ne, TPParseTreeNode.when_inj]; omega
        rw [if_pos ⟨h3, by omega, hne⟩]
        exact NextOpenEnded_found flag heap _ _ k (by omega) (by omega) hop
          (fun m hm1 hm2 => h4 m (by omega) hm2)
      rw [this]
    · rw [SetThirdSibbling_get_ne _ _ _ _ hij]
      have h := hget i n hi
      simp only at h
      rw [h]
      have : ThirdSibblingBefore flag heap (k + 1) (TPParseTreeNode.when k) i n
          = ThirdSibblingBefore flag heap k (TPParseTreeNode.when j) i n := by
        unfold ThirdSibblingBefore
        have hne : (TPParseTreeNode.when j ≠ TPParseTreeNode.when i) := by
          rw [Ne, TPParseTreeNode.when_inj]; omega
        by_cases hik : i < k
        · have hne2 : (TPParseTreeNode.when k ≠ TPParseTreeNode.when i) := by
            rw [Ne, TPParseTreeNode.when_inj]; omega
          have h5 : i < k + 1 := by omega
          simp only [hik, h5, hne, hne2, ne_eq, not_false_eq_true, and_true]
        · by_cases hik2 : i = k
          · subst hik2; simp
          · have h5 : ¬ i < k + 1 := by omega
            simp [hik, h5]
      rw [this]


/-- The loop of the back-patcher on a chain: it ends, the last node it has
visited is the last node of the chain, and every open-ended node but the last
open-ended one has its final third sibling. -/
theorem BackPatch_loop_spec (flag : Bool) (heap : List CParseTreeOperatorNode)
    (hshape : ChainShaped heap) :
    ∀ (fuel k : Nat) (lo : TPParseTreeNode) (current : List CParseTreeOperatorNode)
      (lw : TPParseTreeNode),
      k < heap.length → heap.length - k < fuel → PatchedBefore flag heap k lo current →
      ∃ l, BackPatch_loop flag fuel current lo (TPParseTreeNode.when k) lw = some l ∧
        l.last_when_condition = TPParseTreeNode.when (heap.length - 1) ∧
        PatchedBefore flag heap heap.length l.last_open_ended_when_condition l.heap := by
  intro fuel
  induction fuel with
  | zero => intro k _ _ _ _ h; omega
  | succ fuel ih =>
    intro k lo current lw hk hfuel hinv
    obtain ⟨n, hn⟩ : ∃ n, heap[k]? = some n := ⟨_, List.getElem?_eq_getElem hk⟩
    have hcur : current[k]? = some n := by
      rw [PatchedBefore_get_at flag heap current k lo hinv k (Nat.le_refl _)]; exact hn
    have hopk : IsOpenEndedWhenCondition flag current (TPParseTreeNode.when k)
        = IsOpenEndedWhenCondition flag heap (TPParseTreeNode.when k) :=
      IsOpenEndedWhenCondition_congr flag _ _ k (hcur.trans hn.symm)
    unfold BackPatch_loop
    rw [if_neg (when_ne_null k), hopk]
    cases hop : IsOpenEndedWhenCondition flag heap (TPParseTreeNode.when k)
    · simp only [Bool.false_eq_true, if_false]
      have hwa : IsWhenConditionWithAction flag current (TPParseTreeNode.when k) = true := by
        simp [IsWhenConditionWithAction, IsAnyKindOfWhenCondition, WhenNodeAt, hcur, hopk, hop]
      rw [if_pos hwa]
      have hrm : GetRightMostSibbling current (TPParseTreeNode.when k) = n._third_sibbling := by
        simp [GetRightMostSibbling, WhenNodeAt, hcur]
      rw [hrm]
      have hinv1 := PatchedBefore_step_closed flag heap current k lo hinv hop
      by_cases hlast : k + 1 < heap.length
      · rw [closed_linked flag heap hshape k n hn hop hlast]
        have hany : IsAnyKindOfWhenCondition current (TPParseTreeNode.when (k + 1)) = true := by
          have : k + 1 < current.length := by rw [hinv.1]; exact hlast
          simp [IsAnyKindOfWhenCondition, WhenNodeAt, List.getElem?_eq_getElem this]
        rw [if_neg (by simp [hany, when_ne_null])]
        exact ih (k + 1) lo current (TPParseTreeNode.when k) hlast (by omega) hinv1
      · have hlen : k + 1 = heap.length := by omega
        rw [((hshape k n hn).2 hlen).2, if_pos (Or.inl rfl)]
        refine ⟨_, rfl, ?_, ?_⟩
        · show TPParseTreeNode.when k = _
          rw [← hlen]; rfl
        · rw [← hlen]; exact hinv1
    · rw [if_pos rfl]
      have hinv1 := PatchedBefore_step_open flag heap current k lo hinv hk hop
      generalize (if lo ≠ TPParseTreeNode.null then
        SetRightMostSibbling lo (TPParseTreeNode.when k) current else current) = heap1
        at hinv1 ⊢
      have hcur1 : heap1[k]? = some n := by
        have h := hinv1.2.1 k n hn
        simp only at h
        rw [h]
        have : ThirdSibblingBefore flag heap (k + 1) (TPParseTreeNode.when k) k n
            = n._third_sibbling := by
          unfold ThirdSibblingBefore
          simp
        rw [this]
      have hsec : SecondSibbling heap1 (TPParseTreeNode.when k) = n._second_sibbling := by
        simp [SecondSibbling, WhenNodeAt, hcur1]
      simp only [hsec]
      by_cases hlast : k + 1 < heap.length
      · rw [(open_ended_linked flag heap hshape k n hn hop hlast).1]
        exact ih (k + 1) (TPParseTreeNode.when k) heap1 (TPParseTreeNode.when k) hlast
          (by omega) hinv1
      · have hlen : k + 1 = heap.length := by omega
        rw [(open_ended_last flag heap hshape k n hn hop hlen).1]
        cases fuel with
        | zero => omega
        | succ fuel =>
          unfold BackPatch_loop
          rw [if_pos rfl]
          refine ⟨_, rfl, ?_, ?_⟩
          · show TPParseTreeNode.when k = _
            rw [← hlen]; rfl
          · rw [← hlen]; exact hinv1

theorem BackPatchedThirdSibbling_last (flag : Bool) (heap : List CParseTreeOperatorNode)
    (i : Nat) (n : CParseTreeOperatorNode) (hlast : i + 1 = heap.length) :
    BackPatchedThirdSibbling flag heap i n = end_of_function_node := by
  unfold BackPatchedThirdSibbling
  have : heap.length - (i + 1) = 0 := by omega
  rw [this]
  split <;> rfl

/-- The back-patcher ends on every chain, given fuel beyond the number of its
nodes, and sets the third siblings as `BackPatchedThirdSibbling` says. -/
theorem BackPatchOpenEndedWhenConditionSequence_spec (flag : Bool)
    (heap : List CParseTreeOperatorNode) (hshape : ChainShaped heap) (hne : heap ≠ [])
    (fuel : Nat) (hfuel : heap.length < fuel) :
    ∃ heap1, BackPatchOpenEndedWhenConditionSequence flag fuel (TPParseTreeNode.when 0) heap
        = some heap1 ∧
      heap1.length = heap.length ∧
      ∀ (i : Nat) (n : CParseTreeOperatorNode), heap[i]? = some n →
        heap1[i]? = some { n with _third_sibbling := BackPatchedThirdSibbling flag heap i n } := by
  have hpos : 0 < heap.length := List.length_pos.mpr hne
  obtain ⟨l, hloop, hlw, hinv⟩ :=
    BackPatch_loop_spec flag heap hshape fuel 0 TPParseTreeNode.null heap
      (TPParseTreeNode.when 0) hpos (by omega) (PatchedBefore_initial flag heap)
  obtain ⟨hlen, hget, hlo⟩ := hinv
  unfold BackPatchOpenEndedWhenConditionSequence
  rw [hloop]
  refine ⟨_, rfl, ?_⟩
  unfold BackPatch_finish
  rw [hlw]
  simp only at hget ⊢
  obtain ⟨m, hm⟩ : ∃ m, heap[heap.length - 1]? = some m :=
    ⟨_, List.getElem?_eq_getElem (by omega)⟩
  generalize hh1 : SetThirdSibbling (TPParseTreeNode.when (heap.length - 1))
    end_of_function_node l.heap = heap1
  have hlen1 : heap1.length = heap.length := by
    rw [← hh1, SetThirdSibbling_length, hlen]
  have hget1_last : heap1[heap.length - 1]?
      = some { m with _third_sibbling := end_of_function_node } := by
    rw [← hh1, SetThirdSibbling_get_self _ _ _ _ (hget _ m hm)]
  have hget1_ne : ∀ i, i ≠ heap.length - 1 → heap1[i]? = l.heap[i]? := by
    intro i hi
    rw [← hh1]
    exact SetThirdSibbling_get_ne _ _ _ _ hi
  rcases hlo with ⟨h1, h2⟩ | ⟨j, h1, h2, h3, h4⟩
  · rw [h1, if_neg (by simp)]
    refine ⟨hlen1, fun i n hi => ?_⟩
    have hilt : i < heap.length := getElem?_lt heap i n hi
    by_cases hil : i = heap.length - 1
    · subst hil
      rw [hget1_last]
      rw [hm] at hi
      injection hi with hi
      subst hi
      rw [BackPatchedThirdSibbling_last flag heap _ _ (by omega)]
    · rw [hget1_ne i hil, hget i n hi]
      have : ThirdSibblingBefore flag heap heap.length l.last_open_ended_when_condition i n
          = BackPatchedThirdSibbling flag heap i n := by
        unfold ThirdSibblingBefore BackPatchedThirdSibbling
        have hne1 : ¬ i + 1 = heap.length := by omega
        simp [h2 i hilt, hne1]
      rw [this]
  · rw [h1, if_pos (when_ne_null j)]
    by_cases hjl : j = heap.length - 1
    · subst hjl
      have hm2 := open_ended_last flag heap hshape _ m hm h3 (by omega)
      have hnot : IsOpenEndedWhenCondition flag heap1
          (TPParseTreeNode.when (heap.length - 1)) = false := by
        simp only [IsOpenEndedWhenCondition, WhenNodeAt, hget1_last, hm2.1,
          TPParseTreeNode.null]
        simp [end_of_function_node]
      rw [hnot]
      simp only [Bool.false_eq_true, if_false]
      refine ⟨hlen1, fun i n hi => ?_⟩
      have hilt : i < heap.length := getElem?_lt heap i n hi
      by_cases hil : i = heap.length - 1
      · subst hil
        rw [hget1_last]
        rw [hm] at hi
        injection hi with hi
        subst hi
        rw [BackPatchedThirdSibbling_last flag heap _ _ (by omega)]
      · rw [hget1_ne i hil, hget i n hi]
        have : ThirdSibblingBefore flag heap heap.length l.last_open_ended_when_condition i n
            = BackPatchedThirdSibbling flag heap i n := by
          unfold ThirdSibblingBefore BackPatchedThirdSibbling
          have hne1 : ¬ i + 1 = heap.length := by omega
          have hne2 : l.last_open_ended_when_condition ≠ TPParseTreeNode.when i := by
            rw [h1, Ne, TPParseTreeNode.when_inj]; omega
          by_cases hopi : IsOpenEndedWhenCondition flag heap (TPParseTreeNode.when i) = true
          · simp [hopi, hilt, hne2]
          · simp [hopi, hne1]
        rw [this]
    · have hjlt : j + 1 < heap.length := by omega
      obtain ⟨nj, hnj⟩ : ∃ nj, heap[j]? = some nj :=
        ⟨_, List.getElem?_eq_getElem (by omega)⟩
      have hlj : l.heap[j]? = some nj := by
        rw [hget j nj hnj]
        have : ThirdSibblingBefore flag heap heap.length l.last_open_ended_when_condition j nj
            = nj._third_sibbling := by
          unfold ThirdSibblingBefore
          simp [h1]
        rw [this]
      have hopen1 : IsOpenEndedWhenCondition flag heap1 (TPParseTreeNode.when j) = true := by
        rw [IsOpenEndedWhenCondition_congr flag heap1 heap j
          ((hget1_ne j hjl).trans (hlj.trans hnj.symm))]
        exact h3
      rw [hopen1, if_pos rfl]
      refine ⟨by rw [SetThirdSibbling_length]; exact hlen1, fun i n hi => ?_⟩
      have hilt : i < heap.length := getElem?_lt heap i n hi
      by_cases hij : i = j
      · subst hij
        rw [hnj] at hi
        injection hi with hi
        subst hi
        rw [SetThirdSibbling_get_self _ _ _ _ ((hget1_ne i hjl).trans hlj)]
        have : BackPatchedThirdSibbling flag heap i nj = end_of_function_node := by
          unfold BackPatchedThirdSibbling
          rw [if_pos h3]
          exact NextOpenEnded_none flag heap _ _ (fun m hm1 hm2 => h4 m (by omega) (by omega))
        rw [this]
      · rw [SetThirdSibbling_get_ne _ _ _ _ hij]
        by_cases hil : i = heap.length - 1
        · subst hil
          rw [hget1_last]
          rw [hm] at hi
          injection hi with hi
          subst hi
          rw [BackPatchedThirdSibbling_last flag heap _ _ (by omega)]
        · rw [hget1_ne i hil, hget i n hi]
          have : ThirdSibblingBefore flag heap heap.length l.last_open_ended_when_condition i n
              = BackPatchedThirdSibbling flag heap i n := by
            unfold ThirdSibblingBefore BackPatchedThirdSibbling
            have hne1 : ¬ i + 1 = heap.length := by omega
            have hne2 : l.last_open_ended_when_condition ≠ TPParseTreeNode.when i := by
              rw [h1, Ne, TPParseTreeNode.when_inj]; omega
            by_cases hopi : IsOpenEndedWhenCondition flag heap (TPParseTreeNode.when i) = true
            · simp [hopi, hilt, hne2]
            · simp [hopi, hne1]
          rw [this]


/-! ## The back-patched chain -/

/-- On a token stream that starts with "when", `ParseFunctionBody` returns node
0 as the head of a chain, whose third siblings are the back-patched ones. -/
theorem ParseFunctionBody_chain (flag : Bool) (tokens : List Token) (fuel : Nat)
    (hfuel : tokens.length < fuel)
    (hwhen : LookAhead (CFormulaParser.init tokens) = kTokenOperatorConditionalWhen) :
    ∃ s1 heap1,
      ParseOpenEndedWhenConditionSequence fuel (CFormulaParser.init tokens)
        = some (TPParseTreeNode.when 0, s1) ∧
      BackPatchOpenEndedWhenConditionSequence flag fuel (TPParseTreeNode.when 0) s1.heap
        = some heap1 ∧
      ParseFunctionBody flag fuel (CFormulaParser.init tokens)
        = some (TPParseTreeNode.when 0, { s1 with heap := heap1 }) ∧
      ChainShaped s1.heap ∧ s1.heap ≠ [] ∧ s1.heap.length < fuel ∧
      heap1.length = s1.heap.length ∧
      (∀ (i : Nat) (n : CParseTreeOperatorNode), s1.heap[i]? = some n →
        heap1[i]? = some { n with _third_sibbling := BackPatchedThirdSibbling flag s1.heap i n }) ∧
      (s1.errors = [] → ThenLinksPresent s1.heap) := by
  obtain ⟨first, s1, h1, hshape, hfirst, hne, hsize, htlp⟩ :=
    ParseOpenEndedWhenConditionSequence_returns tokens fuel hfuel
  have hne1 := hne hwhen
  have hf : first = TPParseTreeNode.when 0 := by
    rcases hfirst with ⟨h, _⟩ | ⟨_, h⟩
    · exact absurd h hne1
    · exact h
  subst hf
  obtain ⟨heap1, hbp, hlen, hget⟩ :=
    BackPatchOpenEndedWhenConditionSequence_spec flag s1.heap hshape hne1 fuel (by omega)
  refine ⟨s1, heap1, h1, hbp, ?_, hshape, hne1, by omega, hlen, hget, htlp⟩
  unfold ParseFunctionBody
  simp only [hwhen, h1, hbp]
  simp

theorem NextOpenEnded_forward (flag : Bool) (heap : List CParseTreeOperatorNode) :
    ∀ (d j m : Nat), NextOpenEnded flag heap d j = TPParseTreeNode.when m → j ≤ m := by
  intro d
  induction d with
  | zero => intro j m h; simp [NextOpenEnded, end_of_function_node] at h
  | succ d ih =>
    intro j m h
    unfold NextOpenEnded at h
    split at h
    · injection h with h; omega
    · have := ih (j + 1) m h; omega

theorem NextOpenEnded_ne_null (flag : Bool) (heap : List CParseTreeOperatorNode) :
    ∀ (d j : Nat), NextOpenEnded flag heap d j ≠ TPParseTreeNode.null := by
  intro d
  induction d with
  | zero => intro j; simp [NextOpenEnded, end_of_function_node, TPParseTreeNode.null]
  | succ d ih =>
    intro j
    unfold NextOpenEnded
    split
    · exact when_ne_null j
    · exact ih (j + 1)

theorem BackPatchedThirdSibbling_forward (flag : Bool) (heap : List CParseTreeOperatorNode)
    (hshape : ChainShaped heap) (i : Nat) (n : CParseTreeOperatorNode)
    (hi : heap[i]? = some n) (m : Nat)
    (h : BackPatchedThirdSibbling flag heap i n = TPParseTreeNode.when m) : i < m := by
  unfold BackPatchedThirdSibbling at h
  split at h
  · have := NextOpenEnded_forward flag heap _ _ m h; omega
  · split at h
    · simp [end_of_function_node] at h
    · have hlt : i < heap.length := getElem?_lt _ i n hi
      rcases (hshape i n hi).1 (by omega) with ⟨_, h3⟩ | ⟨t, _, h3⟩
      · rw [h3] at h; simp [TPParseTreeNode.null] at h
      · rw [h3] at h; injection h with h; omega

theorem BackPatchedThirdSibbling_ne_null (flag : Bool) (heap : List CParseTreeOperatorNode)
    (hshape : ChainShaped heap) (i : Nat) (n : CParseTreeOperatorNode)
    (hi : heap[i]? = some n) :
    BackPatchedThirdSibbling flag heap i n ≠ TPParseTreeNode.null := by
  unfold BackPatchedThirdSibbling
  split
  · exact NextOpenEnded_ne_null flag heap _ _
  · rename_i hop
    split
    · simp [end_of_function_node, TPParseTreeNode.null]
    · have hlt : i < heap.length := getElem?_lt _ i n hi
      rw [closed_linked flag heap hshape i n hi (by simpa using hop) (by omega)]
      exact when_ne_null _

/-- C10: for every token stream that starts a when-condition chain, after the
chain builder and the back-patcher every second and third sibling of a
when-condition that is a when-condition lies later in the chain; so no
when-condition is its own second or third sibling, and none is reachable from
itself along second and third siblings. -/
theorem ParseFunctionBody_acyclic (flag : Bool) (tokens : List Token) (fuel : Nat)
    (hfuel : tokens.length < fuel)
    (hwhen : LookAhead (CFormulaParser.init tokens) = kTokenOperatorConditionalWhen) :
    ∃ root s2, ParseFunctionBody flag fuel (CFormulaParser.init tokens) = some (root, s2) ∧
      (∀ i j, IsSibblingOf s2.heap i j → i < j) ∧
      (∀ i, ¬ IsSibblingOf s2.heap i i) ∧
      (∀ i, ¬ Relation.TransGen (IsSibblingOf s2.heap) i i) := by
  obtain ⟨s1, heap1, _, _, hbody, hshape, _, _, hlen, hget, _⟩ :=
    ParseFunctionBody_chain flag tokens fuel hfuel hwhen
  have hforward : ∀ i j, IsSibblingOf heap1 i j → i < j := by
    intro i j ⟨n1, hn1, hsib⟩
    have hlt : i < s1.heap.length := by rw [← hlen]; exact getElem?_lt _ i n1 hn1
    obtain ⟨n, hn⟩ : ∃ n, s1.heap[i]? = some n := ⟨_, List.getElem?_eq_getElem hlt⟩
    rw [hget i n hn] at hn1
    injection hn1 with hn1
    subst hn1
    rcases hsib with h2 | h3
    · simp only at h2
      by_cases hl : i + 1 < s1.heap.length
      · rcases (hshape i n hn).1 hl with ⟨h, _⟩ | ⟨t, h, _⟩
        · rw [h] at h2; injection h2 with h2; omega
        · rw [h] at h2; cases h2
      · obtain ⟨⟨t, h⟩, _⟩ := (hshape i n hn).2 (by omega)
        rw [h] at h2; cases h2
    · exact BackPatchedThirdSibbling_forward flag s1.heap hshape i n hn j h3
  have htrans : ∀ i j, Relation.TransGen (IsSibblingOf heap1) i j → i < j := by
    intro i j h
    induction h with
    | single h => exact hforward _ _ h
    | tail _ h ih => exact Nat.lt_trans ih (hforward _ _ h)
  exact ⟨_, _, hbody, hforward, fun i h => Nat.lt_irrefl i (hforward i i h),
    fun i h => Nat.lt_irrefl i (htrans i i h)⟩

theorem ParseFunctionBody_acyclic_witness :
    ∃ root s2, ParseFunctionBody true 5 (CFormulaParser.init
        [⟨kTokenOperatorConditionalWhen, "when", none⟩, ⟨kTokenIdentifier, "x", none⟩,
          ⟨kTokenOperatorConditionalWhen, "when", none⟩, ⟨kTokenIdentifier, "y", none⟩])
        = some (root, s2) ∧
      (∀ i j, IsSibblingOf s2.heap i j → i < j) ∧
      (∀ i, ¬ IsSibblingOf s2.heap i i) ∧
      (∀ i, ¬ Relation.TransGen (IsSibblingOf s2.heap) i i) :=
  ParseFunctionBody_acyclic true
    [⟨kTokenOperatorConditionalWhen, "when", none⟩, ⟨kTokenIdentifier, "x", none⟩,
      ⟨kTokenOperatorConditionalWhen, "when", none⟩, ⟨kTokenIdentifier, "y", none⟩]
    5 (by decide) (by decide)

/-- C2 (as stated) fails: on `when x` followed by the end of the input no error
is reported, and after back-patching the only node of the chain still has an
absent second sibling. -/
theorem ParseFunctionBody_absent_then_link :
    (ParseFunctionBody true 3 (CFormulaParser.init
        [⟨kTokenOperatorConditionalWhen, "when", none⟩, ⟨kTokenIdentifier, "x", none⟩])).map
      (fun r => (r.1, r.2.errors, r.2.heap.map (fun n => n._second_sibbling)))
      = some (TPParseTreeNode.when 0, [], [TPParseTreeNode.tree CParseTreeNode.NULL]) ∧
    (ParseFunctionBody false 3 (CFormulaParser.init
        [⟨kTokenOperatorConditionalWhen, "when", none⟩, ⟨kTokenIdentifier, "x", none⟩])).map
      (fun r => (r.1, r.2.errors, r.2.heap.map (fun n => n._second_sibbling)))
      = some (TPParseTreeNode.when 0, [], [TPParseTreeNode.tree CParseTreeNode.NULL]) := by
  constructor <;> decide

/-! ## Walking the else links -/

theorem ElseWalk_tree (fuel : Nat) (heap : List CParseTreeOperatorNode) (t : CParseTreeNode) :
    ElseWalk (fuel + 1) heap (TPParseTreeNode.tree t) = some ([], TPParseTreeNode.tree t) := by
  simp [ElseWalk]

theorem ElseWalk_when (fuel : Nat) (heap : List CParseTreeOperatorNode) (a : Nat)
    (n : CParseTreeOperatorNode) (hn : heap[a]? = some n) (visited : List Nat)
    (last : TPParseTreeNode)
    (h : ElseWalk fuel heap n._third_sibbling = some (visited, last)) :
    ElseWalk (fuel + 1) heap (TPParseTreeNode.when a) = some (a :: visited, last) := by
  simp [ElseWalk, hn, h]

/-- From the open-ended node that `NextOpenEnded` finds, the else links of the
back-patched chain lead through exactly the open-ended nodes that follow. -/
theorem ElseWalk_open_ended (flag : Bool) (heap heap1 : List CParseTreeOperatorNode)
    (hget : ∀ (i : Nat) (n : CParseTreeOperatorNode), heap[i]? = some n →
      heap1[i]? = some { n with _third_sibbling := BackPatchedThirdSibbling flag heap i n }) :
    ∀ (d j fuel : Nat), j + d = heap.length → d < fuel →
      ElseWalk fuel heap1 (NextOpenEnded flag heap d j)
        = some ((List.range' j d).filter
            (fun i => IsOpenEndedWhenCondition flag heap (TPParseTreeNode.when i)),
          end_of_function_node) := by
  intro d
  induction d with
  | zero =>
    intro j fuel _ hfuel
    obtain ⟨f, rfl⟩ : ∃ f, fuel = f + 1 := ⟨fuel - 1, by omega⟩
    simp [NextOpenEnded, end_of_function_node, ElseWalk]
  | succ d ih =>
    intro j fuel hjd hfuel
    rw [List.range'_succ, List.filter_cons]
    unfold NextOpenEnded
    by_cases hop : IsOpenEndedWhenCondition flag heap (TPParseTreeNode.when j) = true
    · rw [if_pos hop, if_pos hop]
      obtain ⟨f, rfl⟩ : ∃ f, fuel = f + 1 := ⟨fuel - 1, by omega⟩
      obtain ⟨n, hn⟩ : ∃ n, heap[j]? = some n := ⟨_, List.getElem?_eq_getElem (by omega)⟩
      refine ElseWalk_when f heap1 j _ (hget j n hn) _ _ ?_
      show ElseWalk f heap1 (BackPatchedThirdSibbling flag heap j n) = _
      have : BackPatchedThirdSibbling flag heap j n = NextOpenEnded flag heap d (j + 1) := by
        unfold BackPatchedThirdSibbling
        rw [if_pos hop]
        have : heap.length - (j + 1) = d := by omega
        rw [this]
      rw [this]
      exact ih (j + 1) f (by omega) (by omega)
    · rw [if_neg hop, if_neg hop]
      exact ih (j + 1) fuel (by omega) (by omega)

/-- From any node of the back-patched chain, the else links lead through the
nodes up to the next open-ended node and then through exactly the open-ended
nodes. -/
theorem ElseWalk_chain (flag : Bool) (heap heap1 : List CParseTreeOperatorNode)
    (hshape : ChainShaped heap)
    (hget : ∀ (i : Nat) (n : CParseTreeOperatorNode), heap[i]? = some n →
      heap1[i]? = some { n with _third_sibbling := BackPatchedThirdSibbling flag heap i n }) :
    ∀ (d j fuel : Nat), j + (d + 1) = heap.length → d + 1 < fuel →
      ElseWalk fuel heap1 (TPParseTreeNode.when j)
        = some ((List.range' j (d + 1)).takeWhile
              (fun i => !IsOpenEndedWhenCondition flag heap (TPParseTreeNode.when i))
            ++ ((List.range' j (d + 1)).dropWhile
              (fun i => !IsOpenEndedWhenCondition flag heap (TPParseTreeNode.when i))).filter
              (fun i => IsOpenEndedWhenCondition flag heap (TPParseTreeNode.when i)),
          end_of_function_node) := by
  intro d
  induction d with
  | zero =>
    intro j fuel hjd hfuel
    by_cases hop : IsOpenEndedWhenCondition flag heap (TPParseTreeNode.when j) = true
    · have h := ElseWalk_open_ended flag heap heap1 hget 1 j fuel hjd hfuel
      simp only [NextOpenEnded, hop, if_true] at h
      rw [h]
      simp [List.range'_succ, hop]
    · obtain ⟨f, rfl⟩ : ∃ f, fuel = f + 1 := ⟨fuel - 1, by omega⟩
      obtain ⟨f, rfl⟩ : ∃ g, f = g + 1 := ⟨f - 1, by omega⟩
      obtain ⟨n, hn⟩ : ∃ n, heap[j]? = some n := ⟨_, List.getElem?_eq_getElem (by omega)⟩
      have hw := ElseWalk_when (f + 1) heap1 j _ (hget j n hn) [] end_of_function_node (by
        show ElseWalk (f + 1) heap1 (BackPatchedThirdSibbling flag heap j n) = _
        rw [BackPatchedThirdSibbling_last flag heap j n hjd]
        exact ElseWalk_tree f heap1 _)
      rw [hw]
      simp [List.range'_succ, hop]
  | succ d ih =>
    intro j fuel hjd hfuel
    by_cases hop : IsOpenEndedWhenCondition flag heap (TPParseTreeNode.when j) = true
    · have h := ElseWalk_open_ended flag heap heap1 hget (d + 2) j fuel hjd hfuel
      simp only [NextOpenEnded, hop, if_true] at h
      rw [h]
      rw [List.range'_succ]
      simp [hop]
    · obtain ⟨f, rfl⟩ : ∃ f, fuel = f + 1 := ⟨fuel - 1, by omega⟩
      obtain ⟨n, hn⟩ : ∃ n, heap[j]? = some n := ⟨_, List.getElem?_eq_getElem (by omega)⟩
      have hthird : BackPatchedThirdSibbling flag heap j n = TPParseTreeNode.when (j + 1) := by
        unfold BackPatchedThirdSibbling
        rw [if_neg hop, if_neg (by omega)]
        exact closed_linked flag heap hshape j n hn (by simpa using hop) (by omega)
      have hw := ElseWalk_when f heap1 j _ (hget j n hn) _ end_of_function_node (by
        show ElseWalk f heap1 (BackPatchedThirdSibbling flag heap j n) = _
        rw [hthird]
        exact ih (j + 1) f (by omega) (by omega))
      rw [hw]
      rw [List.range'_succ j (d + 1)]
      simp [hop]

/-- C1 (as stated) fails: in `when x Fold Force` (one when-clause followed by
its final action) the only node is not open-ended, yet the walk along the else
links from the first node visits it before it ends at the end-of-function
node; in `when x Fold Force when x Fold Force` no node is open-ended and the
walk visits both nodes. -/
theorem ElseWalk_visits_closed_nodes :
    ((ParseFunctionBody true 5 (CFormulaParser.init
        [⟨kTokenOperatorConditionalWhen, "when", none⟩, ⟨kTokenIdentifier, "x", none⟩,
          ⟨kTokenIdentifier, "Fold", some (kTokenActionFixed 0)⟩,
          ⟨kTokenKeywordForce, "Force", none⟩])).bind
      (fun r => (ElseWalk 5 r.2.heap r.1).map
        (fun w => (w, [0].filter
          (fun i => IsOpenEndedWhenCondition true r.2.heap (TPParseTreeNode.when i))))))
      = some (([0], end_of_function_node), []) ∧
    ((ParseOpenEndedWhenConditionSequence 5 (CFormulaParser.init
        [⟨kTokenOperatorConditionalWhen, "when", none⟩, ⟨kTokenIdentifier, "x", none⟩,
          ⟨kTokenIdentifier, "Fold", some (kTokenActionFixed 0)⟩,
          ⟨kTokenKeywordForce, "Force", none⟩])).map
      (fun r => [0].filter
        (fun i => IsOpenEndedWhenCondition true r.2.heap (TPParseTreeNode.when i))))
      = some [] ∧
    ((ParseFunctionBody true 9 (CFormulaParser.init
        [⟨kTokenOperatorConditionalWhen, "when", none⟩, ⟨kTokenIdentifier, "x", none⟩,
          ⟨kTokenIdentifier, "Fold", some (kTokenActionFixed 0)⟩,
          ⟨kTokenKeywordForce, "Force", none⟩,
          ⟨kTokenOperatorConditionalWhen, "when", none⟩, ⟨kTokenIdentifier, "x", none⟩,
          ⟨kTokenIdentifier, "Fold", some (kTokenActionFixed 0)⟩,
          ⟨kTokenKeywordForce, "Force", none⟩])).bind
      (fun r => (ElseWalk 9 r.2.heap r.1).map
        (fun w => (w, [0, 1].filter
          (fun i => IsOpenEndedWhenCondition true r.2.heap (TPParseTreeNode.when i))))))
      = some (([0, 1], end_of_function_node), []) ∧
    ((ParseOpenEndedWhenConditionSequence 9 (CFormulaParser.init
        [⟨kTokenOperatorConditionalWhen, "when", none⟩, ⟨kTokenIdentifier, "x", none⟩,
          ⟨kTokenIdentifier, "Fold", some (kTokenActionFixed 0)⟩,
          ⟨kTokenKeywordForce, "Force", none⟩,
          ⟨kTokenOperatorConditionalWhen, "when", none⟩, ⟨kTokenIdentifier, "x", none⟩,
          ⟨kTokenIdentifier, "Fold", some (kTokenActionFixed 0)⟩,
          ⟨kTokenKeywordForce, "Force", none⟩])).map
      (fun r => [0, 1].filter
        (fun i => IsOpenEndedWhenCondition true r.2.heap (TPParseTreeNode.when i))))
      = some [] := by
  refine ⟨?_, ?_, ?_, ?_⟩ <;> decide

/-- C1 (amended): for every token stream that starts a when-condition chain,
after the back-patcher the walk along the else links (third siblings) from the
first node ends at the end-of-function node and visits no node twice; it
visits the nodes before the first open-ended node of the chain in source order
and then exactly the open-ended nodes in source order.  If the first node is
open-ended, the walk visits exactly the open-ended nodes. -/
theorem ElseWalk_after_BackPatch (flag : Bool) (tokens : List Token) (fuel : Nat)
    (hfuel : tokens.length < fuel)
    (hwhen : LookAhead (CFormulaParser.init tokens) = kTokenOperatorConditionalWhen) :
    ∃ s1 heap1 visited,
      ParseOpenEndedWhenConditionSequence fuel (CFormulaParser.init tokens)
        = some (TPParseTreeNode.when 0, s1) ∧
      BackPatchOpenEndedWhenConditionSequence flag fuel (TPParseTreeNode.when 0) s1.heap
        = some heap1 ∧
      ElseWalk fuel heap1 (TPParseTreeNode.when 0) = some (visited, end_of_function_node) ∧
      visited.Nodup ∧
      visited = (List.range s1.heap.length).takeWhile
            (fun i => !IsOpenEndedWhenCondition flag s1.heap (TPParseTreeNode.when i))
          ++ ((List.range s1.heap.length).dropWhile
            (fun i => !IsOpenEndedWhenCondition flag s1.heap (TPParseTreeNode.when i))).filter
            (fun i => IsOpenEndedWhenCondition flag s1.heap (TPParseTreeNode.when i)) ∧
      (IsOpenEndedWhenCondition flag s1.heap (TPParseTreeNode.when 0) = true →
        visited = (List.range s1.heap.length).filter
          (fun i => IsOpenEndedWhenCondition flag s1.heap (TPParseTreeNode.when i))) := by
  obtain ⟨s1, heap1, hparse, hbp, _, hshape, hne, hsize, _, hget, _⟩ :=
    ParseFunctionBody_chain flag tokens fuel hfuel hwhen
  have hpos : 0 < s1.heap.length := List.length_pos.mpr hne
  obtain ⟨d, hd⟩ : ∃ d, s1.heap.length = d + 1 := ⟨s1.heap.length - 1, by omega⟩
  have hwalk := ElseWalk_chain flag s1.heap heap1 hshape hget d 0 fuel (by omega) (by omega)
  rw [← hd, ← List.range_eq_range'] at hwalk
  refine ⟨s1, heap1, _, hparse, hbp, hwalk, ?_, rfl, fun hop => ?_⟩
  · refine List.Nodup.sublist ?_ (List.nodup_range s1.heap.length)
    have h := List.takeWhile_append_dropWhile
      (fun i => !IsOpenEndedWhenCondition flag s1.heap (TPParseTreeNode.when i))
      (List.range s1.heap.length)
    conv => rhs; rw [← h]
    exact List.Sublist.append (List.Sublist.refl _) (List.filter_sublist _)
  · rw [List.range_eq_range', hd, List.range'_succ]
    simp [hop]

theorem ElseWalk_after_BackPatch_witness :
    ∃ s1 heap1 visited,
      ParseOpenEndedWhenConditionSequence 5 (CFormulaParser.init
          [⟨kTokenOperatorConditionalWhen, "when", none⟩, ⟨kTokenIdentifier, "x", none⟩,
            ⟨kTokenOperatorConditionalWhen, "when", none⟩, ⟨kTokenIdentifier, "y", none⟩])
        = some (TPParseTreeNode.when 0, s1) ∧
      BackPatchOpenEndedWhenConditionSequence false 5 (TPParseTreeNode.when 0) s1.heap
        = some heap1 ∧
      ElseWalk 5 heap1 (TPParseTreeNode.when 0) = some (visited, end_of_function_node) ∧
      visited.Nodup ∧
      visited = (List.range s1.heap.length).takeWhile
            (fun i => !IsOpenEndedWhenCondition false s1.heap (TPParseTreeNode.when i))
          ++ ((List.range s1.heap.length).dropWhile
            (fun i => !IsOpenEndedWhenCondition false s1.heap (TPParseTreeNode.when i))).filter
            (fun i => IsOpenEndedWhenCondition false s1.heap (TPParseTreeNode.when i)) ∧
      (IsOpenEndedWhenCondition false s1.heap (TPParseTreeNode.when 0) = true →
        visited = (List.range s1.heap.length).filter
          (fun i => IsOpenEndedWhenCondition false s1.heap (TPParseTreeNode.when i))) :=
  ElseWalk_after_BackPatch false
    [⟨kTokenOperatorConditionalWhen, "when", none⟩, ⟨kTokenIdentifier, "x", none⟩,
      ⟨kTokenOperatorConditionalWhen, "when", none⟩, ⟨kTokenIdentifier, "y", none⟩]
    5 (by decide) (by decide)


/-! ## The confirmation keyword -/

theorem GetToken_input (s : CFormulaParser) : (GetToken s).2.input = s.input.drop 1 := by
  unfold GetToken
  cases s.input <;> rfl

/-- C12: `ExpectKeywordForce` returns true if and only if the next token is the
keyword Force.  When the next token is not Force, it consumes that one token,
returns false and reports exactly one error: the message about the action
Raise if the preceding action token was the plain Raise, and the general
message "Missing keyword FORCE after action" otherwise. -/
theorem ExpectKeywordForce_missing (last_important_roken_ID : TokenKind) (s : CFormulaParser) :
    ((ExpectKeywordForce last_important_roken_ID s).1 = true
      ↔ LookAhead s = kTokenKeywordForce) ∧
    (LookAhead s ≠ kTokenKeywordForce →
      (ExpectKeywordForce last_important_roken_ID s).1 = false ∧
      (ExpectKeywordForce last_important_roken_ID s).2.input = s.input.drop 1 ∧
      (ExpectKeywordForce last_important_roken_ID s).2.errors = s.errors ++
        [if last_important_roken_ID = kTokenActionRaise then
          ParseError.MissingKeywordForceAfterRaise
        else ParseError.MissingKeywordForce]) := by
  by_cases hf : LookAhead s = kTokenKeywordForce
  · refine ⟨⟨fun _ => hf, fun _ => ?_⟩, fun h => absurd hf h⟩
    unfold ExpectKeywordForce
    simp only [GetToken_fst, hf, if_true]
    split <;> rfl
  · refine ⟨⟨fun h => ?_, fun h => absurd h hf⟩, fun _ => ?_⟩
    · exfalso
      unfold ExpectKeywordForce at h
      simp only [GetToken_fst, hf, if_false] at h
      split at h <;> simp at h
    · unfold ExpectKeywordForce
      simp only [GetToken_fst, hf, if_false]
      by_cases hr : last_important_roken_ID = kTokenActionRaise
      · simp [hr, Error, GetToken_errors, GetToken_input]
      · simp [hr, Error, GetToken_errors, GetToken_input]

theorem ExpectKeywordForce_missing_witness :
    (ExpectKeywordForce kTokenActionRaise
        (CFormulaParser.init [⟨kTokenNumber, "3", none⟩, ⟨kTokenKeywordForce, "Force", none⟩])).1
      = false ∧
    (ExpectKeywordForce kTokenActionRaise
        (CFormulaParser.init [⟨kTokenNumber, "3", none⟩, ⟨kTokenKeywordForce, "Force", none⟩])).2.input
      = [⟨kTokenNumber, "3", none⟩, ⟨kTokenKeywordForce, "Force", none⟩].drop 1 ∧
    (ExpectKeywordForce kTokenActionRaise
        (CFormulaParser.init [⟨kTokenNumber, "3", none⟩, ⟨kTokenKeywordForce, "Force", none⟩])).2.errors
      = [] ++ [if kTokenActionRaise = kTokenActionRaise then
          ParseError.MissingKeywordForceAfterRaise
        else ParseError.MissingKeywordForce] :=
  (ExpectKeywordForce_missing kTokenActionRaise
    (CFormulaParser.init [⟨kTokenNumber, "3", none⟩, ⟨kTokenKeywordForce, "Force", none⟩])).2
    (by decide)

/-- C13: when the keyword Force is immediately followed by the keyword Delay,
`ExpectKeywordForce` consumes three tokens (Force, Delay and the token after
Delay), reports exactly one error, "Unsupported Shanky-style delay", and
returns true; when Force is followed by any other token, it consumes only
Force, reports no error and returns true. -/
theorem ExpectKeywordForce_delay (last_important_roken_ID : TokenKind) (s : CFormulaParser)
    (hforce : LookAhead s = kTokenKeywordForce) :
    (LookAhead (GetToken s).2 = kTokenUnsupportedDelay →
      (ExpectKeywordForce last_important_roken_ID s).1 = true ∧
      (ExpectKeywordForce last_important_roken_ID s).2.input = s.input.drop 3 ∧
      (ExpectKeywordForce last_important_roken_ID s).2.errors
        = s.errors ++ [ParseError.UnsupportedDelay]) ∧
    (LookAhead (GetToken s).2 ≠ kTokenUnsupportedDelay →
      (ExpectKeywordForce last_important_roken_ID s).1 = true ∧
      (ExpectKeywordForce last_important_roken_ID s).2.input = s.input.drop 1 ∧
      (ExpectKeywordForce last_important_roken_ID s).2.errors = s.errors) := by
  constructor
  · intro hd
    unfold ExpectKeywordForce
    simp only [GetToken_fst, hforce, hd, if_true]
    refine ⟨trivial, ?_, ?_⟩
    · simp only [GetToken_input, Error, List.drop_drop]
    · simp only [GetToken_errors, Error]
  · intro hd
    unfold ExpectKeywordForce
    simp only [GetToken_fst, hforce, hd, if_true, if_false]
    exact ⟨trivial, GetToken_input s, GetToken_errors s⟩

theorem ExpectKeywordForce_delay_witness :
    (ExpectKeywordForce (kTokenActionFixed 0)
        (CFormulaParser.init [⟨kTokenKeywordForce, "Force", none⟩,
          ⟨kTokenUnsupportedDelay, "Delay", none⟩, ⟨kTokenNumber, "42", none⟩,
          ⟨kTokenOperatorConditionalWhen, "when", none⟩])).1 = true ∧
    (ExpectKeywordForce (kTokenActionFixed 0)
        (CFormulaParser.init [⟨kTokenKeywordForce, "Force", none⟩,
          ⟨kTokenUnsupportedDelay, "Delay", none⟩, ⟨kTokenNumber, "42", none⟩,
          ⟨kTokenOperatorConditionalWhen, "when", none⟩])).2.input
      = [⟨kTokenKeywordForce, "Force", none⟩,
          ⟨kTokenUnsupportedDelay, "Delay", none⟩, ⟨kTokenNumber, "42", none⟩,
          ⟨kTokenOperatorConditionalWhen, "when", none⟩].drop 3 ∧
    (ExpectKeywordForce (kTokenActionFixed 0)
        (CFormulaParser.init [⟨kTokenKeywordForce, "Force", none⟩,
          ⟨kTokenUnsupportedDelay, "Delay", none⟩, ⟨kTokenNumber, "42", none⟩,
          ⟨kTokenOperatorConditionalWhen, "when", none⟩])).2.errors
      = [] ++ [ParseError.UnsupportedDelay] :=
  (ExpectKeywordForce_delay (kTokenActionFixed 0)
    (CFormulaParser.init [⟨kTokenKeywordForce, "Force", none⟩,
      ⟨kTokenUnsupportedDelay, "Delay", none⟩, ⟨kTokenNumber, "42", none⟩,
      ⟨kTokenOperatorConditionalWhen, "when", none⟩]) (by decide)).1 (by decide)


/-! ## User variables -/

/-- C20: `ParseOpenPPLUserVar` consumes exactly one token.  It returns the
user-variable node carrying the text of that token, and reports no error, if
the token is an identifier whose first four characters are "user" in any
letter case or whose first three characters are "me_"; otherwise it returns
the absent node and reports exactly one error.  The set-user-variable branch
of `ParseOpenPPLAction` returns what `ParseOpenPPLUserVar` returns and leaves
the state it leaves: the keyword Force is neither required nor consumed. -/
theorem ParseOpenPPLUserVar_result (s : CFormulaParser) :
    (∀ (t : Token) (rest : List Token), s.input = t :: rest →
      t.kind = kTokenIdentifier →
      ((t.text.data.take 4).map Char.toLower = ['u', 's', 'e', 'r']
        ∨ t.text.data.take 3 = ['m', 'e', '_']) →
      ParseOpenPPLUserVar s
        = (CParseTreeNode.UserVariable t.text,
            { s with input := rest, token_string := t.text })) ∧
    ((∀ (t : Token) (rest : List Token), s.input = t :: rest →
        ¬ (t.kind = kTokenIdentifier ∧
          ((t.text.data.take 4).map Char.toLower = ['u', 's', 'e', 'r']
            ∨ t.text.data.take 3 = ['m', 'e', '_']))) →
      (ParseOpenPPLUserVar s).1 = CParseTreeNode.NULL ∧
      (ParseOpenPPLUserVar s).2.input = s.input.drop 1 ∧
      ((ParseOpenPPLUserVar s).2.errors
          = s.errors ++ [ParseError.UnexpectedTokenUserVariableExpected]
        ∨ (ParseOpenPPLUserVar s).2.errors
          = s.errors ++ [ParseError.UnexpectedIdentifierUserVariableExpected])) ∧
    (∀ pe : CFormulaParser → ParseResult,
      LookAhead s = kTokenActionUserVariableToBeSet →
      ParseOpenPPLAction pe s = some (ParseOpenPPLUserVar (GetToken s).2)) := by
  refine ⟨fun t rest hin hk hc => ?_, fun hno => ?_, fun pe hla => ?_⟩
  · have hg : GetToken s = (t.kind, { s with input := rest, token_string := t.text }) := by
      simp [GetToken, hin]
    unfold ParseOpenPPLUserVar
    simp only [hg, hk]
    have hc2 : ¬ ((t.text.data.take 4).map Char.toLower ≠ ['u', 's', 'e', 'r']
        ∧ t.text.data.take 3 ≠ ['m', 'e', '_']) := by
      intro ⟨h1, h2⟩
      rcases hc with h | h
      · exact h1 h
      · exact h2 h
    simp only [ne_eq, not_true_eq_false, if_false]
    rw [if_neg hc2]
  · cases hin : s.input with
    | nil =>
      refine ⟨?_, ?_, Or.inl ?_⟩ <;> simp [ParseOpenPPLUserVar, GetToken, hin, Error]
    | cons t rest =>
      have hg : GetToken s = (t.kind, { s with input := rest, token_string := t.text }) := by
        simp [GetToken, hin]
      have hnot := hno t rest hin
      unfold ParseOpenPPLUserVar
      simp only [hg]
      by_cases hk : t.kind = kTokenIdentifier
      · have hc : (t.text.data.take 4).map Char.toLower ≠ ['u', 's', 'e', 'r']
            ∧ t.text.data.take 3 ≠ ['m', 'e', '_'] := by
          constructor
          · intro h; exact hnot ⟨hk, Or.inl h⟩
          · intro h; exact hnot ⟨hk, Or.inr h⟩
        simp only [hk, ne_eq, not_true_eq_false, if_false]
        rw [if_pos hc]
        exact ⟨rfl, by simp [Error], Or.inr (by simp [Error])⟩
      · rw [if_pos hk]
        exact ⟨rfl, by simp [Error], Or.inl (by simp [Error])⟩
  · unfold ParseOpenPPLAction
    simp [GetToken_fst, hla]

theorem ParseOpenPPLUserVar_result_witness :
    ParseOpenPPLUserVar (CFormulaParser.init [⟨kTokenIdentifier, "User_x", none⟩,
        ⟨kTokenKeywordForce, "Force", none⟩])
      = (CParseTreeNode.UserVariable "User_x",
          { CFormulaParser.init [⟨kTokenIdentifier, "User_x", none⟩,
                ⟨kTokenKeywordForce, "Force", none⟩] with
            input := [⟨kTokenKeywordForce, "Force", none⟩], token_string := "User_x" }) :=
  (ParseOpenPPLUserVar_result (CFormulaParser.init [⟨kTokenIdentifier, "User_x", none⟩,
      ⟨kTokenKeywordForce, "Force", none⟩])).1
    ⟨kTokenIdentifier, "User_x", none⟩ [⟨kTokenKeywordForce, "Force", none⟩] rfl rfl
    (by decide)


/-! ## Missing actions -/

theorem LookAheadAction_heap_irrelevant (s : CFormulaParser)
    (heap : List CParseTreeOperatorNode) :
    (LookAheadAction { s with heap := heap }).1 = (LookAheadAction s).1 ∧
      (LookAheadAction { s with heap := heap }).2.input = (LookAheadAction s).2.input ∧
      (LookAheadAction { s with heap := heap }).2.errors = s.errors ∧
      (LookAheadAction { s with heap := heap }).2.heap = heap := by
  unfold LookAheadAction
  cases hs : s.input with
  | nil => simp [hs]
  | cons t rest =>
    simp only
    split
    · cases ha : t.action <;> simp [hs]
    · simp [hs]

theorem ErrorMissingAction_result (token_ID : TokenKind) (s : CFormulaParser) :
    ∃ e, ErrorMissingAction token_ID s = Error e s ∧
      (token_ID = kTokenNumber → e = ParseError.MissingActionFoundNumber) ∧
      (TokenIsBracketOpen token_ID = true → e = ParseError.MissingActionFoundBracket) ∧
      (token_ID = kTokenIdentifier →
        e = ParseError.MissingActionFoundUserVariable
          ∨ e = ParseError.MissingActionFoundIdentifier) ∧
      (token_ID ≠ kTokenNumber → TokenIsBracketOpen token_ID = false →
        token_ID ≠ kTokenIdentifier → e = ParseError.MissingAction) := by
  unfold ErrorMissingAction
  by_cases h1 : token_ID = kTokenNumber
  · subst h1
    exact ⟨_, (by simp), fun _ => rfl, fun h => (by simp [TokenIsBracketOpen] at h),
      fun h => (by cases h), fun h => absurd rfl h⟩
  · rw [if_neg h1]
    by_cases h2 : TokenIsBracketOpen token_ID = true
    · rw [if_pos h2]
      refine ⟨_, rfl, fun h => absurd h h1, fun _ => rfl, fun h => ?_,
        fun _ h => (by rw [h2] at h; cases h)⟩
      subst h
      simp [TokenIsBracketOpen] at h2
    · rw [if_neg h2]
      by_cases h3 : token_ID = kTokenIdentifier
      · rw [if_pos h3]
        split
        · exact ⟨_, rfl, fun h => absurd h h1, fun h => absurd h h2, fun _ => Or.inl rfl,
            fun _ _ h => absurd h3 h⟩
        · exact ⟨_, rfl, fun h => absurd h h1, fun h => absurd h h2, fun _ => Or.inr rfl,
            fun _ _ h => absurd h3 h⟩
      · rw [if_neg h3]
        exact ⟨_, rfl, fun h => absurd h h1, fun h => absurd h h2, fun h => absurd h h3,
          fun _ _ _ => rfl⟩


theorem KeepsConditions_refl (heap : List CParseTreeOperatorNode) :
    KeepsConditions heap heap :=
  fun _ n hi => ⟨n, hi, rfl⟩

theorem KeepsConditions_trans {h1 h2 h3 : List CParseTreeOperatorNode}
    (h12 : KeepsConditions h1 h2) (h23 : KeepsConditions h2 h3) : KeepsConditions h1 h3 := by
  intro i n hi
  obtain ⟨n2, hn2, hf2⟩ := h12 i n hi
  obtain ⟨n3, hn3, hf3⟩ := h23 i n2 hn2
  exact ⟨n3, hn3, hf3.trans hf2⟩

theorem KeepsConditions_append (heap : List CParseTreeOperatorNode)
    (n : CParseTreeOperatorNode) : KeepsConditions heap (heap ++ [n]) := by
  intro i m hi
  exact ⟨m, by rw [List.getElem?_append_left (getElem?_lt _ i m hi)]; exact hi, rfl⟩

theorem KeepsConditions_SetSecondSibbling (p v : TPParseTreeNode)
    (heap : List CParseTreeOperatorNode) :
    KeepsConditions heap (SetSecondSibbling p v heap) := by
  intro i n hi
  cases p with
  | tree t => exact ⟨n, hi, rfl⟩
  | when a =>
    by_cases hia : i = a
    · subst hia
      exact ⟨_, SetSecondSibbling_get_self i v heap n hi, rfl⟩
    · exact ⟨n, by rw [SetSecondSibbling_get_ne a v heap i hia]; exact hi, rfl⟩

theorem KeepsConditions_SetThirdSibbling (p v : TPParseTreeNode)
    (heap : List CParseTreeOperatorNode) :
    KeepsConditions heap (SetThirdSibbling p v heap) := by
  intro i n hi
  cases p with
  | tree t => exact ⟨n, hi, rfl⟩
  | when a =>
    by_cases hia : i = a
    · subst hia
      exact ⟨_, SetThirdSibbling_get_self i v heap n hi, rfl⟩
    · exact ⟨n, by rw [SetThirdSibbling_get_ne a v heap i hia]; exact hi, rfl⟩

/-- The loop of the chain builder keeps the nodes built so far, and the first
node of the sequence it returns is the one remembered on entry or, if there
was none, the node it builds for the "when" clause it starts with. -/
theorem ParseOpenEndedWhenConditionSequence_loop_first (fuel : Nat) :
    ∀ (last : TPParseTreeNode) (was_open : Bool) (first : TPParseTreeNode)
      (s : CFormulaParser),
      s.input.length < fuel →
      ∃ r s1,
        ParseOpenEndedWhenConditionSequence_loop fuel (LookAhead s) last was_open first s
          = some (r, s1) ∧
        KeepsConditions s.heap s1.heap ∧
        (first ≠ TPParseTreeNode.null → r = first) ∧
        (first = TPParseTreeNode.null → LookAhead s = kTokenOperatorConditionalWhen →
          ∃ condition sc, ParseExpression (fuel - 1) (GetToken s).2 = some (condition, sc) ∧
            r = TPParseTreeNode.when s.heap.length ∧
            ∃ n, s1.heap[s.heap.length]? = some n ∧ n._first_sibbling = condition) := by
  induction fuel with
  | zero => intro _ _ _ s hs; omega
  | succ fuel ih =>
    intro last was_open first s hs
    unfold ParseOpenEndedWhenConditionSequence_loop
    by_cases hw : LookAhead s = kTokenOperatorConditionalWhen
    swap
    · rw [if_pos hw]
      exact ⟨first, s, rfl, KeepsConditions_refl _, fun _ => rfl, fun _ h => absurd h hw⟩
    · rw [if_neg (by simpa using hw)]
      have hpos : 0 < s.input.length :=
        LookAhead_ne_EndOfFile_input s (by rw [hw]; decide)
      have hg := Advances_GetToken s
      have hglen := GetToken_input_length s
      obtain ⟨condition, s1, hcond, ha1, _⟩ :=
        ParseExpression_returns fuel (GetToken s).2 (by omega)
      simp only [hcond]
      have hheap1 : s1.heap = s.heap := (hg.trans ha1).1
      rw [hheap1]
      have hkeep2 : KeepsConditions (s.heap ++ [MakeWhenCondition condition])
          (if last ≠ TPParseTreeNode.null then
            if was_open = true then
              SetSecondSibbling last (TPParseTreeNode.when s.heap.length)
                (s.heap ++ [MakeWhenCondition condition])
            else
              SetThirdSibbling last (TPParseTreeNode.when s.heap.length)
                (s.heap ++ [MakeWhenCondition condition])
          else s.heap ++ [MakeWhenCondition condition]) := by
        split
        · split
          · exact KeepsConditions_SetSecondSibbling _ _ _
          · exact KeepsConditions_SetThirdSibbling _ _ _
        · exact KeepsConditions_refl _
      generalize hheap2 :
        (if last ≠ TPParseTreeNode.null then
          if was_open = true then
            SetSecondSibbling last (TPParseTreeNode.when s.heap.length)
              (s.heap ++ [MakeWhenCondition condition])
          else
            SetThirdSibbling last (TPParseTreeNode.when s.heap.length)
              (s.heap ++ [MakeWhenCondition condition])
        else s.heap ++ [MakeWhenCondition condition]) = heap2 at hkeep2 ⊢
      have hkeep : KeepsConditions s.heap heap2 :=
        KeepsConditions_trans (KeepsConditions_append s.heap _) hkeep2
      have hnew : ∃ n, heap2[s.heap.length]? = some n ∧ n._first_sibbling = condition :=
        hkeep2 s.heap.length _ (List.getElem?_concat_length s.heap _)
      generalize hfirst : (if first = TPParseTreeNode.null then
        TPParseTreeNode.when s.heap.length else first) = first1
      have hfirst1 : first1 ≠ TPParseTreeNode.null := by
        rw [← hfirst]
        split
        · exact when_ne_null _
        · assumption
      have hres : ∀ (s4 : CFormulaParser), KeepsConditions heap2 s4.heap →
          KeepsConditions s.heap s4.heap ∧
          (first ≠ TPParseTreeNode.null → first1 = first) ∧
          (first = TPParseTreeNode.null → LookAhead s = kTokenOperatorConditionalWhen →
            ∃ condition sc, ParseExpression (fuel + 1 - 1) (GetToken s).2
                = some (condition, sc) ∧
              first1 = TPParseTreeNode.when s.heap.length ∧
              ∃ n, s4.heap[s.heap.length]? = some n ∧ n._first_sibbling = condition) := by
        intro s4 hk4
        refine ⟨KeepsConditions_trans hkeep hk4, fun h => by rw [← hfirst, if_neg h], fun h _ => ?_⟩
        obtain ⟨n, hn, hnf⟩ := hnew
        obtain ⟨n4, hn4, hnf4⟩ := hk4 _ n hn
        exact ⟨condition, s1, by simpa using hcond, by rw [← hfirst, if_pos h],
          n4, hn4, hnf4.trans hnf⟩
      obtain ⟨hla1, hla2, hla3, hla4⟩ := LookAheadAction_facts { s1 with heap := heap2 }
      generalize hla : LookAheadAction { s1 with heap := heap2 } = la at hla1 hla2 hla3 hla4 ⊢
      simp only at hla1 hla2 hla3
      have hs1len : s1.input.length ≤ s.input.length - 1 := by have := ha1.2.1; omega
      by_cases hact : TokenIsOpenPPLAction la.1 = true
      · rw [if_pos hact]
        obtain ⟨action, s2, hact2, ha2, _⟩ :=
          ParseOpenPPLAction_returns fuel la.2 (by omega)
        simp only [hact2]
        have hheap2s : s2.heap = heap2 := by rw [ha2.1, hla1]
        rw [hheap2s]
        have hs2len : s2.input.length ≤ la.2.input.length := ha2.2.1
        have hk3 := KeepsConditions_SetSecondSibbling (TPParseTreeNode.when s.heap.length)
          (TPParseTreeNode.tree action) heap2
        generalize SetSecondSibbling (TPParseTreeNode.when s.heap.length)
          (TPParseTreeNode.tree action) heap2 = heap3 at hk3 ⊢
        obtain ⟨r, s4, hloop, hk4, hr4, _⟩ :=
          ih (TPParseTreeNode.when s.heap.length) false first1
            { s2 with heap := heap3 } (by show s2.input.length < fuel; omega)
        have hr : r = first1 := hr4 hfirst1
        subst hr
        exact ⟨_, s4, hloop, hres s4 (KeepsConditions_trans hk3 hk4)⟩
      · rw [if_neg hact]
        by_cases hw2 : la.1 = kTokenOperatorConditionalWhen
        · rw [if_pos hw2]
          obtain ⟨r, s4, hloop, hk4, hr4, _⟩ :=
            ih (TPParseTreeNode.when s.heap.length) true first1 la.2 (by omega)
          have hr : r = first1 := hr4 hfirst1
          subst hr
          rw [hla4]
          rw [hla1] at hk4
          exact ⟨_, s4, hloop, hres s4 hk4⟩
        · rw [if_neg hw2]
          by_cases hend : la.1 = kTokenEndOfFile ∨ la.1 = kTokenEndOfFunction
          · rw [if_pos hend]
            exact ⟨_, la.2, rfl, hres la.2 (by rw [hla1]; exact KeepsConditions_refl _)⟩
          · rw [if_neg hend]
            obtain ⟨e, he, _⟩ := ErrorMissingAction_result la.1 la.2
            refine ⟨_, _, rfl, hres _ ?_⟩
            rw [he]
            show KeepsConditions heap2 la.2.heap
            rw [hla1]
            exact KeepsConditions_refl _


/-- C11: `ParseOpenEndedWhenConditionSequence` returns the absent tree, and
leaves everything as it is, if the first lookahead is not "when"; otherwise it
returns the node built for the first "when" clause, whose condition is the
expression parsed after that "when".  If, after a condition, the
action-sensitive lookahead is neither an action, nor "when", nor end-of-file,
nor end-of-function, the loop stops there: it reports exactly one error, the
"Missing action after when-condition" message whose detail goes by the token
(a number, an opening bracket, an identifier, or none of these), does not
consume the token, and returns the first node of the sequence. -/
theorem ParseOpenEndedWhenConditionSequence_first_and_missing_action :
    (∀ (fuel : Nat) (s : CFormulaParser), LookAhead s ≠ kTokenOperatorConditionalWhen →
      ParseOpenEndedWhenConditionSequence (fuel + 1) s = some (TPParseTreeNode.null, s)) ∧
    (∀ (fuel : Nat) (s : CFormulaParser), s.input.length < fuel →
      LookAhead s = kTokenOperatorConditionalWhen →
      ∃ condition sc s1,
        ParseExpression (fuel - 1) (GetToken s).2 = some (condition, sc) ∧
        ParseOpenEndedWhenConditionSequence fuel s
          = some (TPParseTreeNode.when s.heap.length, s1) ∧
        ∃ n, s1.heap[s.heap.length]? = some n ∧ n._first_sibbling = condition) ∧
    (∀ (fuel : Nat) (last : TPParseTreeNode) (was_open : Bool) (first : TPParseTreeNode)
        (s s1 : CFormulaParser) (condition : CParseTreeNode) (k : TokenKind),
      LookAhead s = kTokenOperatorConditionalWhen →
      ParseExpression fuel (GetToken s).2 = some (condition, s1) →
      (LookAheadAction s1).1 = k →
      TokenIsOpenPPLAction k = false → k ≠ kTokenOperatorConditionalWhen →
      k ≠ kTokenEndOfFile → k ≠ kTokenEndOfFunction →
      ∃ s2 e,
        ParseOpenEndedWhenConditionSequence_loop (fuel + 1) (LookAhead s) last was_open first s
          = some (if first = TPParseTreeNode.null then TPParseTreeNode.when s1.heap.length
              else first, s2) ∧
        s2.errors = s1.errors ++ [e] ∧
        (k = kTokenNumber → e = ParseError.MissingActionFoundNumber) ∧
        (TokenIsBracketOpen k = true → e = ParseError.MissingActionFoundBracket) ∧
        (k = kTokenIdentifier →
          e = ParseError.MissingActionFoundUserVariable
            ∨ e = ParseError.MissingActionFoundIdentifier) ∧
        (k ≠ kTokenNumber → TokenIsBracketOpen k = false → k ≠ kTokenIdentifier →
          e = ParseError.MissingAction) ∧
        s2.input = (LookAheadAction s1).2.input ∧
        s2.input.length = s1.input.length ∧
        LookAhead s2 = k) := by
  refine ⟨fun fuel s hw => ?_, fun fuel s hs hw => ?_, ?_⟩
  · unfold ParseOpenEndedWhenConditionSequence ParseOpenEndedWhenConditionSequence_loop
    rw [if_pos hw]
  · obtain ⟨r, s1, hloop, _, _, hfirst⟩ :=
      ParseOpenEndedWhenConditionSequence_loop_first fuel TPParseTreeNode.null false
        TPParseTreeNode.null s hs
    obtain ⟨condition, sc, hc, hr, hn⟩ := hfirst rfl hw
    subst hr
    exact ⟨condition, sc, s1, hc, hloop, hn⟩
  · intro fuel last was_open first s s1 condition k hw hcond hk hact hnw hneof hneofn
    unfold ParseOpenEndedWhenConditionSequence_loop
    rw [if_neg (by simpa using hw)]
    simp only [hcond]
    generalize
      (if last ≠ TPParseTreeNode.null then
        if was_open = true then
          SetSecondSibbling last (TPParseTreeNode.when s1.heap.length)
            (s1.heap ++ [MakeWhenCondition condition])
        else
          SetThirdSibbling last (TPParseTreeNode.when s1.heap.length)
            (s1.heap ++ [MakeWhenCondition condition])
      else s1.heap ++ [MakeWhenCondition condition]) = heap2
    obtain ⟨hl1, hl2, hl3, _⟩ := LookAheadAction_heap_irrelevant s1 heap2
    obtain ⟨_, _, hlen, hlook⟩ := LookAheadAction_facts { s1 with heap := heap2 }
    generalize LookAheadAction { s1 with heap := heap2 } = la at hl1 hl2 hl3 hlen hlook ⊢
    rw [hk] at hl1
    rw [hl1] at hlook ⊢
    rw [if_neg (by simp [hact]), if_neg hnw, if_neg (by simp [hneof, hneofn])]
    obtain ⟨e, he, h1, h2, h3, h4⟩ := ErrorMissingAction_result k la.2
    refine ⟨_, e, rfl, ?_, h1, h2, h3, h4, ?_, ?_, ?_⟩
    · rw [he]; simp [Error, hl3]
    · rw [he]; exact hl2
    · rw [he]; exact hlen
    · rw [he]; exact hlook.symm

theorem ParseOpenEndedWhenConditionSequence_first_and_missing_action_witness :
    ∃ s2 e,
      ParseOpenEndedWhenConditionSequence_loop 2
          (LookAhead (CFormulaParser.init [⟨kTokenOperatorConditionalWhen, "when", none⟩,
            ⟨kTokenIdentifier, "x", none⟩, ⟨kTokenNumber, "5", none⟩]))
          TPParseTreeNode.null false TPParseTreeNode.null
          (CFormulaParser.init [⟨kTokenOperatorConditionalWhen, "when", none⟩,
            ⟨kTokenIdentifier, "x", none⟩, ⟨kTokenNumber, "5", none⟩])
        = some (if TPParseTreeNode.null = TPParseTreeNode.null then
              TPParseTreeNode.when
                (CFormulaParser.mk [⟨kTokenNumber, "5", none⟩] "x" [] []).heap.length
            else TPParseTreeNode.null, s2) ∧
      s2.errors = [] ++ [e] ∧
      (kTokenNumber = kTokenNumber → e = ParseError.MissingActionFoundNumber) ∧
      (TokenIsBracketOpen kTokenNumber = true → e = ParseError.MissingActionFoundBracket) ∧
      (kTokenNumber = kTokenIdentifier →
        e = ParseError.MissingActionFoundUserVariable
          ∨ e = ParseError.MissingActionFoundIdentifier) ∧
      (kTokenNumber ≠ kTokenNumber → TokenIsBracketOpen kTokenNumber = false →
        kTokenNumber ≠ kTokenIdentifier → e = ParseError.MissingAction) ∧
      s2.input
        = (LookAheadAction (CFormulaParser.mk [⟨kTokenNumber, "5", none⟩] "x" [] [])).2.input ∧
      s2.input.length = [(⟨kTokenNumber, "5", none⟩ : Token)].length ∧
      LookAhead s2 = kTokenNumber :=
  ParseOpenEndedWhenConditionSequence_first_and_missing_action.2.2 1
    TPParseTreeNode.null false TPParseTreeNode.null
    (CFormulaParser.init [⟨kTokenOperatorConditionalWhen, "when", none⟩,
      ⟨kTokenIdentifier, "x", none⟩, ⟨kTokenNumber, "5", none⟩])
    (CFormulaParser.mk [⟨kTokenNumber, "5", none⟩] "x" [] [])
    (CParseTreeNode.Identifier "x") kTokenNumber
    (by decide) (by decide) (by decide) (by decide) (by decide) (by decide) (by decide)


/-! ## List bodies -/

theorem GetToken_cons (s : CFormulaParser) (t : Token) (rest : List Token)
    (h : s.input = t :: rest) :
    GetToken s = (t.kind, { s with input := rest, token_string := t.text }) := by
  simp [GetToken, h]

/-- The loop of `ParseListBody` runs through a stretch of tokens the setter
accepts, handing the text of each to the setter. -/
theorem ParseListBody_loop_accepted (Set : String → Bool) (rest : List Token) :
    ∀ (pre : List Token) (fuel : Nat) (received : List String) (s : CFormulaParser),
      s.input = pre ++ rest → (∀ t ∈ pre, AcceptedByList Set t) →
      ∃ s1 : CFormulaParser, s1.input = rest ∧ s1.errors = s.errors ∧ s1.heap = s.heap ∧
        ParseListBody_loop Set (pre.length + fuel) (GetToken s).1 received (GetToken s).2
          = ParseListBody_loop Set fuel (GetToken s1).1
              (received ++ pre.map (fun t => t.text)) (GetToken s1).2 := by
  intro pre
  induction pre with
  | nil =>
    intro fuel received s hin _
    exact ⟨s, by simpa using hin, rfl, rfl, by simp⟩
  | cons x pre ih =>
    intro fuel received s hin hacc
    have hx := hacc x (List.mem_cons_self _ _)
    have hg := GetToken_cons s x (pre ++ rest) (by simpa using hin)
    obtain ⟨s1, h1, h2, h3, h4⟩ := ih fuel (received ++ [x.text])
      { s with input := pre ++ rest, token_string := x.text } rfl
      (fun t ht => hacc t (List.mem_cons_of_mem _ ht))
    refine ⟨s1, h1, h2, h3, ?_⟩
    have hlen : (x :: pre).length + fuel = (pre.length + fuel) + 1 := by
      simp only [List.length_cons]; omega
    rw [hlen, hg]
    conv => lhs; unfold ParseListBody_loop
    have hne : x.kind ≠ kTokenEndOfFunction := by
      rcases hx.1 with h | h | h <;> rw [h] <;> decide
    simp only [hne, if_false, hx.1, if_true, hx.2]
    simp only [Bool.true_eq_false, if_false]
    rw [h4]
    simp


/-- C14: `ParseListBody` hands the text of each identifier, number or
card-literal token to the setter of the list in source order and stops at the
first token the setter rejects: the rejected token is the last one consumed and
the last one handed to the setter, and no error is reported by the parser.  If
the setter rejects no token, every token up to end-of-function is handed to
the setter exactly once, and the end-of-function token is consumed. -/
theorem ParseListBody_stops_at_rejection (Set : String → Bool) (pre : List Token)
    (t : Token) (rest : List Token) (s : CFormulaParser) (fuel : Nat)
    (hin : s.input = pre ++ t :: rest) (hacc : ∀ x ∈ pre, AcceptedByList Set x)
    (hfuel : pre.length < fuel) :
    ((t.kind = kTokenIdentifier ∨ t.kind = kTokenNumber ∨ t.kind = kTokenCards) →
      Set t.text = false →
      ∃ s1, ParseListBody Set fuel s
          = some (pre.map (fun x => x.text) ++ [t.text], s1) ∧
        s1.input = rest ∧ s1.errors = s.errors) ∧
    (t.kind = kTokenEndOfFunction →
      ∃ s1, ParseListBody Set fuel s = some (pre.map (fun x => x.text), s1) ∧
        s1.input = rest ∧ s1.errors = s.errors) := by
  obtain ⟨f, rfl⟩ : ∃ f, fuel = pre.length + (f + 1) := ⟨fuel - pre.length - 1, by omega⟩
  obtain ⟨s1, h1, h2, _, h4⟩ :=
    ParseListBody_loop_accepted Set (t :: rest) pre (f + 1) [] s hin hacc
  have hg := GetToken_cons s1 t rest h1
  unfold ParseListBody
  rw [h4, hg]
  constructor
  · intro hk hrej
    have hne : t.kind ≠ kTokenEndOfFunction := by
      rcases hk with h | h | h <;> rw [h] <;> decide
    refine ⟨{ s1 with input := rest, token_string := t.text }, ?_, rfl, h2⟩
    unfold ParseListBody_loop
    simp [hne, hk, hrej]
  · intro hk
    refine ⟨{ s1 with input := rest, token_string := t.text }, ?_, rfl, h2⟩
    unfold ParseListBody_loop
    simp [hk]

theorem ParseListBody_stops_at_rejection_witness :
    ∃ s1, ParseListBody (fun text => decide (text ≠ "XZ")) 3
        (CFormulaParser.init [⟨kTokenIdentifier, "AA", none⟩, ⟨kTokenIdentifier, "KK", none⟩,
          ⟨kTokenIdentifier, "XZ", none⟩, ⟨kTokenIdentifier, "QQ", none⟩])
        = some ([(⟨kTokenIdentifier, "AA", none⟩ : Token),
            ⟨kTokenIdentifier, "KK", none⟩].map (fun x => x.text) ++ ["XZ"], s1) ∧
      s1.input = [⟨kTokenIdentifier, "QQ", none⟩] ∧ s1.errors = [] :=
  (ParseListBody_stops_at_rejection (fun text => decide (text ≠ "XZ"))
    [⟨kTokenIdentifier, "AA", none⟩, ⟨kTokenIdentifier, "KK", none⟩]
    ⟨kTokenIdentifier, "XZ", none⟩ [⟨kTokenIdentifier, "QQ", none⟩]
    (CFormulaParser.init [⟨kTokenIdentifier, "AA", none⟩, ⟨kTokenIdentifier, "KK", none⟩,
      ⟨kTokenIdentifier, "XZ", none⟩, ⟨kTokenIdentifier, "QQ", none⟩]) 3 rfl
    (by
      intro x hx
      simp only [List.mem_cons, List.mem_singleton, List.not_mem_nil, or_false] at hx
      rcases hx with rfl | rfl <;> exact ⟨Or.inl rfl, by decide⟩)
    (by decide)).1 (Or.inl rfl) (by decide)

/-- C15: in `ParseListBody`, the first token that is neither an identifier, a
number, a card literal nor end-of-function, and likewise the end of the input
before end-of-function, causes exactly one error, "Unexpected token inside
list"; parsing of the list stops there: the setter has received the tokens
before it only, and no later token is consumed. -/
theorem ParseListBody_unexpected_token (Set : String → Bool) (pre : List Token)
    (s : CFormulaParser) (fuel : Nat) (hacc : ∀ x ∈ pre, AcceptedByList Set x)
    (hfuel : pre.length < fuel) :
    (∀ (t : Token) (rest : List Token), s.input = pre ++ t :: rest →
      t.kind ≠ kTokenIdentifier → t.kind ≠ kTokenNumber → t.kind ≠ kTokenCards →
      t.kind ≠ kTokenEndOfFunction →
      ∃ s1, ParseListBody Set fuel s = some (pre.map (fun x => x.text), s1) ∧
        s1.input = rest ∧
        s1.errors = s.errors ++ [ParseError.UnexpectedTokenInsideList]) ∧
    (s.input = pre →
      ∃ s1, ParseListBody Set fuel s = some (pre.map (fun x => x.text), s1) ∧
        s1.input = [] ∧
        s1.errors = s.errors ++ [ParseError.UnexpectedTokenInsideList]) := by
  obtain ⟨f, rfl⟩ : ∃ f, fuel = pre.length + (f + 1) := ⟨fuel - pre.length - 1, by omega⟩
  constructor
  · intro t rest hin h1 h2 h3 h4
    obtain ⟨s1, hs1, herr, _, hloop⟩ :=
      ParseListBody_loop_accepted Set (t :: rest) pre (f + 1) [] s hin hacc
    have hg := GetToken_cons s1 t rest hs1
    unfold ParseListBody
    rw [hloop, hg]
    refine ⟨Error ParseError.UnexpectedTokenInsideList
      { s1 with input := rest, token_string := t.text }, ?_, rfl, by simp [Error, herr]⟩
    unfold ParseListBody_loop
    simp [h1, h2, h3, h4]
  · intro hin
    obtain ⟨s1, hs1, herr, _, hloop⟩ :=
      ParseListBody_loop_accepted Set [] pre (f + 1) [] s (by simpa using hin) hacc
    have hg : GetToken s1 = (kTokenEndOfFile, { s1 with token_string := "" }) := by
      simp [GetToken, hs1]
    unfold ParseListBody
    rw [hloop, hg]
    refine ⟨Error ParseError.UnexpectedTokenInsideList { s1 with token_string := "" }, ?_,
      by simp [Error, hs1], by simp [Error, herr]⟩
    unfold ParseListBody_loop
    simp

theorem ParseListBody_unexpected_token_witness :
    ∃ s1, ParseListBody (fun _ => true) 2
        (CFormulaParser.init [⟨kTokenIdentifier, "AA", none⟩,
          ⟨kTokenOperatorBinary 0, "+", none⟩, ⟨kTokenIdentifier, "KK", none⟩])
        = some ([(⟨kTokenIdentifier, "AA", none⟩ : Token)].map (fun x => x.text), s1) ∧
      s1.input = [⟨kTokenIdentifier, "KK", none⟩] ∧
      s1.errors = [] ++ [ParseError.UnexpectedTokenInsideList] :=
  (ParseListBody_unexpected_token (fun _ => true) [⟨kTokenIdentifier, "AA", none⟩]
    (CFormulaParser.init [⟨kTokenIdentifier, "AA", none⟩,
      ⟨kTokenOperatorBinary 0, "+", none⟩, ⟨kTokenIdentifier, "KK", none⟩]) 2
    (by
      intro x hx
      simp only [List.mem_singleton] at hx
      subst hx
      exact ⟨Or.inl rfl, rfl⟩)
    (by decide)).1 ⟨kTokenOperatorBinary 0, "+", none⟩ [⟨kTokenIdentifier, "KK", none⟩] rfl
    (by decide) (by decide) (by decide) (by decide)


/-! ## Names -/

theorem take_eq_iff_starts (l : List Char) (p : List Char) :
    l.take p.length = p ↔ p <+: l := by
  rw [List.prefix_iff_eq_take]
  exact eq_comm

theorem FirstCharacter_isUpper (name : String) :
    (FirstCharacter name).isUpper = true
      ↔ ∃ c rest, name.data = c :: rest ∧ c.isUpper = true := by
  unfold FirstCharacter
  cases h : name.data with
  | nil =>
    simp only
    constructor
    · intro hu; exact absurd hu (by decide)
    · intro ⟨c, rest, hc, _⟩; cases hc
  | cons c rest =>
    simp

/-- C16: `VerifyFunctionNamingConventions` returns true exactly in these cases:
while the OpenPPL library is not yet marked as loaded, when the first character
of the name is an upper-case letter; once it is marked as loaded, when the name
starts with "f$", starts with "list", equals "notes", equals "dll" or starts
with "20".  It reports no error when it returns true, and exactly one error,
"Invalid function name", when it returns false. -/
theorem VerifyFunctionNamingConventions_result (OpenPPLLibraryLoaded : Bool) (name : String)
    (s : CFormulaParser) :
    ((VerifyFunctionNamingConventions OpenPPLLibraryLoaded name s).1 = true ↔
      (OpenPPLLibraryLoaded = false ∧ ∃ c rest, name.data = c :: rest ∧ c.isUpper = true) ∨
      (OpenPPLLibraryLoaded = true ∧
        (['f', '$'] <+: name.data ∨ ['l', 'i', 's', 't'] <+: name.data ∨ name = "notes"
          ∨ name = "dll" ∨ ['2', '0'] <+: name.data))) ∧
    ((VerifyFunctionNamingConventions OpenPPLLibraryLoaded name s).1 = true →
      (VerifyFunctionNamingConventions OpenPPLLibraryLoaded name s).2 = s) ∧
    ((VerifyFunctionNamingConventions OpenPPLLibraryLoaded name s).1 = false →
      (VerifyFunctionNamingConventions OpenPPLLibraryLoaded name s).2.errors
          = s.errors ++ [ParseError.InvalidFunctionName] ∧
        (VerifyFunctionNamingConventions OpenPPLLibraryLoaded name s).2.input = s.input) := by
  have h1 := take_eq_iff_starts name.data ['f', '$']
  have h2 := take_eq_iff_starts name.data ['l', 'i', 's', 't']
  have h3 := take_eq_iff_starts name.data ['2', '0']
  simp only [List.length_cons, List.length_nil, Nat.zero_add, Nat.reduceAdd] at h1 h2 h3
  have hu := FirstCharacter_isUpper name
  unfold VerifyFunctionNamingConventions
  cases OpenPPLLibraryLoaded with
  | false =>
    rw [if_neg Bool.false_ne_true]
    by_cases hc : (FirstCharacter name).isUpper = true
    · rw [if_pos hc]
      exact ⟨⟨fun _ => Or.inl ⟨rfl, hu.mp hc⟩, fun _ => rfl⟩, fun _ => rfl,
        fun h => (by cases h)⟩
    · rw [if_neg hc]
      refine ⟨⟨fun h => (by cases h), fun h => ?_⟩, fun h => (by cases h),
        fun _ => ⟨rfl, rfl⟩⟩
      rcases h with ⟨_, h⟩ | ⟨h, _⟩
      · exact absurd (hu.mpr h) hc
      · cases h
  | true =>
    rw [if_pos rfl]
    by_cases c1 : name.data.take 2 = ['f', '$']
    · rw [if_pos c1]
      exact ⟨⟨fun _ => Or.inr ⟨rfl, Or.inl (h1.mp c1)⟩, fun _ => rfl⟩, fun _ => rfl,
        fun h => (by cases h)⟩
    · rw [if_neg c1]
      by_cases c2 : name.data.take 4 = ['l', 'i', 's', 't']
      · rw [if_pos c2]
        exact ⟨⟨fun _ => Or.inr ⟨rfl, Or.inr (Or.inl (h2.mp c2))⟩, fun _ => rfl⟩,
          fun _ => rfl, fun h => (by cases h)⟩
      · rw [if_neg c2]
        by_cases c3 : name = "notes"
        · rw [if_pos c3]
          exact ⟨⟨fun _ => Or.inr ⟨rfl, Or.inr (Or.inr (Or.inl c3))⟩, fun _ => rfl⟩,
            fun _ => rfl, fun h => (by cases h)⟩
        · rw [if_neg c3]
          by_cases c4 : name = "dll"
          · rw [if_pos c4]
            exact ⟨⟨fun _ => Or.inr ⟨rfl, Or.inr (Or.inr (Or.inr (Or.inl c4)))⟩,
              fun _ => rfl⟩, fun _ => rfl, fun h => (by cases h)⟩
          · rw [if_neg c4]
            by_cases c5 : name.data.take 2 = ['2', '0']
            · rw [if_pos c5]
              exact ⟨⟨fun _ => Or.inr ⟨rfl, Or.inr (Or.inr (Or.inr (Or.inr (h3.mp c5))))⟩,
                fun _ => rfl⟩, fun _ => rfl, fun h => (by cases h)⟩
            · rw [if_neg c5]
              refine ⟨⟨fun h => (by cases h), fun h => ?_⟩, fun h => (by cases h),
                fun _ => ⟨rfl, rfl⟩⟩
              rcases h with ⟨h, _⟩ | ⟨_, h | h | h | h | h⟩
              · cases h
              · exact absurd (h1.mpr h) c1
              · exact absurd (h2.mpr h) c2
              · exact absurd h c3
              · exact absurd h c4
              · exact absurd (h3.mpr h) c5

theorem VerifyFunctionNamingConventions_result_witness :
    (VerifyFunctionNamingConventions true "f$preflop" (CFormulaParser.init [])).2
        = CFormulaParser.init [] ∧
    ((VerifyFunctionNamingConventions true "preflop" (CFormulaParser.init [])).2.errors
        = [] ++ [ParseError.InvalidFunctionName] ∧
      (VerifyFunctionNamingConventions true "preflop" (CFormulaParser.init [])).2.input = []) :=
  ⟨(VerifyFunctionNamingConventions_result true "f$preflop" (CFormulaParser.init [])).2.1
      (by decide),
    (VerifyFunctionNamingConventions_result true "preflop" (CFormulaParser.init [])).2.2
      (by decide)⟩

theorem IsValidFunctionName_loop_iff (l : List Char) :
    IsValidFunctionName_loop l = true
      ↔ ∀ c ∈ l, c.isAlphanum = true ∨ c = '_' ∨ c = '$' := by
  induction l with
  | nil => simp [IsValidFunctionName_loop]
  | cons c rest ih =>
    unfold IsValidFunctionName_loop
    simp only [List.mem_cons, forall_eq_or_imp]
    by_cases h1 : c.isAlphanum = true
    · simp [h1, ih]
    · by_cases h2 : c = '_'
      · simp [h2, ih]
      · by_cases h3 : c = '$'
        · simp [h3, ih]
        · simp [h1, h2, h3]


/-! ## The driver -/

/-- A unit whose name starts with a digit: `ParseFormula` marks the instance as
alive, binds the tokenizer and returns. -/
theorem ParseFormula_digit (flag : Bool) (fuel : Nat) (unit : COHScriptObject)
    (p : ParseSession) (hdigit : (FirstCharacter unit.name).isDigit = true) :
    ParseFormula flag fuel unit p
      = some (ParseSession.mk (SetInputFunction unit p.parser) (p._is_parsing_counter + 1 - 1)
          unit.name (p.calls ++ [CollaboratorCall.MarkThisInstanceAsAlive])) := by
  unfold ParseFormula
  simp [hdigit, EnterParserCode, LeaveParserCode]

/-- A unit whose name has a character that is not allowed: `ParseFormula`
reports the malformed header and returns. -/
theorem ParseFormula_malformed (flag : Bool) (fuel : Nat) (unit : COHScriptObject)
    (p : ParseSession) (hdigit : (FirstCharacter unit.name).isDigit = false)
    (hvalid : IsValidFunctionName unit.name = false) :
    ParseFormula flag fuel unit p
      = some (ParseSession.mk
          (Error ParseError.MalformedFunctionHeader (SetInputFunction unit p.parser))
          (p._is_parsing_counter + 1 - 1) unit.name
          (p.calls ++ [CollaboratorCall.MarkThisInstanceAsAlive])) := by
  unfold ParseFormula
  simp [hdigit, hvalid, EnterParserCode, LeaveParserCode]

theorem Char_toLower_toLower (c : Char) : c.toLower.toLower = c.toLower := by
  by_cases h : c.toNat ≥ 65 ∧ c.toNat ≤ 90
  · have hc : c = Char.ofNat c.toNat := (Char.ofNat_toNat c).symm
    obtain ⟨h1, h2⟩ := h
    generalize c.toNat = n at hc h1 h2
    subst hc
    interval_cases n <;> decide
  · have : c.toLower = c := by
      unfold Char.toLower
      simp only
      rw [if_neg h]
    rw [this, this]

theorem MakeLower_MakeLower (name : String) : MakeLower (MakeLower name) = MakeLower name := by
  unfold MakeLower
  simp only [List.map_map]
  congr 1
  apply List.map_congr_left
  intro c _
  exact Char_toLower_toLower c

/-- A unit with a well-formed name that is neither function, OpenPPL symbol nor
list and is not named dll or notes: `ParseFormula` reports the unknown function
type and returns. -/
theorem ParseFormula_unknown (flag : Bool) (fuel : Nat) (unit : COHScriptObject)
    (p : ParseSession) (hdigit : (FirstCharacter unit.name).isDigit = false)
    (hvalid : IsValidFunctionName unit.name = true)
    (hfunction : unit.IsFunction = false) (hsymbol : unit.IsOpenPPLSymbol = false)
    (hlist : unit.IsList = false)
    (hdll : MakeLower unit.name ≠ "dll") (hnotes : MakeLower unit.name ≠ "notes") :
    ParseFormula flag fuel unit p
      = some (ParseSession.mk
          (Error ParseError.UnknownFunctionType (SetInputFunction unit p.parser))
          (p._is_parsing_counter + 1 - 1) (MakeLower unit.name)
          (p.calls ++ [CollaboratorCall.MarkThisInstanceAsAlive])) := by
  unfold ParseFormula
  simp [hdigit, hvalid, hfunction, hsymbol, hlist, hdll, hnotes, MakeLower_MakeLower,
    EnterParserCode, LeaveParserCode]

theorem FirstCharacter_of_prefix_20 (name : String) (h : ['2', '0'] <+: name.data) :
    (FirstCharacter name).isDigit = true := by
  obtain ⟨rest, hrest⟩ := h
  unfold FirstCharacter
  rw [← hrest]
  show ('2' : Char).isDigit = true
  decide

/-- C19: for every unit whose name begins with "20", `ParseFormula` returns at
once: no token of the body is consumed, no error is reported, and the only
collaborator called is the watchdog (no tree is attached, the rotator is not
invoked); this is so although a timestamp such as "2014-02-09 23:16:55" has
characters that `IsValidFunctionName` rejects. -/
theorem ParseFormula_date (flag : Bool) (fuel : Nat) (unit : COHScriptObject)
    (p : ParseSession) (hdate : ['2', '0'] <+: unit.name.data) :
    (∃ p1, ParseFormula flag fuel unit p = some p1 ∧
      p1.parser.input = unit.tokens ∧
      p1.parser.errors = p.parser.errors ∧
      p1.parser.heap = p.parser.heap ∧
      p1.calls = p.calls ++ [CollaboratorCall.MarkThisInstanceAsAlive] ∧
      p1._is_parsing_counter = p._is_parsing_counter) ∧
    IsValidFunctionName "2014-02-09 23:16:55" = false := by
  refine ⟨⟨_, ParseFormula_digit flag fuel unit p (FirstCharacter_of_prefix_20 _ hdate),
    rfl, rfl, rfl, rfl, ?_⟩, by decide⟩
  show p._is_parsing_counter + 1 - 1 = p._is_parsing_counter
  omega

theorem ParseFormula_date_witness :
    (∃ p1, ParseFormula true 0
        (COHScriptObject.mk "2014-02-09 23:16:55" [⟨kTokenNumber, "1", none⟩]
          false false false (fun _ => true))
        (ParseSession.mk (CFormulaParser.init []) 0 "" []) = some p1 ∧
      p1.parser.input = [⟨kTokenNumber, "1", none⟩] ∧
      p1.parser.errors = [] ∧
      p1.parser.heap = [] ∧
      p1.calls = [] ++ [CollaboratorCall.MarkThisInstanceAsAlive] ∧
      p1._is_parsing_counter = 0) ∧
    IsValidFunctionName "2014-02-09 23:16:55" = false :=
  ParseFormula_date true 0
    (COHScriptObject.mk "2014-02-09 23:16:55" [⟨kTokenNumber, "1", none⟩]
      false false false (fun _ => true))
    (ParseSession.mk (CFormulaParser.init []) 0 "" []) (by decide)

/-- C18: `IsValidFunctionName` returns true if and only if every character of
the name is alphanumeric, an underscore or "$"; the empty name is valid.  For
every unit whose name does not start with a digit and is not valid,
`ParseFormula` reports exactly one error, "Malformed function-header",
consumes no token of the body, and calls no collaborator but the watchdog (no
tree is attached, the rotator is not invoked). -/
theorem ParseFormula_malformed_header :
    (∀ name : String, IsValidFunctionName name = true
      ↔ ∀ c ∈ name.data, c.isAlphanum = true ∨ c = '_' ∨ c = '$') ∧
    IsValidFunctionName "" = true ∧
    (∀ (flag : Bool) (fuel : Nat) (unit : COHScriptObject) (p : ParseSession),
      (FirstCharacter unit.name).isDigit = false →
      IsValidFunctionName unit.name = false →
      ∃ p1, ParseFormula flag fuel unit p = some p1 ∧
        p1.parser.errors = p.parser.errors ++ [ParseError.MalformedFunctionHeader] ∧
        p1.parser.input = unit.tokens ∧
        p1.parser.heap = p.parser.heap ∧
        p1.calls = p.calls ++ [CollaboratorCall.MarkThisInstanceAsAlive] ∧
        p1._is_parsing_counter = p._is_parsing_counter) := by
  refine ⟨fun name => IsValidFunctionName_loop_iff name.data, by decide,
    fun flag fuel unit p hdigit hvalid => ?_⟩
  refine ⟨_, ParseFormula_malformed flag fuel unit p hdigit hvalid, rfl, rfl, rfl, rfl, ?_⟩
  show p._is_parsing_counter + 1 - 1 = p._is_parsing_counter
  omega

theorem ParseFormula_malformed_header_witness :
    ∃ p1, ParseFormula true 0
        (COHScriptObject.mk "f$a-b" [⟨kTokenNumber, "1", none⟩]
          true false false (fun _ => true))
        (ParseSession.mk (CFormulaParser.init []) 0 "" []) = some p1 ∧
      p1.parser.errors = [] ++ [ParseError.MalformedFunctionHeader] ∧
      p1.parser.input = [⟨kTokenNumber, "1", none⟩] ∧
      p1.parser.heap = [] ∧
      p1.calls = [] ++ [CollaboratorCall.MarkThisInstanceAsAlive] ∧
      p1._is_parsing_counter = 0 :=
  ParseFormula_malformed_header.2.2 true 0
    (COHScriptObject.mk "f$a-b" [⟨kTokenNumber, "1", none⟩]
      true false false (fun _ => true))
    (ParseSession.mk (CFormulaParser.init []) 0 "" []) (by decide) (by decide)


/-- C17 as stated fails: a unit named with a date, which starts neither with
"f$" nor with "list" and is neither "notes" nor "dll", passes the naming
conventions in user context and gets no error from `ParseFormula`. -/
theorem ParseFormula_naming_counterexample :
    ¬ (['f', '$'] <+: "2014-02-09 23:16:55".data) ∧
    ¬ (['l', 'i', 's', 't'] <+: "2014-02-09 23:16:55".data) ∧
    "2014-02-09 23:16:55" ≠ "notes" ∧ "2014-02-09 23:16:55" ≠ "dll" ∧
    VerifyFunctionNamingConventions true "2014-02-09 23:16:55" (CFormulaParser.init [])
      = (true, CFormulaParser.init []) ∧
    (ParseFormula true 1
        (COHScriptObject.mk "2014-02-09 23:16:55" [] false false false (fun _ => true))
        (ParseSession.mk (CFormulaParser.init []) 0 "" [])).map (fun p => p.parser.errors)
      = some [] := by
  refine ⟨by decide, by decide, by decide, by decide, by decide, ?_⟩
  rw [ParseFormula_digit true 1 _ _ (by decide)]
  rfl

/-- C17, amended: in user context `VerifyFunctionNamingConventions` reports
exactly one error, the naming-convention one, and returns false for every name
that starts with none of "f$", "list" and "20" and is neither "notes" nor
"dll".  `ParseFormula` does not apply the naming conventions: a unit whose name
does not start with a digit and that is neither function, OpenPPL symbol nor
list, nor named dll or notes in any letter case, gets exactly one error from it
(malformed header if the name has a character that is not allowed, unknown
function type otherwise), and no tree is attached; a unit whose name starts
with a digit gets no error, and no tree is attached either. -/
theorem ParseFormula_naming :
    (∀ (name : String) (s : CFormulaParser),
      ¬ (['f', '$'] <+: name.data) → ¬ (['l', 'i', 's', 't'] <+: name.data) →
      name ≠ "notes" → name ≠ "dll" → ¬ (['2', '0'] <+: name.data) →
      (VerifyFunctionNamingConventions true name s).1 = false ∧
      (VerifyFunctionNamingConventions true name s).2.errors
        = s.errors ++ [ParseError.InvalidFunctionName]) ∧
    (∀ (flag : Bool) (fuel : Nat) (unit : COHScriptObject) (p : ParseSession),
      (FirstCharacter unit.name).isDigit = false →
      unit.IsFunction = false → unit.IsOpenPPLSymbol = false → unit.IsList = false →
      MakeLower unit.name ≠ "dll" → MakeLower unit.name ≠ "notes" →
      ∃ p1, ParseFormula flag fuel unit p = some p1 ∧
        p1.parser.errors = p.parser.errors ++
          [if IsValidFunctionName unit.name = false then ParseError.MalformedFunctionHeader
            else ParseError.UnknownFunctionType] ∧
        p1.calls = p.calls ++ [CollaboratorCall.MarkThisInstanceAsAlive]) ∧
    (∀ (flag : Bool) (fuel : Nat) (unit : COHScriptObject) (p : ParseSession),
      (FirstCharacter unit.name).isDigit = true →
      ∃ p1, ParseFormula flag fuel unit p = some p1 ∧
        p1.parser.errors = p.parser.errors ∧
        p1.calls = p.calls ++ [CollaboratorCall.MarkThisInstanceAsAlive]) := by
  refine ⟨?_, ?_, ?_⟩
  · intro name s h1 h2 h3 h4 h5
    have c1 : ¬ name.data.take 2 = ['f', '$'] := fun h => h1 ((take_eq_iff_starts _ _).mp h)
    have c2 : ¬ name.data.take 4 = ['l', 'i', 's', 't'] :=
      fun h => h2 ((take_eq_iff_starts _ _).mp h)
    have c5 : ¬ name.data.take 2 = ['2', '0'] := fun h => h5 ((take_eq_iff_starts _ _).mp h)
    unfold VerifyFunctionNamingConventions
    rw [if_pos rfl, if_neg c1, if_neg c2, if_neg h3, if_neg h4, if_neg c5]
    exact ⟨rfl, rfl⟩
  · intro flag fuel unit p hdigit hfunction hsymbol hlist hdll hnotes
    cases hvalid : IsValidFunctionName unit.name
    · refine ⟨_, ParseFormula_malformed flag fuel unit p hdigit hvalid, ?_, rfl⟩
      rw [if_pos rfl]
      rfl
    · refine ⟨_, ParseFormula_unknown flag fuel unit p hdigit hvalid hfunction hsymbol hlist
        hdll hnotes, ?_, rfl⟩
      rw [if_neg (by decide)]
      rfl
  · intro flag fuel unit p hdigit
    exact ⟨_, ParseFormula_digit flag fuel unit p hdigit, rfl, rfl⟩

theorem ParseFormula_naming_witness :
    ∃ p1, ParseFormula true 0
        (COHScriptObject.mk "prwin" [⟨kTokenNumber, "1", none⟩]
          false false false (fun _ => true))
        (ParseSession.mk (CFormulaParser.init []) 0 "" []) = some p1 ∧
      p1.parser.errors = [] ++
        [if IsValidFunctionName "prwin" = false then ParseError.MalformedFunctionHeader
          else ParseError.UnknownFunctionType] ∧
      p1.calls = [] ++ [CollaboratorCall.MarkThisInstanceAsAlive] :=
  ParseFormula_naming.2.1 true 0
    (COHScriptObject.mk "prwin" [⟨kTokenNumber, "1", none⟩]
      false false false (fun _ => true))
    (ParseSession.mk (CFormulaParser.init []) 0 "" [])
    (by decide) rfl rfl rfl (by decide) (by decide)



/-! ## After the end of a function -/

/-- C23: `CheckForExtraTokensAfterEndOfFunction` consumes exactly one token,
leaves the heap alone and reports at most one error: none if and only if the
token is end-of-file or end-of-function; the message about an OpenPPL-style
WHEN-condition after an OH-script expression if and only if the token is
"when"; the general message "Unexpected token(s) after end of function" if and
only if the token is any other one. -/
theorem CheckForExtraTokensAfterEndOfFunction_result (s : CFormulaParser) :
    (CheckForExtraTokensAfterEndOfFunction s).input = s.input.drop 1 ∧
    (CheckForExtraTokensAfterEndOfFunction s).heap = s.heap ∧
    ((CheckForExtraTokensAfterEndOfFunction s).errors = s.errors
      ↔ (LookAhead s = kTokenEndOfFile ∨ LookAhead s = kTokenEndOfFunction)) ∧
    ((CheckForExtraTokensAfterEndOfFunction s).errors
        = s.errors ++ [ParseError.UnexpectedWhenAfterEndOfFunction]
      ↔ LookAhead s = kTokenOperatorConditionalWhen) ∧
    ((CheckForExtraTokensAfterEndOfFunction s).errors
        = s.errors ++ [ParseError.UnexpectedTokensAfterEndOfFunction]
      ↔ (LookAhead s ≠ kTokenEndOfFile ∧ LookAhead s ≠ kTokenEndOfFunction
          ∧ LookAhead s ≠ kTokenOperatorConditionalWhen)) := by
  have hin := GetToken_input s
  have hheap := GetToken_heap s
  have herr := GetToken_errors s
  have hfst := GetToken_fst s
  unfold CheckForExtraTokensAfterEndOfFunction
  simp only
  rw [hfst]
  by_cases hw : LookAhead s = kTokenOperatorConditionalWhen
  · rw [if_pos hw]
    simp [Error, hin, hheap, herr, hw]
  · rw [if_neg hw]
    by_cases he : LookAhead s ≠ kTokenEndOfFile ∧ LookAhead s ≠ kTokenEndOfFunction
    · rw [if_pos he]
      simp [Error, hin, hheap, herr, hw, he.1, he.2]
    · rw [if_neg he]
      have he2 : LookAhead s = kTokenEndOfFile ∨ LookAhead s = kTokenEndOfFunction := by
        by_contra hcon
        exact he ⟨fun h => hcon (Or.inl h), fun h => hcon (Or.inr h)⟩
      refine ⟨hin, hheap, ⟨fun _ => he2, fun _ => herr⟩, ?_, ?_⟩
      · rw [herr]
        simp [hw]
      · rw [herr]
        constructor
        · intro h
          simp at h
        · intro h
          exact absurd ⟨h.1, h.2.1⟩ he

/-! ## The percentage operator after other actions -/

theorem ParseExpression_number_percentage_force (fuel : Nat) (s : CFormulaParser)
    (n p f : Token) (rest : List Token)
    (hinput : s.input = n :: p :: f :: rest)
    (hn : n.kind = kTokenNumber) (hp : p.kind = kTokenOperatorPercentage)
    (hf : f.kind = kTokenKeywordForce) :
    ParseExpression (fuel + 1) s
      = some (CParseTreeNode.Number n.text,
          CFormulaParser.mk (⟨kTokenOperatorPercentage, "%", none⟩ :: f :: rest) p.text
            s.errors s.heap) := by
  unfold ParseExpression
  simp [ParseExpression_operand, LookAhead, hinput, hn, TokenIsBracketOpen, TokenIsUnary,
    ParseSimpleExpression, GetToken, ParseExpression_continue, hp, TokenIsBinary, hf,
    PushBackAdditionalPercentageOperator]

/-- C29: on `Return n % Force` and on `RaiseTo n % Force`, with `n` a number,
`ParseOpenPPLAction` returns the action built from `n` alone and reports
exactly one error, "Missing keyword FORCE after action": the percentage
operator is consumed where Force was expected, and Force stays unconsumed. -/
theorem ParseOpenPPLAction_percentage_not_RaiseBy (fuel : Nat) (s : CFormulaParser)
    (a n p f : Token) (rest : List Token)
    (hinput : s.input = a :: n :: p :: f :: rest)
    (hn : n.kind = kTokenNumber) (hp : p.kind = kTokenOperatorPercentage)
    (hf : f.kind = kTokenKeywordForce) :
    (a.kind = kTokenActionReturn →
      ∃ s1, ParseOpenPPLAction (ParseExpression (fuel + 1)) s
          = some (CParseTreeNode.Number n.text, s1) ∧
        s1.errors = s.errors ++ [ParseError.MissingKeywordForce] ∧
        s1.input = f :: rest ∧ s1.heap = s.heap) ∧
    (a.kind = kTokenActionRaiseTo →
      ∃ s1, ParseOpenPPLAction (ParseExpression (fuel + 1)) s
          = some (CParseTreeNode.BetsizeAction BetsizeMode.RaiseTo
              (CParseTreeNode.Number n.text), s1) ∧
        s1.errors = s.errors ++ [ParseError.MissingKeywordForce] ∧
        s1.input = f :: rest ∧ s1.heap = s.heap) := by
  have hg : GetToken s = (a.kind, CFormulaParser.mk (n :: p :: f :: rest) a.text
      s.errors s.heap) := by
    simp [GetToken, hinput]
  have he := ParseExpression_number_percentage_force fuel
    (CFormulaParser.mk (n :: p :: f :: rest) a.text s.errors s.heap) n p f rest rfl hn hp hf
  constructor
  · intro ha
    refine ⟨CFormulaParser.mk (f :: rest) "%" (s.errors ++ [ParseError.MissingKeywordForce])
      s.heap, ?_, rfl, rfl, rfl⟩
    unfold ParseOpenPPLAction
    simp only [hg, ha, if_true, he]
    simp [ExpectKeywordForce, GetToken, Error]
  · intro ha
    refine ⟨CFormulaParser.mk (f :: rest) "%" (s.errors ++ [ParseError.MissingKeywordForce])
      s.heap, ?_, rfl, rfl, rfl⟩
    unfold ParseOpenPPLAction
    simp only [hg, ha]
    simp [ParseOpenPPLRaiseToExpression, LookAhead, hn, he, ExpectKeywordForce, GetToken, Error]

theorem ParseOpenPPLAction_percentage_not_RaiseBy_witness :
    ∃ s1, ParseOpenPPLAction (ParseExpression 1)
        (CFormulaParser.init [⟨kTokenActionRaiseTo, "RaiseTo", none⟩,
          ⟨kTokenNumber, "60", none⟩, ⟨kTokenOperatorPercentage, "%", none⟩,
          ⟨kTokenKeywordForce, "Force", none⟩])
        = some (CParseTreeNode.BetsizeAction BetsizeMode.RaiseTo
            (CParseTreeNode.Number "60"), s1) ∧
      s1.errors = [] ++ [ParseError.MissingKeywordForce] ∧
      s1.input = [⟨kTokenKeywordForce, "Force", none⟩] ∧ s1.heap = [] :=
  (ParseOpenPPLAction_percentage_not_RaiseBy 0
    (CFormulaParser.init [⟨kTokenActionRaiseTo, "RaiseTo", none⟩,
      ⟨kTokenNumber, "60", none⟩, ⟨kTokenOperatorPercentage, "%", none⟩,
      ⟨kTokenKeywordForce, "Force", none⟩])
    ⟨kTokenActionRaiseTo, "RaiseTo", none⟩ ⟨kTokenNumber, "60", none⟩
    ⟨kTokenOperatorPercentage, "%", none⟩ ⟨kTokenKeywordForce, "Force", none⟩ []
    rfl rfl rfl rfl).2 rfl


/-! ## Betsize actions without an expression -/

theorem heap_after_link (last : TPParseTreeNode) (was_open : Bool) (v : TPParseTreeNode)
    (heap1 : List CParseTreeOperatorNode) (i : Nat) (n : CParseTreeOperatorNode)
    (hi : heap1[i]? = some n) (hlast : last = TPParseTreeNode.when i → was_open = false) :
    ∃ n2 : CParseTreeOperatorNode,
      (if last ≠ TPParseTreeNode.null then
          if was_open = true then SetSecondSibbling last v heap1
          else SetThirdSibbling last v heap1
        else heap1)[i]? = some n2 ∧
      n2._second_sibbling = n._second_sibbling ∧ n2._first_sibbling = n._first_sibbling := by
  split
  · split
    · rename_i hopen
      cases last with
      | tree t => exact ⟨n, hi, rfl, rfl⟩
      | when a =>
        have hai : i ≠ a := by
          intro h
          subst h
          rw [hlast rfl] at hopen
          cases hopen
        exact ⟨n, by rw [SetSecondSibbling_get_ne a v heap1 i hai]; exact hi, rfl, rfl⟩
    · cases last with
      | tree t => exact ⟨n, hi, rfl, rfl⟩
      | when a =>
        by_cases hai : i = a
        · subst hai
          exact ⟨_, SetThirdSibbling_get_self i v heap1 n hi, rfl, rfl⟩
        · exact ⟨n, by rw [SetThirdSibbling_get_ne a v heap1 i hai]; exact hi, rfl, rfl⟩
  · exact ⟨n, hi, rfl, rfl⟩

/-- The loop of the chain builder returns, and it keeps the condition and the
second sibling of every node built before, except that it may set the second
sibling of the last node when that node is open-ended. -/
theorem ParseOpenEndedWhenConditionSequence_loop_second (fuel : Nat) :
    ∀ (last : TPParseTreeNode) (was_open : Bool) (first : TPParseTreeNode)
      (s : CFormulaParser) (i : Nat) (n : CParseTreeOperatorNode),
      s.input.length < fuel → s.heap[i]? = some n →
      (last = TPParseTreeNode.when i → was_open = false) →
      ∃ r s1,
        ParseOpenEndedWhenConditionSequence_loop fuel (LookAhead s) last was_open first s
          = some (r, s1) ∧
        ∃ n1 : CParseTreeOperatorNode, s1.heap[i]? = some n1 ∧
          n1._second_sibbling = n._second_sibbling ∧
          n1._first_sibbling = n._first_sibbling := by
  induction fuel with
  | zero => intro _ _ _ s _ _ hs; omega
  | succ fuel ih =>
    intro last was_open first s i n hs hi hlast
    unfold ParseOpenEndedWhenConditionSequence_loop
    by_cases hw : LookAhead s = kTokenOperatorConditionalWhen
    swap
    · rw [if_pos hw]
      exact ⟨first, s, rfl, n, hi, rfl, rfl⟩
    · rw [if_neg (by simpa using hw)]
      have hpos : 0 < s.input.length :=
        LookAhead_ne_EndOfFile_input s (by rw [hw]; decide)
      have hg := Advances_GetToken s
      have hglen := GetToken_input_length s
      obtain ⟨condition, s1, hcond, ha1, _⟩ :=
        ParseExpression_returns fuel (GetToken s).2 (by omega)
      simp only [hcond]
      have hheap1 : s1.heap = s.heap := (hg.trans ha1).1
      rw [hheap1]
      have hilt : i < s.heap.length := getElem?_lt _ i n hi
      have hi1 : (s.heap ++ [MakeWhenCondition condition])[i]? = some n := by
        rw [List.getElem?_append_left hilt]
        exact hi
      obtain ⟨n2, hn2, hsec2, hfst2⟩ := heap_after_link last was_open
        (TPParseTreeNode.when s.heap.length) _ i n hi1 hlast
      generalize
        (if last ≠ TPParseTreeNode.null then
          if was_open = true then
            SetSecondSibbling last (TPParseTreeNode.when s.heap.length)
              (s.heap ++ [MakeWhenCondition condition])
          else
            SetThirdSibbling last (TPParseTreeNode.when s.heap.length)
              (s.heap ++ [MakeWhenCondition condition])
        else s.heap ++ [MakeWhenCondition condition]) = heap2 at hn2 ⊢
      generalize (if first = TPParseTreeNode.null then
        TPParseTreeNode.when s.heap.length else first) = first1
      have hne : TPParseTreeNode.when s.heap.length ≠ TPParseTreeNode.when i := by
        intro h
        injection h with h
        omega
      obtain ⟨hla1, hla2, hla3, hla4⟩ := LookAheadAction_facts { s1 with heap := heap2 }
      generalize hla : LookAheadAction { s1 with heap := heap2 } = la at hla1 hla2 hla3 hla4 ⊢
      simp only at hla1 hla2 hla3
      have hs1len : s1.input.length ≤ s.input.length - 1 := by have := ha1.2.1; omega
      by_cases hact : TokenIsOpenPPLAction la.1 = true
      · rw [if_pos hact]
        obtain ⟨action, s2, hact2, ha2, _⟩ :=
          ParseOpenPPLAction_returns fuel la.2 (by omega)
        simp only [hact2]
        have hheap2s : s2.heap = heap2 := by rw [ha2.1, hla1]
        rw [hheap2s]
        have hs2len : s2.input.length ≤ la.2.input.length := ha2.2.1
        have hn3 : (SetSecondSibbling (TPParseTreeNode.when s.heap.length)
            (TPParseTreeNode.tree action) heap2)[i]? = some n2 := by
          rw [SetSecondSibbling_get_ne _ _ _ i (by omega)]
          exact hn2
        generalize SetSecondSibbling (TPParseTreeNode.when s.heap.length)
          (TPParseTreeNode.tree action) heap2 = heap3 at hn3 ⊢
        obtain ⟨r, s4, hloop, n4, hn4, hsec4, hfst4⟩ :=
          ih (TPParseTreeNode.when s.heap.length) false first1
            { s2 with heap := heap3 } i n2 (by show s2.input.length < fuel; omega) hn3
            (fun _ => rfl)
        exact ⟨r, s4, hloop, n4, hn4, hsec4.trans hsec2, hfst4.trans hfst2⟩
      · rw [if_neg hact]
        by_cases hw2 : la.1 = kTokenOperatorConditionalWhen
        · rw [if_pos hw2]
          obtain ⟨r, s4, hloop, n4, hn4, hsec4, hfst4⟩ :=
            ih (TPParseTreeNode.when s.heap.length) true first1 la.2 i n2 (by omega)
              (by rw [hla1]; exact hn2) (fun h => absurd h hne)
          rw [hla4]
          exact ⟨r, s4, hloop, n4, hn4, hsec4.trans hsec2, hfst4.trans hfst2⟩
        · rw [if_neg hw2]
          by_cases hend : la.1 = kTokenEndOfFile ∨ la.1 = kTokenEndOfFunction
          · rw [if_pos hend]
            exact ⟨_, la.2, rfl, n2, by rw [hla1]; exact hn2, hsec2, hfst2⟩
          · rw [if_neg hend]
            obtain ⟨e, he, _⟩ := ErrorMissingAction_result la.1 la.2
            refine ⟨_, _, rfl, n2, ?_, hsec2, hfst2⟩
            rw [he]
            show la.2.heap[i]? = some n2
            rw [hla1]
            exact hn2


theorem LookAhead_GetToken_congr (a b : CFormulaParser) (h : a.input = b.input) :
    LookAhead (GetToken a).2 = LookAhead (GetToken b).2 := by
  unfold LookAhead GetToken
  rw [h]
  cases b.input <;> rfl

/-- `ParseOpenPPLAction` on RaiseTo or RaiseBy followed by a token no betsize
expression starts with: the betsize parser reports its error and returns the
absent action, and the keyword Force is expected right after. -/
theorem ParseOpenPPLAction_betsize_missing (pe : CFormulaParser → ParseResult)
    (s : CFormulaParser)
    (hnumber : LookAhead (GetToken s).2 ≠ kTokenNumber)
    (hidentifier : LookAhead (GetToken s).2 ≠ kTokenIdentifier)
    (hbracket : TokenIsBracketOpen (LookAhead (GetToken s).2) = false) :
    (LookAhead s = kTokenActionRaiseTo →
      ParseOpenPPLAction pe s = some (CParseTreeNode.NULL,
        (ExpectKeywordForce kTokenActionRaiseTo
          (Error ParseError.MissingExpressionAfterRaiseTo (GetToken s).2)).2)) ∧
    (LookAhead s = kTokenActionRaiseBy →
      ParseOpenPPLAction pe s = some (CParseTreeNode.NULL,
        (ExpectKeywordForce kTokenActionRaiseBy
          (Error ParseError.MissingExpressionAfterRaiseBy (GetToken s).2)).2)) := by
  constructor
  · intro hk
    unfold ParseOpenPPLAction
    simp only [GetToken_fst, hk]
    simp [ParseOpenPPLRaiseToExpression, hnumber, hidentifier, hbracket]
  · intro hk
    unfold ParseOpenPPLAction
    simp only [GetToken_fst, hk]
    simp [ParseOpenPPLRaiseByExpression, hnumber, hidentifier, hbracket]

/-- C21: for RaiseTo and for RaiseBy, if the token after the action keyword is
not a number, an identifier or an opening bracket, the betsize parser reports
exactly one error, "Missing expression after keyword RaiseTo" respectively
"... RaiseBy", consumes no token and returns the absent action;
`ParseOpenPPLAction` then calls `ExpectKeywordForce` on the same token and
returns the absent action; the chain builder stores the absent action, so the
second sibling (then_link) of the when-condition is absent in the heap the
chain builder returns, and the back-patcher leaves second siblings alone. -/
theorem ParseOpenPPLAction_missing_expression :
    (∀ (pe : CFormulaParser → ParseResult) (s : CFormulaParser),
      LookAhead s ≠ kTokenNumber → LookAhead s ≠ kTokenIdentifier →
      TokenIsBracketOpen (LookAhead s) = false →
      ParseOpenPPLRaiseToExpression pe s
          = some (CParseTreeNode.NULL, Error ParseError.MissingExpressionAfterRaiseTo s) ∧
        ParseOpenPPLRaiseByExpression pe s
          = some (CParseTreeNode.NULL, Error ParseError.MissingExpressionAfterRaiseBy s) ∧
        (Error ParseError.MissingExpressionAfterRaiseTo s).input = s.input ∧
        (Error ParseError.MissingExpressionAfterRaiseBy s).input = s.input ∧
        (Error ParseError.MissingExpressionAfterRaiseTo s).errors
          = s.errors ++ [ParseError.MissingExpressionAfterRaiseTo] ∧
        (Error ParseError.MissingExpressionAfterRaiseBy s).errors
          = s.errors ++ [ParseError.MissingExpressionAfterRaiseBy]) ∧
    (∀ (pe : CFormulaParser → ParseResult) (s : CFormulaParser),
      LookAhead (GetToken s).2 ≠ kTokenNumber → LookAhead (GetToken s).2 ≠ kTokenIdentifier →
      TokenIsBracketOpen (LookAhead (GetToken s).2) = false →
      (LookAhead s = kTokenActionRaiseTo →
        ParseOpenPPLAction pe s = some (CParseTreeNode.NULL,
          (ExpectKeywordForce kTokenActionRaiseTo
            (Error ParseError.MissingExpressionAfterRaiseTo (GetToken s).2)).2)) ∧
      (LookAhead s = kTokenActionRaiseBy →
        ParseOpenPPLAction pe s = some (CParseTreeNode.NULL,
          (ExpectKeywordForce kTokenActionRaiseBy
            (Error ParseError.MissingExpressionAfterRaiseBy (GetToken s).2)).2))) ∧
    (∀ (fuel : Nat) (last : TPParseTreeNode) (was_open : Bool) (first : TPParseTreeNode)
        (s s1 : CFormulaParser) (condition : CParseTreeNode),
      s.input.length ≤ fuel →
      LookAhead s = kTokenOperatorConditionalWhen →
      ParseExpression fuel (GetToken s).2 = some (condition, s1) →
      ((LookAheadAction s1).1 = kTokenActionRaiseTo
        ∨ (LookAheadAction s1).1 = kTokenActionRaiseBy) →
      LookAhead (GetToken (LookAheadAction s1).2).2 ≠ kTokenNumber →
      LookAhead (GetToken (LookAheadAction s1).2).2 ≠ kTokenIdentifier →
      TokenIsBracketOpen (LookAhead (GetToken (LookAheadAction s1).2).2) = false →
      ∃ r s2,
        ParseOpenEndedWhenConditionSequence_loop (fuel + 1) (LookAhead s) last was_open first s
          = some (r, s2) ∧
        ∃ n : CParseTreeOperatorNode, s2.heap[s1.heap.length]? = some n ∧
          n._first_sibbling = condition ∧ n._second_sibbling = TPParseTreeNode.null) ∧
    (∀ (flag : Bool) (heap : List CParseTreeOperatorNode) (fuel : Nat),
      ChainShaped heap → heap ≠ [] → heap.length < fuel →
      ∃ heap1, BackPatchOpenEndedWhenConditionSequence flag fuel (TPParseTreeNode.when 0) heap
          = some heap1 ∧
        ∀ (i : Nat) (n : CParseTreeOperatorNode), heap[i]? = some n →
          ∃ n1 : CParseTreeOperatorNode, heap1[i]? = some n1 ∧
            n1._second_sibbling = n._second_sibbling) := by
  refine ⟨fun pe s h1 h2 h3 => ?_, fun pe s h1 h2 h3 =>
    ParseOpenPPLAction_betsize_missing pe s h1 h2 h3, ?_, ?_⟩
  · refine ⟨?_, ?_, rfl, rfl, rfl, rfl⟩
    · simp [ParseOpenPPLRaiseToExpression, h1, h2, h3]
    · simp [ParseOpenPPLRaiseByExpression, h1, h2, h3]
  · intro fuel last was_open first s s1 condition hs hw hcond hk h1 h2 h3
    have hpos : 0 < s.input.length :=
      LookAhead_ne_EndOfFile_input s (by rw [hw]; decide)
    have hglen := GetToken_input_length s
    obtain ⟨c1, t1, hc1, ha1, _⟩ := ParseExpression_returns fuel (GetToken s).2 (by omega)
    rw [hcond] at hc1
    injection hc1 with hc1
    injection hc1 with _ hc1
    subst hc1
    have hs1len : s1.input.length ≤ s.input.length - 1 := by have := ha1.2.1; omega
    unfold ParseOpenEndedWhenConditionSequence_loop
    rw [if_neg (by simpa using hw)]
    simp only [hcond]
    have hkeep2 : KeepsConditions (s1.heap ++ [MakeWhenCondition condition])
        (if last ≠ TPParseTreeNode.null then
          if was_open = true then
            SetSecondSibbling last (TPParseTreeNode.when s1.heap.length)
              (s1.heap ++ [MakeWhenCondition condition])
          else
            SetThirdSibbling last (TPParseTreeNode.when s1.heap.length)
              (s1.heap ++ [MakeWhenCondition condition])
        else s1.heap ++ [MakeWhenCondition condition]) := by
      split
      · split
        · exact KeepsConditions_SetSecondSibbling _ _ _
        · exact KeepsConditions_SetThirdSibbling _ _ _
      · exact KeepsConditions_refl _
    generalize
      (if last ≠ TPParseTreeNode.null then
        if was_open = true then
          SetSecondSibbling last (TPParseTreeNode.when s1.heap.length)
            (s1.heap ++ [MakeWhenCondition condition])
        else
          SetThirdSibbling last (TPParseTreeNode.when s1.heap.length)
            (s1.heap ++ [MakeWhenCondition condition])
      else s1.heap ++ [MakeWhenCondition condition]) = heap2 at hkeep2 ⊢
    obtain ⟨n2, hn2, hfst2⟩ := hkeep2 s1.heap.length _ (List.getElem?_concat_length s1.heap _)
    generalize (if first = TPParseTreeNode.null then
      TPParseTreeNode.when s1.heap.length else first) = first1
    obtain ⟨hl1, hl2, _, _⟩ := LookAheadAction_heap_irrelevant s1 heap2
    obtain ⟨hla1, _, hla3, hla4⟩ := LookAheadAction_facts { s1 with heap := heap2 }
    generalize LookAheadAction { s1 with heap := heap2 } = la at hl1 hl2 hla1 hla3 hla4 ⊢
    simp only at hla1 hla3
    have hcongr := LookAhead_GetToken_congr la.2 (LookAheadAction s1).2 hl2
    rw [← hcongr] at h1 h2 h3
    rw [← hl1, hla4] at hk
    obtain ⟨hto, hby⟩ := ParseOpenPPLAction_betsize_missing (ParseExpression fuel) la.2 h1 h2 h3
    have hact : TokenIsOpenPPLAction la.1 = true := by
      rw [hla4]
      rcases hk with hk | hk <;> rw [hk] <;> rfl
    rw [if_pos hact]
    have hfin : ∀ (k : TokenKind) (e : ParseError) (s3 : CFormulaParser),
        s3 = (ExpectKeywordForce k (Error e (GetToken la.2).2)).2 →
        ∀ heap3 : List CParseTreeOperatorNode,
        heap3 = SetSecondSibbling (TPParseTreeNode.when s1.heap.length)
          (TPParseTreeNode.tree CParseTreeNode.NULL) s3.heap →
        ∃ r s2,
          ParseOpenEndedWhenConditionSequence_loop fuel (LookAhead { s3 with heap := heap3 })
              (TPParseTreeNode.when s1.heap.length) false first1 { s3 with heap := heap3 }
            = some (r, s2) ∧
          ∃ n : CParseTreeOperatorNode, s2.heap[s1.heap.length]? = some n ∧
            n._first_sibbling = condition ∧ n._second_sibbling = TPParseTreeNode.null := by
      intro k e s3 hs3 heap3 hheap3
      have hadv : Advances la.2 s3 := by
        rw [hs3]
        exact ((Advances_GetToken la.2).trans (Advances_Error e _)).trans
          (Advances_ExpectKeywordForce k _)
      have hheap : s3.heap = heap2 := by rw [hadv.1, hla1]
      rw [hheap] at hheap3
      have hn3 := SetSecondSibbling_get_self s1.heap.length
        (TPParseTreeNode.tree CParseTreeNode.NULL) heap2 n2 hn2
      rw [← hheap3] at hn3
      have hlen3 := hadv.2.1
      obtain ⟨r, s4, hloop, n4, hn4, hsec4, hfst4⟩ :=
        ParseOpenEndedWhenConditionSequence_loop_second fuel
          (TPParseTreeNode.when s1.heap.length) false first1 { s3 with heap := heap3 }
          s1.heap.length _ (by show s3.input.length < fuel; omega) hn3 (fun _ => rfl)
      exact ⟨r, s4, hloop, n4, hn4, hfst4.trans hfst2, hsec4⟩
    rcases hk with hk | hk
    · simp only [hto hk]
      exact hfin _ _ _ rfl _ rfl
    · simp only [hby hk]
      exact hfin _ _ _ rfl _ rfl
  · intro flag heap fuel hshape hne hfuel
    obtain ⟨heap1, hbp, _, hall⟩ :=
      BackPatchOpenEndedWhenConditionSequence_spec flag heap hshape hne fuel hfuel
    exact ⟨heap1, hbp, fun i n hi => ⟨_, hall i n hi, rfl⟩⟩


theorem ParseOpenPPLAction_missing_expression_witness :
    ∃ r s2,
      ParseOpenEndedWhenConditionSequence_loop (6 + 1)
          (LookAhead (CFormulaParser.init [⟨kTokenOperatorConditionalWhen, "when", none⟩,
            ⟨kTokenIdentifier, "x", none⟩, ⟨kTokenActionRaiseTo, "RaiseTo", none⟩,
            ⟨kTokenOperatorUnary 0, "-", none⟩, ⟨kTokenNumber, "5", none⟩,
            ⟨kTokenKeywordForce, "Force", none⟩]))
          TPParseTreeNode.null false TPParseTreeNode.null
          (CFormulaParser.init [⟨kTokenOperatorConditionalWhen, "when", none⟩,
            ⟨kTokenIdentifier, "x", none⟩, ⟨kTokenActionRaiseTo, "RaiseTo", none⟩,
            ⟨kTokenOperatorUnary 0, "-", none⟩, ⟨kTokenNumber, "5", none⟩,
            ⟨kTokenKeywordForce, "Force", none⟩])
        = some (r, s2) ∧
      ∃ n : CParseTreeOperatorNode,
        s2.heap[(CFormulaParser.mk [⟨kTokenActionRaiseTo, "RaiseTo", none⟩,
            ⟨kTokenOperatorUnary 0, "-", none⟩, ⟨kTokenNumber, "5", none⟩,
            ⟨kTokenKeywordForce, "Force", none⟩] "x" [] []).heap.length]? = some n ∧
        n._first_sibbling = CParseTreeNode.Identifier "x" ∧
        n._second_sibbling = TPParseTreeNode.null :=
  ParseOpenPPLAction_missing_expression.2.2.1 6 TPParseTreeNode.null false
    TPParseTreeNode.null
    (CFormulaParser.init [⟨kTokenOperatorConditionalWhen, "when", none⟩,
      ⟨kTokenIdentifier, "x", none⟩, ⟨kTokenActionRaiseTo, "RaiseTo", none⟩,
      ⟨kTokenOperatorUnary 0, "-", none⟩, ⟨kTokenNumber, "5", none⟩,
      ⟨kTokenKeywordForce, "Force", none⟩])
    (CFormulaParser.mk [⟨kTokenActionRaiseTo, "RaiseTo", none⟩,
      ⟨kTokenOperatorUnary 0, "-", none⟩, ⟨kTokenNumber, "5", none⟩,
      ⟨kTokenKeywordForce, "Force", none⟩] "x" [] [])
    (CParseTreeNode.Identifier "x")
    (by decide) (by decide) (by decide) (Or.inl (by decide)) (by decide) (by decide)
    (by decide)


/-! ## The shape of expressions -/

theorem LookAhead_EndsExpression (s : CFormulaParser) (h : EndsExpression s.input) :
    TokenIsBinary (LookAhead s) = false ∧ LookAhead s ≠ kTokenOperatorConditionalIf := by
  unfold LookAhead
  cases hs : s.input with
  | nil => exact ⟨rfl, by decide⟩
  | cons t rest => exact h t rest hs

theorem ParseExpression_operand_simple (pe : CFormulaParser → ParseResult)
    (s : CFormulaParser) (x : Token) (rest : List Token)
    (hin : s.input = x :: rest) (hx : IsSimpleOperand x) :
    ParseExpression_operand pe s
      = some (some (TerminalNode x), CFormulaParser.mk rest x.text s.errors s.heap) := by
  rcases hx with h | h <;>
    simp [ParseExpression_operand, LookAhead, hin, h, TokenIsBracketOpen, TokenIsUnary,
      ParseSimpleExpression, GetToken, TerminalNode]

/-- A simple operand after which no expression goes on is parsed to its
terminal node. -/
theorem ParseExpression_simple_end (fuel : Nat) (s : CFormulaParser) (x : Token)
    (rest : List Token) (hin : s.input = x :: rest) (hx : IsSimpleOperand x)
    (hrest : EndsExpression rest) :
    ParseExpression (fuel + 1) s
      = some (TerminalNode x, CFormulaParser.mk rest x.text s.errors s.heap) := by
  unfold ParseExpression
  rw [ParseExpression_operand_simple _ s x rest hin hx]
  simp only
  obtain ⟨h1, h2⟩ := LookAhead_EndsExpression
    (CFormulaParser.mk rest x.text s.errors s.heap) hrest
  unfold ParseExpression_continue
  simp only [h1, h2]
  simp

/-- A simple operand followed by a binary operator and an operand: one binary
node over the terminal node and whatever is parsed after the operator. -/
theorem ParseExpression_simple_binary (fuel : Nat) (s s2 : CFormulaParser) (x b y : Token)
    (rest : List Token) (e2 : CParseTreeNode)
    (hin : s.input = x :: b :: y :: rest) (hx : IsSimpleOperand x)
    (hb : TokenIsBinary b.kind = true) (hy : IsSimpleOperand y)
    (hsecond : ParseExpression fuel (CFormulaParser.mk (y :: rest) b.text s.errors s.heap)
      = some (e2, s2)) :
    ParseExpression (fuel + 1) s
      = some (CParseTreeNode.BinaryOperator b.kind (TerminalNode x) e2, s2) := by
  unfold ParseExpression
  rw [ParseExpression_operand_simple _ s x (b :: y :: rest) hin hx]
  simp only
  have hforce : y.kind ≠ kTokenKeywordForce := by
    rcases hy with h | h <;> rw [h] <;> decide
  unfold ParseExpression_continue
  simp [LookAhead, hb, GetToken, hforce, hsecond]


theorem OperandSequence_head (first : Token) (more : List (Token × Token)) :
    ∃ tail, OperandSequence first more = first :: tail := by
  cases more with
  | nil => exact ⟨[], rfl⟩
  | cons p more => exact ⟨p.1 :: OperandSequence p.2 more, rfl⟩

/-- C26: for every sequence of n+1 simple operands (identifiers or numbers)
separated by n binary operators, after which no expression goes on,
`ParseExpression` returns the fully right-nested tree
`Binary(op1, t1, Binary(op2, t2, ... Binary(opn, tn, tn+1)))`, whichever binary
operators are used; it consumes exactly the sequence and reports no error. -/
theorem ParseExpression_right_nested (more : List (Token × Token)) (first : Token)
    (rest : List Token) (s : CFormulaParser) (fuel : Nat)
    (hfirst : IsSimpleOperand first)
    (hmore : ∀ p ∈ more, TokenIsBinary p.1.kind = true ∧ IsSimpleOperand p.2)
    (hrest : EndsExpression rest)
    (hin : s.input = OperandSequence first more ++ rest)
    (hfuel : more.length < fuel) :
    ∃ s1, ParseExpression fuel s = some (RightNested first more, s1) ∧
      s1.input = rest ∧ s1.errors = s.errors ∧ s1.heap = s.heap := by
  induction more generalizing first s fuel with
  | nil =>
    obtain ⟨f, rfl⟩ : ∃ f, fuel = f + 1 := ⟨fuel - 1, by simp at hfuel; omega⟩
    exact ⟨_, ParseExpression_simple_end f s first rest hin hfirst hrest, rfl, rfl, rfl⟩
  | cons p more ih =>
    obtain ⟨f, rfl⟩ : ∃ f, fuel = f + 1 := ⟨fuel - 1, by simp at hfuel; omega⟩
    obtain ⟨hp1, hp2⟩ := hmore p (List.mem_cons_self _ _)
    obtain ⟨tail, htail⟩ := OperandSequence_head p.2 more
    obtain ⟨s1, hs1, h1, h2, h3⟩ := ih p.2
      (CFormulaParser.mk (OperandSequence p.2 more ++ rest) p.1.text s.errors s.heap) f hp2
      (fun q hq => hmore q (List.mem_cons_of_mem _ hq)) rfl
      (by simp at hfuel; omega)
    refine ⟨s1, ?_, h1, h2, h3⟩
    have hin2 : s.input = first :: p.1 :: p.2 :: (tail ++ rest) := by
      rw [hin]
      show first :: p.1 :: (OperandSequence p.2 more ++ rest) = _
      rw [htail]
      rfl
    have hs1b : ParseExpression f
        (CFormulaParser.mk (p.2 :: (tail ++ rest)) p.1.text s.errors s.heap)
        = some (RightNested p.2 more, s1) := by
      rw [← hs1, htail]
      rfl
    exact ParseExpression_simple_binary f s s1 first p.1 p.2 (tail ++ rest) _ hin2 hfirst hp1
      hp2 hs1b

theorem ParseExpression_right_nested_witness :
    ∃ s1, ParseExpression 3
        (CFormulaParser.init [⟨kTokenNumber, "1", none⟩, ⟨kTokenOperatorBinary 0, "*", none⟩,
          ⟨kTokenNumber, "2", none⟩, ⟨kTokenOperatorBinary 1, "+", none⟩,
          ⟨kTokenIdentifier, "x", none⟩])
        = some (RightNested ⟨kTokenNumber, "1", none⟩
            [(⟨kTokenOperatorBinary 0, "*", none⟩, ⟨kTokenNumber, "2", none⟩),
              (⟨kTokenOperatorBinary 1, "+", none⟩, ⟨kTokenIdentifier, "x", none⟩)], s1) ∧
      s1.input = [] ∧ s1.errors = [] ∧ s1.heap = [] :=
  ParseExpression_right_nested
    [(⟨kTokenOperatorBinary 0, "*", none⟩, ⟨kTokenNumber, "2", none⟩),
      (⟨kTokenOperatorBinary 1, "+", none⟩, ⟨kTokenIdentifier, "x", none⟩)]
    ⟨kTokenNumber, "1", none⟩ []
    (CFormulaParser.init [⟨kTokenNumber, "1", none⟩, ⟨kTokenOperatorBinary 0, "*", none⟩,
      ⟨kTokenNumber, "2", none⟩, ⟨kTokenOperatorBinary 1, "+", none⟩,
      ⟨kTokenIdentifier, "x", none⟩])
    3 (Or.inr rfl) (by simp [IsSimpleOperand, TokenIsBinary]) (fun _ _ h => by cases h) rfl
    (by decide)

/-- C27: a unary operator takes the whole remaining expression as its
operand: on `u x b y`, with `u` a unary operator, `b` a binary operator and
`x`, `y` simple operands, `ParseExpression` returns `Unary(u, Binary(b, x, y))`;
a bracket expression wraps the bracketed part only: on `( x ) b y` it returns
`Binary(b, Unary(bracket, x), y)`.  In both cases the whole sequence is
consumed and no error is reported. -/
theorem ParseExpression_unary_and_bracket (fuel : Nat) (s : CFormulaParser) (x b y : Token)
    (rest : List Token) (hx : IsSimpleOperand x) (hb : TokenIsBinary b.kind = true)
    (hy : IsSimpleOperand y) (hrest : EndsExpression rest) :
    (∀ u : Token, TokenIsUnary u.kind = true → TokenIsBracketOpen u.kind = false →
      s.input = u :: x :: b :: y :: rest →
      ∃ s1, ParseExpression (fuel + 3) s
          = some (CParseTreeNode.UnaryOperator u.kind
              (CParseTreeNode.BinaryOperator b.kind (TerminalNode x) (TerminalNode y)), s1) ∧
        s1.input = rest ∧ s1.errors = s.errors ∧ s1.heap = s.heap) ∧
    (∀ o c : Token,
      ((o.kind = kTokenBracketOpen_1 ∧ c.kind = kTokenBracketClose_1)
        ∨ (o.kind = kTokenBracketOpen_2 ∧ c.kind = kTokenBracketClose_2)
        ∨ (o.kind = kTokenBracketOpen_3 ∧ c.kind = kTokenBracketClose_3)) →
      s.input = o :: x :: c :: b :: y :: rest →
      ∃ s1, ParseExpression (fuel + 2) s
          = some (CParseTreeNode.BinaryOperator b.kind
              (CParseTreeNode.UnaryOperator o.kind (TerminalNode x)) (TerminalNode y), s1) ∧
        s1.input = rest ∧ s1.errors = s.errors ∧ s1.heap = s.heap) := by
  have hyend := fun (text : String) =>
    ParseExpression_simple_end fuel (CFormulaParser.mk (y :: rest) text s.errors s.heap)
      y rest rfl hy hrest
  constructor
  · intro u hu hnb hin
    have hinner := ParseExpression_simple_binary (fuel + 1)
      (CFormulaParser.mk (x :: b :: y :: rest) u.text s.errors s.heap) _ x b y rest _ rfl hx hb hy
      (ParseExpression_simple_end fuel _ y rest rfl hy hrest)
    obtain ⟨h1, h2⟩ := LookAhead_EndsExpression
      (CFormulaParser.mk rest y.text s.errors s.heap) hrest
    refine ⟨CFormulaParser.mk rest y.text s.errors s.heap, ?_, rfl, rfl, rfl⟩
    conv => lhs; unfold ParseExpression
    have hop : ParseExpression_operand (ParseExpression (fuel + 2)) s
        = some (some (CParseTreeNode.UnaryOperator u.kind
            (CParseTreeNode.BinaryOperator b.kind (TerminalNode x) (TerminalNode y))),
          CFormulaParser.mk rest y.text s.errors s.heap) := by
      unfold ParseExpression_operand
      simp only [LookAhead, hin, hnb, hu]
      simp only [ParseUnaryExpression, GetToken, hin]
      rw [hinner]
      simp
    rw [hop]
    simp only
    unfold ParseExpression_continue
    simp only [h1, h2]
    simp
  · intro o c hoc hin
    have hcend : EndsExpression (c :: b :: y :: rest) := by
      intro t rest1 ht
      injection ht with ht _
      subst ht
      rcases hoc with h | h | h <;> rw [h.2] <;> exact ⟨rfl, by decide⟩
    have hinner := ParseExpression_simple_end fuel
      (CFormulaParser.mk (x :: c :: b :: y :: rest) o.text s.errors s.heap) x
      (c :: b :: y :: rest) rfl hx hcend
    have hobr : TokenIsBracketOpen o.kind = true := by
      rcases hoc with h | h | h <;> rw [h.1] <;> rfl
    have hforce : y.kind ≠ kTokenKeywordForce := by
      rcases hy with h | h <;> rw [h] <;> decide
    refine ⟨CFormulaParser.mk rest y.text s.errors s.heap, ?_, rfl, rfl, rfl⟩
    conv => lhs; unfold ParseExpression
    have hop : ParseExpression_operand (ParseExpression (fuel + 1)) s
        = some (some (CParseTreeNode.UnaryOperator o.kind (TerminalNode x)),
          CFormulaParser.mk (b :: y :: rest) c.text s.errors s.heap) := by
      unfold ParseExpression_operand
      simp only [LookAhead, hin, hobr]
      simp only [ParseBracketExpression, GetToken, hin]
      rw [hinner]
      rcases hoc with h | h | h <;>
        simp [ExpectMatchingBracketClose, GetToken, h.1, h.2]
    rw [hop]
    simp only
    unfold ParseExpression_continue
    simp [LookAhead, hb, GetToken, hforce, hyend]

theorem ParseExpression_unary_and_bracket_witness :
    ∃ s1, ParseExpression (0 + 3)
        (CFormulaParser.init [⟨kTokenOperatorUnary 0, "-", none⟩, ⟨kTokenIdentifier, "x", none⟩,
          ⟨kTokenOperatorBinary 1, "+", none⟩, ⟨kTokenNumber, "2", none⟩])
        = some (CParseTreeNode.UnaryOperator (kTokenOperatorUnary 0)
            (CParseTreeNode.BinaryOperator (kTokenOperatorBinary 1)
              (TerminalNode ⟨kTokenIdentifier, "x", none⟩)
              (TerminalNode ⟨kTokenNumber, "2", none⟩)), s1) ∧
      s1.input = [] ∧ s1.errors = [] ∧ s1.heap = [] :=
  (ParseExpression_unary_and_bracket 0
    (CFormulaParser.init [⟨kTokenOperatorUnary 0, "-", none⟩, ⟨kTokenIdentifier, "x", none⟩,
      ⟨kTokenOperatorBinary 1, "+", none⟩, ⟨kTokenNumber, "2", none⟩])
    ⟨kTokenIdentifier, "x", none⟩ ⟨kTokenOperatorBinary 1, "+", none⟩
    ⟨kTokenNumber, "2", none⟩ [] (Or.inl rfl) rfl (Or.inr rfl)
    (fun _ _ h => by cases h)).1 ⟨kTokenOperatorUnary 0, "-", none⟩ rfl rfl rfl


/-! ## Absent expressions -/

theorem ParseExpression_operand_start (pe : CFormulaParser → ParseResult) (s s1 : CFormulaParser)
    (hstart : StartsExpression (LookAhead s)) :
    ParseExpression_operand pe s ≠ some (none, s1) := by
  unfold ParseExpression_operand
  simp only
  by_cases h1 : TokenIsBracketOpen (LookAhead s) = true
  · rw [if_pos h1]
    cases ParseBracketExpression pe s with
    | none => simp
    | some r => simp
  · rw [if_neg h1]
    by_cases h2 : TokenIsUnary (LookAhead s) = true
    · rw [if_pos h2]
      cases ParseUnaryExpression pe s with
      | none => simp
      | some r => simp
    · rw [if_neg h2]
      have h3 : LookAhead s = kTokenIdentifier ∨ LookAhead s = kTokenNumber := by
        rcases hstart with h | h | h | h
        · exact absurd h h1
        · exact absurd h h2
        · exact Or.inl h
        · exact Or.inr h
      rw [if_pos h3]
      simp

/-- C30: `ParseExpression` returns the absent tree only when its first
lookahead token does not start an expression: with enough fuel it returns, and
its result is absent if and only if the first token is neither an opening
bracket, a unary operator, an identifier nor a number; a sub-expression that
fails leaves an absent operand inside a node that is not absent.  On `1 +`
followed by the end of the input it reports exactly one error and returns the
binary node whose second operand is absent. -/
theorem ParseExpression_absent_iff :
    (∀ (fuel : Nat) (s : CFormulaParser), s.input.length < fuel →
      ∃ e s1, ParseExpression fuel s = some (e, s1) ∧
        (e = CParseTreeNode.NULL ↔ ¬ StartsExpression (LookAhead s))) ∧
    ParseExpression 2 (CFormulaParser.init [⟨kTokenNumber, "1", none⟩,
        ⟨kTokenOperatorBinary 0, "+", none⟩])
      = some (CParseTreeNode.BinaryOperator (kTokenOperatorBinary 0)
          (CParseTreeNode.Number "1") CParseTreeNode.NULL,
        CFormulaParser.mk [] "+" [ParseError.UnexpectedTokenInsideExpression] []) := by
  refine ⟨fun fuel s hs => ?_, by decide⟩
  obtain ⟨f, rfl⟩ : ∃ f, fuel = f + 1 := ⟨fuel - 1, by omega⟩
  have hpe : ∀ t : CFormulaParser, t.input.length < f →
      ∃ e t1, ParseExpression f t = some (e, t1) ∧ Advances t t1 := by
    intro t ht
    obtain ⟨e, t1, h, ha, _⟩ := ParseExpression_returns f t ht
    exact ⟨e, t1, h, ha⟩
  by_cases hstart : StartsExpression (LookAhead s)
  · rcases ParseExpression_operand_returns f (ParseExpression f) hpe s hs with
      ⟨s1, h1, _, _⟩ | ⟨e, s1, h1, ha1, hne, hlt⟩
    · exact absurd h1 (ParseExpression_operand_start _ s s1 hstart)
    · obtain ⟨e2, s2, h2, _, hne2⟩ :=
        ParseExpression_continue_returns f (ParseExpression f) hpe e s1 (by omega)
      refine ⟨e2, s2, ?_, fun h => absurd h (hne2 hne), fun h => absurd hstart h⟩
      conv => lhs; unfold ParseExpression
      rw [h1]
      exact h2
  · have h1 : TokenIsBracketOpen (LookAhead s) = false := by
      cases h : TokenIsBracketOpen (LookAhead s)
      · rfl
      · exact absurd (Or.inl h) hstart
    have h2 : TokenIsUnary (LookAhead s) = false := by
      cases h : TokenIsUnary (LookAhead s)
      · rfl
      · exact absurd (Or.inr (Or.inl h)) hstart
    have h3 : LookAhead s ≠ kTokenIdentifier := fun h => hstart (Or.inr (Or.inr (Or.inl h)))
    have h4 : LookAhead s ≠ kTokenNumber := fun h => hstart (Or.inr (Or.inr (Or.inr h)))
    refine ⟨CParseTreeNode.NULL, Error ParseError.UnexpectedTokenInsideExpression s, ?_,
      fun _ => hstart, fun _ => rfl⟩
    unfold ParseExpression ParseExpression_operand
    simp [h1, h2, h3, h4]

theorem ParseExpression_absent_iff_witness :
    ∃ e s1, ParseExpression 3 (CFormulaParser.init [⟨kTokenBracketOpen_1, "(", none⟩,
        ⟨kTokenBracketClose_1, ")", none⟩]) = some (e, s1) ∧
      (e = CParseTreeNode.NULL ↔ ¬ StartsExpression (LookAhead (CFormulaParser.init
        [⟨kTokenBracketOpen_1, "(", none⟩, ⟨kTokenBracketClose_1, ")", none⟩]))) :=
  ParseExpression_absent_iff.1 3 (CFormulaParser.init [⟨kTokenBracketOpen_1, "(", none⟩,
    ⟨kTokenBracketClose_1, ")", none⟩]) (by decide)


/-! ## The ring of game states -/

theorem AdvanceStateIndex_index {SHoldemState : Type} (g : CGameState SHoldemState) :
    (AdvanceStateIndex g).state_index = (g.state_index + 1) % 256 := by
  have h := Nat.and_pow_two_sub_one_eq_mod (g.state_index + 1) 8
  simpa [AdvanceStateIndex, kMaxIndex] using h

theorem CaptureStates_index {SHoldemState : Type}
    (captures : List (SHoldemState → SHoldemState)) :
    ∀ g : CGameState SHoldemState, g.state_index < 256 →
      (CaptureStates captures g).state_index = (g.state_index + captures.length) % 256 := by
  induction captures with
  | nil =>
    intro g hg
    show g.state_index = (g.state_index + 0) % 256
    omega
  | cons c more ih =>
    intro g hg
    have h1 : (CaptureState c g).state_index = (g.state_index + 1) % 256 :=
      AdvanceStateIndex_index g
    have h2 := ih (CaptureState c g) (by rw [h1]; omega)
    show (CaptureStates more (CaptureState c g)).state_index = _
    rw [h2, h1]
    simp only [List.length_cons]
    omega

/-- C25: the ring index of the game states always lies in 0..255: it is 255
after construction; `AdvanceStateIndex` maps every index i to (i + 1) mod 256,
which lies in 0..255; after any number of `CaptureState` calls the index is at
most 255; and the k-th `CaptureState` call after construction (the one after
k - 1 earlier calls) fills slot (k - 1) mod 256 and leaves the index there, the
first call filling slot 0. -/
theorem CaptureState_slot {SHoldemState : Type} (state : List SHoldemState) :
    (CGameState.CGameState state).state_index = 255 ∧
    (∀ g : CGameState SHoldemState,
      (AdvanceStateIndex g).state_index = (g.state_index + 1) % 256 ∧
      (AdvanceStateIndex g).state_index ≤ 255 ∧
      (AdvanceStateIndex g).state = g.state) ∧
    (∀ captures : List (SHoldemState → SHoldemState),
      (CaptureStates captures (CGameState.CGameState state)).state_index ≤ 255) ∧
    (∀ (earlier : List (SHoldemState → SHoldemState)) (Capture : SHoldemState → SHoldemState),
      (CaptureStates (earlier ++ [Capture]) (CGameState.CGameState state)).state_index
        = (earlier.length + 1 - 1) % 256 ∧
      (CaptureStates (earlier ++ [Capture]) (CGameState.CGameState state)).state
        = (CaptureStates earlier (CGameState.CGameState state)).state.modify Capture
            ((earlier.length + 1 - 1) % 256)) ∧
    (∀ Capture : SHoldemState → SHoldemState,
      (CaptureState Capture (CGameState.CGameState state)).state
        = state.modify Capture 0) := by
  have hctor : (CGameState.CGameState state).state_index = 255 := rfl
  have hidx := fun captures : List (SHoldemState → SHoldemState) =>
    CaptureStates_index captures (CGameState.CGameState state) (by rw [hctor]; omega)
  refine ⟨hctor, fun g => ⟨AdvanceStateIndex_index g, ?_, rfl⟩, fun captures => ?_,
    fun earlier Capture => ?_, fun Capture => ?_⟩
  · rw [AdvanceStateIndex_index]
    omega
  · rw [hidx captures]
    omega
  · have happ : CaptureStates (earlier ++ [Capture]) (CGameState.CGameState state)
        = CaptureState Capture (CaptureStates earlier (CGameState.CGameState state)) := by
      simp [CaptureStates, List.foldl_append]
    have hadv := AdvanceStateIndex_index (CaptureStates earlier (CGameState.CGameState state))
    rw [hidx earlier, hctor] at hadv
    have hslot : (AdvanceStateIndex
        (CaptureStates earlier (CGameState.CGameState state))).state_index
        = (earlier.length + 1 - 1) % 256 := by
      rw [hadv]
      omega
    rw [happ]
    constructor
    · exact hslot
    · show List.modify Capture _ _ = _
      rw [hslot]
      rfl
  · have hadv := AdvanceStateIndex_index (CGameState.CGameState state)
    rw [hctor] at hadv
    show List.modify Capture (AdvanceStateIndex (CGameState.CGameState state)).state_index _ = _
    rw [hadv]
    rfl


/-! ## Termination -/

/-- The loop of `ParseListBody` returns when its fuel exceeds the number of
tokens that were left when the token at hand was read. -/
theorem ParseListBody_loop_returns (Set : String → Bool) (fuel : Nat) :
    ∀ (received : List String) (s0 : CFormulaParser), s0.input.length < fuel →
      ∃ r s1, ParseListBody_loop Set fuel (GetToken s0).1 received (GetToken s0).2
          = some (r, s1) ∧
        s1.input.length ≤ s0.input.length ∧ s1.heap = s0.heap ∧
        s0.errors.length ≤ s1.errors.length ∧
        r.length ≤ received.length + s0.input.length := by
  induction fuel with
  | zero => intro _ s0 hs; omega
  | succ fuel ih =>
    intro received s0 hs
    have hlen := GetToken_input_length s0
    have hheap := GetToken_heap s0
    have herr : (GetToken s0).2.errors.length = s0.errors.length := by
      rw [GetToken_errors]
    conv => enter [1, r, 1, s1, 1, 1]; unfold ParseListBody_loop
    by_cases h1 : (GetToken s0).1 = kTokenEndOfFunction
    · rw [if_pos h1]
      exact ⟨_, _, rfl, by omega, hheap, by omega, by omega⟩
    · rw [if_neg h1]
      by_cases h2 : (GetToken s0).1 = kTokenIdentifier ∨ (GetToken s0).1 = kTokenNumber
          ∨ (GetToken s0).1 = kTokenCards
      · rw [if_pos h2]
        have hpos : 0 < s0.input.length := by
          apply LookAhead_ne_EndOfFile_input
          rw [← GetToken_fst]
          rcases h2 with h | h | h <;> rw [h] <;> decide
        simp only
        by_cases h3 : Set (GetToken s0).2.token_string = false
        · rw [if_pos h3]
          exact ⟨_, _, rfl, by omega, hheap, by omega, by simp; omega⟩
        · rw [if_neg h3]
          obtain ⟨r, s1, hr, hl1, hh1, he1, hrl⟩ :=
            ih (received ++ [(GetToken s0).2.token_string]) (GetToken s0).2 (by omega)
          refine ⟨r, s1, hr, by omega, by rw [hh1, hheap], by omega, ?_⟩
          simp at hrl
          omega
      · rw [if_neg h2]
        refine ⟨_, _, rfl, ?_, ?_, ?_, by omega⟩
        · show (GetToken s0).2.input.length ≤ _
          omega
        · exact hheap
        · rw [Error_errors_length]
          omega

/-- `ParseFunctionBody` returns when no when-condition node has been allocated
yet and its fuel exceeds the number of tokens left. -/
theorem ParseFunctionBody_returns (flag : Bool) (s : CFormulaParser) (fuel : Nat)
    (hheap : s.heap = []) (hfuel : s.input.length < fuel) :
    ∃ body s1, ParseFunctionBody flag fuel s = some (body, s1) ∧
      s1.input.length ≤ s.input.length ∧ s.errors.length ≤ s1.errors.length := by
  unfold ParseFunctionBody
  simp only
  by_cases h1 : LookAhead s = kTokenEndOfFile ∨ LookAhead s = kTokenEndOfFunction
  · rw [if_pos h1]
    exact ⟨_, _, rfl, le_refl _, le_refl _⟩
  · rw [if_neg h1]
    by_cases hw : LookAhead s = kTokenOperatorConditionalWhen
    · rw [if_pos hw]
      have hshape0 : ChainShaped s.heap := by
        intro i n hi
        simp [hheap] at hi
      obtain ⟨first, s1, hloop, hshape, hfirst, _, hsum, hne, hlen, herr, _⟩ :=
        ParseOpenEndedWhenConditionSequence_loop_returns s.errors.length fuel
          TPParseTreeNode.null false TPParseTreeNode.null s hfuel hshape0
          (Or.inl ⟨hheap, rfl, rfl⟩) (le_refl _)
          (fun _ => ⟨fun i n hi _ => by simp [hheap] at hi,
            fun _ n hn => by simp [hheap] at hn⟩)
      have hne1 := hne hw
      have hf : first = TPParseTreeNode.when 0 := by
        rcases hfirst with ⟨h, _⟩ | ⟨_, h⟩
        · exact absurd h hne1
        · exact h
      subst hf
      have hsize : s1.heap.length < fuel := by
        rw [hheap] at hsum
        simp at hsum
        omega
      obtain ⟨heap1, hbp, _, _⟩ :=
        BackPatchOpenEndedWhenConditionSequence_spec flag s1.heap hshape hne1 fuel hsize
      have hseq : ParseOpenEndedWhenConditionSequence fuel s
          = some (TPParseTreeNode.when 0, s1) := hloop
      simp only [hseq, hbp]
      exact ⟨_, _, rfl, hlen, herr⟩
    · rw [if_neg hw]
      obtain ⟨e, s1, he, ha, _⟩ := ParseExpression_returns fuel s hfuel
      simp only [he]
      exact ⟨_, _, rfl, ha.2.1, ha.2.2⟩

/-- C28: the parsers terminate on every finite token stream (followed by
end-of-file tokens): `ParseExpression`, `ParseOpenEndedWhenConditionSequence`
and `ParseListBody` return within a recursion depth, respectively a number of
iterations, bounded by the number of tokens left, since each recursive call
and each iteration comes after the consumption of a token, and none of them
leaves more tokens than it found; on the chain the chain builder returns, the
back-patcher returns within as many iterations as the chain has nodes; so
`ParseFunctionBody` returns for every token stream. -/
theorem parsing_terminates :
    (∀ (fuel : Nat) (s : CFormulaParser), s.input.length < fuel →
      ∃ e s1, ParseExpression fuel s = some (e, s1) ∧ s1.input.length ≤ s.input.length) ∧
    (∀ (fuel : Nat) (s : CFormulaParser), s.input.length < fuel →
      ∃ first s1, ParseOpenEndedWhenConditionSequence fuel s = some (first, s1) ∧
        (LookAhead s = kTokenOperatorConditionalWhen →
          first = TPParseTreeNode.when s.heap.length)) ∧
    (∀ (Set : String → Bool) (fuel : Nat) (s : CFormulaParser), s.input.length < fuel →
      ∃ received s1, ParseListBody Set fuel s = some (received, s1) ∧
        s1.input.length ≤ s.input.length ∧ received.length ≤ s.input.length) ∧
    (∀ (flag : Bool) (tokens : List Token) (fuel : Nat), tokens.length < fuel →
      LookAhead (CFormulaParser.init tokens) = kTokenOperatorConditionalWhen →
      ∃ s1 heap1,
        ParseOpenEndedWhenConditionSequence fuel (CFormulaParser.init tokens)
          = some (TPParseTreeNode.when 0, s1) ∧
        s1.heap.length ≤ tokens.length ∧
        BackPatchOpenEndedWhenConditionSequence flag (s1.heap.length + 1)
          (TPParseTreeNode.when 0) s1.heap = some heap1) ∧
    (∀ (flag : Bool) (tokens : List Token) (fuel : Nat), tokens.length < fuel →
      ∃ body s1, ParseFunctionBody flag fuel (CFormulaParser.init tokens) = some (body, s1)) := by
  refine ⟨fun fuel s hs => ?_, fun fuel s hs => ?_, fun Set fuel s hs => ?_,
    fun flag tokens fuel hfuel hw => ?_, fun flag tokens fuel hfuel => ?_⟩
  · obtain ⟨e, s1, he, ha, _⟩ := ParseExpression_returns fuel s hs
    exact ⟨e, s1, he, ha.2.1⟩
  · obtain ⟨r, s1, hloop, _, _, hfirst⟩ :=
      ParseOpenEndedWhenConditionSequence_loop_first fuel TPParseTreeNode.null false
        TPParseTreeNode.null s hs
    refine ⟨r, s1, hloop, fun hw => ?_⟩
    obtain ⟨_, _, _, hr, _⟩ := hfirst rfl hw
    exact hr
  · obtain ⟨r, s1, hr, hl, _, _, hrl⟩ := ParseListBody_loop_returns Set fuel [] s hs
    exact ⟨r, s1, hr, hl, by simpa using hrl⟩
  · obtain ⟨first, s1, h1, hshape, hfirst, hne, hsize, _⟩ :=
      ParseOpenEndedWhenConditionSequence_returns tokens fuel hfuel
    have hne1 := hne hw
    have hf : first = TPParseTreeNode.when 0 := by
      rcases hfirst with ⟨h, _⟩ | ⟨_, h⟩
      · exact absurd h hne1
      · exact h
    subst hf
    obtain ⟨heap1, hbp, _, _⟩ :=
      BackPatchOpenEndedWhenConditionSequence_spec flag s1.heap hshape hne1
        (s1.heap.length + 1) (by omega)
    exact ⟨s1, heap1, h1, hsize, hbp⟩
  · obtain ⟨body, s1, h, _, _⟩ :=
      ParseFunctionBody_returns flag (CFormulaParser.init tokens) fuel rfl hfuel
    exact ⟨body, s1, h⟩

theorem parsing_terminates_witness :
    ∃ body s1, ParseFunctionBody true 4 (CFormulaParser.init
        [⟨kTokenOperatorConditionalWhen, "when", none⟩, ⟨kTokenIdentifier, "x", none⟩,
          ⟨kTokenOperatorConditionalWhen, "when", none⟩]) = some (body, s1) :=
  parsing_terminates.2.2.2.2 true
    [⟨kTokenOperatorConditionalWhen, "when", none⟩, ⟨kTokenIdentifier, "x", none⟩,
      ⟨kTokenOperatorConditionalWhen, "when", none⟩] 4 (by decide)


/-! ## Attaching the tree -/

/-- A function or OpenPPL symbol with a well-formed name: `ParseFormula`
parses the body, checks for extra tokens, attaches the tree and rotates. -/
theorem ParseFormula_function (flag : Bool) (fuel : Nat) (unit : COHScriptObject)
    (p : ParseSession) (body : TPParseTreeNode) (s4 : CFormulaParser)
    (hdigit : (FirstCharacter unit.name).isDigit = false)
    (hvalid : IsValidFunctionName unit.name = true)
    (hfunction : (unit.IsFunction || unit.IsOpenPPLSymbol) = true)
    (hbody : ParseFunctionBody flag fuel (SetInputFunction unit p.parser) = some (body, s4)) :
    ParseFormula flag fuel unit p
      = some (ParseSession.mk (CheckForExtraTokensAfterEndOfFunction s4)
          (p._is_parsing_counter + 1 - 1) unit.name
          (p.calls ++ [CollaboratorCall.MarkThisInstanceAsAlive] ++
            [CollaboratorCall.SetParseTree unit.name body, CollaboratorCall.Rotate unit.name])) := by
  unfold ParseFormula
  simp [hdigit, hvalid, hfunction, hbody, EnterParserCode, LeaveParserCode, ParseFormula_attach]

/-- A list with a well-formed name: `ParseFormula` parses the list body and
returns. -/
theorem ParseFormula_list (flag : Bool) (fuel : Nat) (unit : COHScriptObject)
    (p : ParseSession) (received : List String) (s4 : CFormulaParser)
    (hdigit : (FirstCharacter unit.name).isDigit = false)
    (hvalid : IsValidFunctionName unit.name = true)
    (hfunction : unit.IsFunction = false) (hsymbol : unit.IsOpenPPLSymbol = false)
    (hlist : unit.IsList = true)
    (hbody : ParseListBody unit.Set fuel (SetInputFunction unit p.parser)
      = some (received, s4)) :
    ParseFormula flag fuel unit p
      = some (ParseSession.mk s4 (p._is_parsing_counter + 1 - 1) unit.name
          (p.calls ++ [CollaboratorCall.MarkThisInstanceAsAlive] ++
            received.map CollaboratorCall.Set)) := by
  unfold ParseFormula
  simp [hdigit, hvalid, hfunction, hsymbol, hlist, hbody, EnterParserCode, LeaveParserCode]

/-- Whatever `ParseFormula` returns, the reentrancy counter is what it was on
entry. -/
theorem ParseFormula_counter (flag : Bool) (fuel : Nat) (unit : COHScriptObject)
    (p p1 : ParseSession) (h : ParseFormula flag fuel unit p = some p1) :
    p1._is_parsing_counter = p._is_parsing_counter := by
  unfold ParseFormula at h
  simp only at h
  split_ifs at h
  all_goals first
    | (injection h with h
       subst h
       simp [LeaveParserCode, EnterParserCode, ParseFormula_attach])
    | (split at h
       · cases h
       · injection h with h
         subst h
         simp [LeaveParserCode, EnterParserCode, ParseFormula_attach])

/-- With enough fuel, and no when-condition node allocated yet, `ParseFormula`
returns. -/
theorem ParseFormula_returns (flag : Bool) (fuel : Nat) (unit : COHScriptObject)
    (p : ParseSession) (hheap : p.parser.heap = []) (hfuel : unit.tokens.length < fuel) :
    ∃ p1, ParseFormula flag fuel unit p = some p1 := by
  cases hdigit : (FirstCharacter unit.name).isDigit
  swap
  · exact ⟨_, ParseFormula_digit flag fuel unit p hdigit⟩
  cases hvalid : IsValidFunctionName unit.name
  · exact ⟨_, ParseFormula_malformed flag fuel unit p hdigit hvalid⟩
  cases hfunction : (unit.IsFunction || unit.IsOpenPPLSymbol)
  swap
  · obtain ⟨body, s4, hbody, _⟩ := ParseFunctionBody_returns flag
      (SetInputFunction unit p.parser) fuel hheap hfuel
    exact ⟨_, ParseFormula_function flag fuel unit p body s4 hdigit hvalid hfunction hbody⟩
  have hf : unit.IsFunction = false := by
    cases h : unit.IsFunction
    · rfl
    · rw [h] at hfunction
      cases hfunction
  have hs : unit.IsOpenPPLSymbol = false := by
    cases h : unit.IsOpenPPLSymbol
    · rfl
    · rw [h, Bool.or_true] at hfunction
      cases hfunction
  cases hlist : unit.IsList
  swap
  · obtain ⟨received, s4, hbody, _⟩ := ParseListBody_loop_returns unit.Set fuel []
      (SetInputFunction unit p.parser) hfuel
    exact ⟨_, ParseFormula_list flag fuel unit p received s4 hdigit hvalid hf hs hlist hbody⟩
  unfold ParseFormula
  simp only [hdigit, hvalid, hf, hs, hlist]
  simp only [Bool.or_false, Bool.false_eq_true, if_false, if_true]
  split_ifs <;> exact ⟨_, rfl⟩


/-- C22: for every function or OpenPPL-symbol unit whose name is well-formed
and does not start with a digit, `ParseFormula` attaches whatever tree
`ParseFunctionBody` returns, with exactly one `SetParseTree` call, and then
invokes the rotator exactly once, whether or not errors were reported while the
body was parsed; with enough fuel the body parser does return.  For a list
unit it calls, besides the watchdog, only the setter of the list: neither
`SetParseTree` nor the rotator. -/
theorem ParseFormula_attaches_tree (flag : Bool) (fuel : Nat) (unit : COHScriptObject)
    (p : ParseSession) (hdigit : (FirstCharacter unit.name).isDigit = false)
    (hvalid : IsValidFunctionName unit.name = true) :
    ((unit.IsFunction = true ∨ unit.IsOpenPPLSymbol = true) →
      (∀ (body : TPParseTreeNode) (s4 : CFormulaParser),
        ParseFunctionBody flag fuel (SetInputFunction unit p.parser) = some (body, s4) →
        ∃ p1, ParseFormula flag fuel unit p = some p1 ∧
          p1.calls = p.calls ++ [CollaboratorCall.MarkThisInstanceAsAlive,
            CollaboratorCall.SetParseTree unit.name body, CollaboratorCall.Rotate unit.name] ∧
          p1.parser = CheckForExtraTokensAfterEndOfFunction s4) ∧
      (p.parser.heap = [] → unit.tokens.length < fuel →
        ∃ body s4,
          ParseFunctionBody flag fuel (SetInputFunction unit p.parser) = some (body, s4))) ∧
    (unit.IsFunction = false → unit.IsOpenPPLSymbol = false → unit.IsList = true →
      unit.tokens.length < fuel →
      ∃ received s4 p1,
        ParseListBody unit.Set fuel (SetInputFunction unit p.parser) = some (received, s4) ∧
        ParseFormula flag fuel unit p = some p1 ∧
        p1.calls = p.calls ++
          CollaboratorCall.MarkThisInstanceAsAlive :: received.map CollaboratorCall.Set ∧
        ∀ call ∈ CollaboratorCall.MarkThisInstanceAsAlive :: received.map CollaboratorCall.Set,
          (∀ name body, call ≠ CollaboratorCall.SetParseTree name body) ∧
          (∀ name, call ≠ CollaboratorCall.Rotate name)) := by
  constructor
  · intro hfunction
    have hor : (unit.IsFunction || unit.IsOpenPPLSymbol) = true := by
      rcases hfunction with h | h <;> simp [h]
    constructor
    · intro body s4 hbody
      refine ⟨_, ParseFormula_function flag fuel unit p body s4 hdigit hvalid hor hbody, ?_, rfl⟩
      simp
    · intro hheap hfuel
      obtain ⟨body, s4, hbody, _⟩ := ParseFunctionBody_returns flag
        (SetInputFunction unit p.parser) fuel hheap hfuel
      exact ⟨body, s4, hbody⟩
  · intro hf hs hlist hfuel
    obtain ⟨received, s4, hbody, _⟩ := ParseListBody_loop_returns unit.Set fuel []
      (SetInputFunction unit p.parser) hfuel
    refine ⟨received, s4, _, hbody,
      ParseFormula_list flag fuel unit p received s4 hdigit hvalid hf hs hlist hbody, ?_, ?_⟩
    · simp
    · intro call hcall
      simp only [List.mem_cons, List.mem_map] at hcall
      rcases hcall with h | ⟨t, _, h⟩
      · subst h
        exact ⟨fun _ _ h => (by cases h), fun _ h => (by cases h)⟩
      · subst h
        exact ⟨fun _ _ h => (by cases h), fun _ h => (by cases h)⟩

theorem ParseFormula_attaches_tree_witness :
    ∃ p1, ParseFormula true 3
        (COHScriptObject.mk "f$x" [⟨kTokenNumber, "1", none⟩,
          ⟨kTokenOperatorBinary 0, "+", none⟩] true false false (fun _ => true))
        (ParseSession.mk (CFormulaParser.init []) 0 "" []) = some p1 ∧
      p1.calls = [] ++ [CollaboratorCall.MarkThisInstanceAsAlive,
        CollaboratorCall.SetParseTree "f$x" (TPParseTreeNode.tree
          (CParseTreeNode.BinaryOperator (kTokenOperatorBinary 0)
            (CParseTreeNode.Number "1") CParseTreeNode.NULL)),
        CollaboratorCall.Rotate "f$x"] ∧
      p1.parser = CheckForExtraTokensAfterEndOfFunction
        (CFormulaParser.mk [] "+" [ParseError.UnexpectedTokenInsideExpression] []) :=
  ((ParseFormula_attaches_tree true 3
    (COHScriptObject.mk "f$x" [⟨kTokenNumber, "1", none⟩,
      ⟨kTokenOperatorBinary 0, "+", none⟩] true false false (fun _ => true))
    (ParseSession.mk (CFormulaParser.init []) 0 "" []) (by decide) (by decide)).1
      (Or.inl rfl)).1
    (TPParseTreeNode.tree (CParseTreeNode.BinaryOperator (kTokenOperatorBinary 0)
      (CParseTreeNode.Number "1") CParseTreeNode.NULL))
    (CFormulaParser.mk [] "+" [ParseError.UnexpectedTokenInsideExpression] []) (by decide)

/-! ## The reentrancy counter -/

theorem LoadFunctionsFromLibrary_counter {World : Type} (c : Collaborators World)
    (hc : KeepsCounter c) (library_path : String) (w : World × CFormulaParserObject) :
    (LoadFunctionsFromLibrary c library_path w).2.session._is_parsing_counter
      = w.2.session._is_parsing_counter := by
  unfold LoadFunctionsFromLibrary
  split_ifs
  · rfl
  · simp only [CFormulaParserObject.LeaveParserCode, LeaveParserCode, LoadFunctionsFromArchive]
    rw [hc.1]
    simp [CFormulaParserObject.EnterParserCode, EnterParserCode]

theorem LoadFunctionsFromLibrary_foldl_counter {World : Type} (c : Collaborators World)
    (hc : KeepsCounter c) (paths : List String) :
    ∀ w : World × CFormulaParserObject,
      (paths.foldl (fun w0 library_path => LoadFunctionsFromLibrary c library_path w0)
        w).2.session._is_parsing_counter = w.2.session._is_parsing_counter := by
  induction paths with
  | nil => intro w; rfl
  | cons path more ih =>
    intro w
    rw [List.foldl_cons, ih, LoadFunctionsFromLibrary_counter c hc]

theorem ParseDebugTab_loop_counter {World : Type} (c : Collaborators World) (fuel : Nat)
    (lines : List String) :
    ∀ w w1 : World × CFormulaParserObject, ParseDebugTab_loop c fuel lines w = some w1 →
      w1.2.session._is_parsing_counter = w.2.session._is_parsing_counter := by
  induction lines with
  | nil =>
    intro w w1 h
    injection h with h
    rw [h]
  | cons line more ih =>
    intro w w1 h
    unfold ParseDebugTab_loop at h
    split at h
    · exact ih w w1 h
    · simp only at h
      split at h
      · cases h
      · rw [ih _ w1 h]
        rfl

theorem ParseDebugTab_loop_returns {World : Type} (c : Collaborators World) (fuel : Nat)
    (lines : List String)
    (hfuel : ∀ line ∈ lines, ∀ expression_text, DebugTabExpressionText line = some expression_text →
      (c.SetInputBufferByDebugTab expression_text).length < fuel) :
    ∀ w : World × CFormulaParserObject, ∃ w1, ParseDebugTab_loop c fuel lines w = some w1 := by
  induction lines with
  | nil => intro w; exact ⟨w, rfl⟩
  | cons line more ih =>
    intro w
    have ih1 := ih (fun l hl => hfuel l (List.mem_cons_of_mem _ hl))
    unfold ParseDebugTab_loop
    cases htext : DebugTabExpressionText line with
    | none => exact ih1 w
    | some expression_text =>
      simp only
      obtain ⟨e, s2, he, _⟩ := ParseExpression_returns fuel
        (SetInputBuffer (c.SetInputBufferByDebugTab expression_text) w.2)
        (hfuel line (List.mem_cons_self _ _) expression_text htext)
      rw [he]
      exact ih1 _


theorem SingleUnitCollaborators_KeepsCounter (fuel : Nat) (unit : COHScriptObject) :
    KeepsCounter (SingleUnitCollaborators fuel unit) := by
  refine ⟨fun _ _ => rfl, fun w => ?_, fun _ => rfl⟩
  show (match ParseFormula true fuel unit w.2.session with
    | some p1 => (w.1, { w.2 with session := p1 })
    | none => w).2.session._is_parsing_counter = _
  cases h : ParseFormula true fuel unit w.2.session with
  | none => rfl
  | some p1 => exact ParseFormula_counter true fuel unit _ p1 h

/-- C24: the reentrancy counter is balanced on every control path.
`EnterParserCode` adds one and `LeaveParserCode` takes one away; the counter
starts at 0.  `ParseFormula` returns with the counter it was entered with on
every path (date names, malformed headers, functions, lists, dll, notes,
unknown types), and with enough fuel it does return.  `LoadFunctionsFromLibrary`
(whether or not the file is found), `ParseDefaultLibraries`,
`ParseFormulaFileWithUserDefinedBotLogic` and `ParseDebugTab` return with the
counter they were entered with, as long as the collaborators they call return
with the counter they were entered with.  A counter that is not negative on
entry is not negative after `EnterParserCode` nor after the `LeaveParserCode`
that follows it. -/
theorem parsing_counter_balanced :
    (∀ p : ParseSession,
      (EnterParserCode p)._is_parsing_counter = p._is_parsing_counter + 1 ∧
      (LeaveParserCode p)._is_parsing_counter = p._is_parsing_counter - 1 ∧
      (0 ≤ p._is_parsing_counter → 0 ≤ (EnterParserCode p)._is_parsing_counter ∧
        0 ≤ (LeaveParserCode (EnterParserCode p))._is_parsing_counter)) ∧
    CFormulaParserObject.CFormulaParser.session._is_parsing_counter = 0 ∧
    (∀ (flag : Bool) (fuel : Nat) (unit : COHScriptObject) (p p1 : ParseSession),
      ParseFormula flag fuel unit p = some p1 →
      p1._is_parsing_counter = p._is_parsing_counter) ∧
    (∀ (flag : Bool) (fuel : Nat) (unit : COHScriptObject) (p : ParseSession),
      p.parser.heap = [] → unit.tokens.length < fuel →
      ∃ p1, ParseFormula flag fuel unit p = some p1 ∧
        p1._is_parsing_counter = p._is_parsing_counter) ∧
    (∀ (World : Type) (c : Collaborators World), KeepsCounter c →
      ∀ w : World × CFormulaParserObject,
        (∀ library_path : String,
          (LoadFunctionsFromLibrary c library_path w).2.session._is_parsing_counter
            = w.2.session._is_parsing_counter) ∧
        (ParseDefaultLibraries c w).2.session._is_parsing_counter
          = w.2.session._is_parsing_counter ∧
        (∀ formula_file : String,
          (ParseFormulaFileWithUserDefinedBotLogic c formula_file
            w).2.session._is_parsing_counter = w.2.session._is_parsing_counter) ∧
        (∀ (fuel : Nat) (function_text : String) (w1 : World × CFormulaParserObject),
          ParseDebugTab c fuel function_text w = some w1 →
          w1.2.session._is_parsing_counter = w.2.session._is_parsing_counter) ∧
        (∀ (fuel : Nat) (function_text : String),
          (∀ line ∈ function_text.splitOn "\n", ∀ expression_text,
            DebugTabExpressionText line = some expression_text →
            (c.SetInputBufferByDebugTab expression_text).length < fuel) →
          ∃ w1, ParseDebugTab c fuel function_text w = some w1)) := by
  refine ⟨fun p => ⟨rfl, rfl, fun h => ?_⟩, rfl, ParseFormula_counter,
    fun flag fuel unit p hheap hfuel => ?_, fun World c hc w => ⟨?_, ?_, ?_, ?_, ?_⟩⟩
  · simp only [EnterParserCode, LeaveParserCode]
    omega
  · obtain ⟨p1, h⟩ := ParseFormula_returns flag fuel unit p hheap hfuel
    exact ⟨p1, h, ParseFormula_counter flag fuel unit p p1 h⟩
  · exact fun library_path => LoadFunctionsFromLibrary_counter c hc library_path w
  · unfold ParseDefaultLibraries
    simp only [CFormulaParserObject.LeaveParserCode, LeaveParserCode]
    rw [hc.2.1, LoadFunctionsFromLibrary_counter c hc]
    simp only
    rw [LoadFunctionsFromLibrary_foldl_counter c hc]
    simp [CFormulaParserObject.EnterParserCode, EnterParserCode]
  · intro formula_file
    unfold ParseFormulaFileWithUserDefinedBotLogic
    simp only
    rw [hc.2.2]
    simp only [CFormulaParserObject.LeaveParserCode, LeaveParserCode, LoadFunctionsFromArchive]
    rw [hc.2.1, hc.1]
    simp [CFormulaParserObject.EnterParserCode, EnterParserCode]
  · intro fuel function_text w1 h
    unfold ParseDebugTab at h
    simp only at h
    split at h
    · cases h
    · rename_i w3 hloop
      injection h with h
      subst h
      simp only [CFormulaParserObject.LeaveParserCode, LeaveParserCode]
      rw [ParseDebugTab_loop_counter c fuel _ _ w3 hloop]
      simp [CFormulaParserObject.EnterParserCode, EnterParserCode]
  · intro fuel function_text hfuel
    unfold ParseDebugTab
    simp only
    obtain ⟨w3, h3⟩ := ParseDebugTab_loop_returns c fuel _ hfuel
      (c.DebugTabClear w.1, { w.2.EnterParserCode with _is_parsing_debug_tab := true })
    rw [h3]
    exact ⟨_, rfl⟩

theorem parsing_counter_balanced_witness :
    (ParseDefaultLibraries
        (SingleUnitCollaborators 3 (COHScriptObject.mk "f$x" [⟨kTokenNumber, "1", none⟩]
          true false false (fun _ => true)))
        ((), CFormulaParserObject.CFormulaParser)).2.session._is_parsing_counter
      = ((), CFormulaParserObject.CFormulaParser).2.session._is_parsing_counter :=
  (parsing_counter_balanced.2.2.2.2 Unit
    (SingleUnitCollaborators 3 (COHScriptObject.mk "f$x" [⟨kTokenNumber, "1", none⟩]
      true false false (fun _ => true)))
    (SingleUnitCollaborators_KeepsCounter 3 _)
    ((), CFormulaParserObject.CFormulaParser)).2.1


/-! ## Names that start with a digit -/

/-- C31: `ParseFormula` ignores every unit whose name starts with a decimal
digit, not only the names that start with "20": it returns at once, reports no
error, consumes no token of the body, allocates no node, and calls no
collaborator but the watchdog (no tree is attached, the rotator is not
invoked), with the reentrancy counter it was entered with.  The guard comes
before the call of `IsValidFunctionName`, so the outcome is the same for a
name that `IsValidFunctionName` rejects: "9lives" and "9 lives" both start
with a digit and not with "20", the second one is rejected by
`IsValidFunctionName`, and neither gets an error. -/
theorem ParseFormula_digit_name :
    (∀ (flag : Bool) (fuel : Nat) (unit : COHScriptObject) (p : ParseSession),
      (FirstCharacter unit.name).isDigit = true →
      ∃ p1, ParseFormula flag fuel unit p = some p1 ∧
        p1.parser.errors = p.parser.errors ∧
        p1.parser.input = unit.tokens ∧
        p1.parser.heap = p.parser.heap ∧
        p1.calls = p.calls ++ [CollaboratorCall.MarkThisInstanceAsAlive] ∧
        p1._is_parsing_counter = p._is_parsing_counter) ∧
    (FirstCharacter "9lives").isDigit = true ∧ ¬ (['2', '0'] <+: "9lives".data) ∧
    (FirstCharacter "9 lives").isDigit = true ∧ IsValidFunctionName "9 lives" = false ∧
    (∀ (flag : Bool) (fuel : Nat) (tokens : List Token) (p : ParseSession),
      ParseFormula flag fuel
          (COHScriptObject.mk "9 lives" tokens true false false (fun _ => true)) p
        = ParseFormula flag fuel
          (COHScriptObject.mk "9 lives" tokens false false false (fun _ => true)) p ∧
      (ParseFormula flag fuel
          (COHScriptObject.mk "9 lives" tokens true false false (fun _ => true)) p).map
        (fun p1 => p1.parser.errors) = some p.parser.errors) := by
  refine ⟨fun flag fuel unit p hdigit => ?_, by decide, by decide, by decide, by decide,
    fun flag fuel tokens p => ?_⟩
  · refine ⟨_, ParseFormula_digit flag fuel unit p hdigit, rfl, rfl, rfl, rfl, ?_⟩
    show p._is_parsing_counter + 1 - 1 = p._is_parsing_counter
    omega
  · have h9 : (FirstCharacter "9 lives").isDigit = true := by decide
    rw [ParseFormula_digit flag fuel _ p h9, ParseFormula_digit flag fuel _ p h9]
    exact ⟨rfl, rfl⟩

theorem ParseFormula_digit_name_witness :
    ∃ p1, ParseFormula true 0
        (COHScriptObject.mk "9lives" [⟨kTokenNumber, "1", none⟩,
          ⟨kTokenOperatorBinary 0, "+", none⟩] true false false (fun _ => true))
        (ParseSession.mk (CFormulaParser.init []) 0 "" []) = some p1 ∧
      p1.parser.errors = [] ∧
      p1.parser.input = [⟨kTokenNumber, "1", none⟩, ⟨kTokenOperatorBinary 0, "+", none⟩] ∧
      p1.parser.heap = [] ∧
      p1.calls = [] ++ [CollaboratorCall.MarkThisInstanceAsAlive] ∧
      p1._is_parsing_counter = 0 :=
  ParseFormula_digit_name.1 true 0
    (COHScriptObject.mk "9lives" [⟨kTokenNumber, "1", none⟩,
      ⟨kTokenOperatorBinary 0, "+", none⟩] true false false (fun _ => true))
    (ParseSession.mk (CFormulaParser.init []) 0 "" []) (by decide)


/-! ## Ternary conditions -/

/-- The operand before "?" and the expression after it are parsed and the
separator ":" does not follow: one error, and the ternary node over the two
with an absent else-branch; the token found in place of ":" is consumed. -/
theorem ParseExpression_ternary_missing_else (fuel : Nat) (s s1 s2 : CFormulaParser)
    (cond then_expression : CParseTreeNode)
    (hoperand : ParseExpression_operand (ParseExpression fuel) s = some (some cond, s1))
    (hif : LookAhead s1 = kTokenOperatorConditionalIf)
    (hthen : ParseExpression fuel (GetToken s1).2 = some (then_expression, s2))
    (hne : LookAhead s2 ≠ kTokenOperatorConditionalElse) :
    ParseExpression (fuel + 1) s
      = some (CParseTreeNode.TernaryOperator kTokenOperatorConditionalIf cond
          then_expression CParseTreeNode.NULL,
        Error ParseError.MalformedConditionalExpression (GetToken s2).2) := by
  simp [ParseExpression, hoperand, ParseExpression_continue, hif, TokenIsBinary,
    ParseConditionalPartialThenElseExpressions, hthen, ExpectConditionalThen,
    GetToken_fst, hne]

/-- The operand before "?", the expression after it, the separator ":" and
the expression after the separator are parsed: the ternary node over the
three. -/
theorem ParseExpression_ternary_with_else (fuel : Nat) (s s1 s2 s3 : CFormulaParser)
    (cond then_expression else_expression : CParseTreeNode)
    (hoperand : ParseExpression_operand (ParseExpression fuel) s = some (some cond, s1))
    (hif : LookAhead s1 = kTokenOperatorConditionalIf)
    (hthen : ParseExpression fuel (GetToken s1).2 = some (then_expression, s2))
    (he : LookAhead s2 = kTokenOperatorConditionalElse)
    (helse : ParseExpression fuel (GetToken s2).2 = some (else_expression, s3)) :
    ParseExpression (fuel + 1) s
      = some (CParseTreeNode.TernaryOperator kTokenOperatorConditionalIf cond
          then_expression else_expression, s3) := by
  simp [ParseExpression, hoperand, ParseExpression_continue, hif, TokenIsBinary,
    ParseConditionalPartialThenElseExpressions, hthen, ExpectConditionalThen,
    GetToken_fst, he, helse]

/-- A sequence of simple operands and binary operators before a token `q`:
the binary nodes are nested to the right, and what `ParseExpression` makes of
the last operand and the tokens from `q` on is the innermost right operand. -/
theorem ParseExpression_sequence_inner (more : List (Token × Token)) :
    ∀ (first q : Token) (rest : List Token) (t sR : CFormulaParser)
      (inner : Token → CParseTreeNode) (fuel : Nat),
      IsSimpleOperand first →
      (∀ p ∈ more, TokenIsBinary p.1.kind = true ∧ IsSimpleOperand p.2) →
      t.input = OperandSequence first more ++ q :: rest →
      (∀ (last : Token) (text : String), IsSimpleOperand last →
        ParseExpression (fuel + 1)
            (CFormulaParser.mk (last :: q :: rest) text t.errors t.heap)
          = some (inner last, sR)) →
      ParseExpression (fuel + 1 + more.length) t
        = some (RightNestedWith inner first more, sR) := by
  induction more with
  | nil =>
    intro first q rest t sR inner fuel hfirst _ hin hinner
    have ht : t = CFormulaParser.mk (first :: q :: rest) t.token_string t.errors t.heap := by
      cases t
      simp only [CFormulaParser.mk.injEq, and_true, true_and]
      exact hin
    rw [ht]
    exact hinner first t.token_string hfirst
  | cons p more ih =>
    intro first q rest t sR inner fuel hfirst hmore hin hinner
    obtain ⟨hp1, hp2⟩ := hmore p (List.mem_cons_self _ _)
    obtain ⟨tail, htail⟩ := OperandSequence_head p.2 more
    have hrec := ih p.2 q rest
      (CFormulaParser.mk (OperandSequence p.2 more ++ q :: rest) p.1.text t.errors t.heap)
      sR inner fuel hp2 (fun r hr => hmore r (List.mem_cons_of_mem _ hr)) rfl hinner
    have hin2 : t.input = first :: p.1 :: p.2 :: (tail ++ q :: rest) := by
      rw [hin]
      show first :: p.1 :: (OperandSequence p.2 more ++ q :: rest) = _
      rw [htail]
      rfl
    rw [htail] at hrec
    exact ParseExpression_simple_binary (fuel + 1 + more.length) t _ first p.1 p.2
      (tail ++ q :: rest) _ hin2 hfirst hp1 hp2 hrec

/-- C8 (as stated) fails: in `a + b ? 1 2` the tree of the condition `a + b`
is the binary node of `a` and `b`, yet `ParseExpression` returns the binary
node of `a` and the ternary node built over `b` alone; in `- a ? 1 2` it
returns the unary node over the ternary node built over `a`.  In both, one
error is reported and the token in place of ":" is consumed. -/
theorem ParseExpression_ternary_below_operator :
    ParseExpression 3 (CFormulaParser.init [⟨kTokenIdentifier, "a", none⟩,
        ⟨kTokenOperatorBinary 0, "+", none⟩, ⟨kTokenIdentifier, "b", none⟩])
      = some (CParseTreeNode.BinaryOperator (kTokenOperatorBinary 0)
          (CParseTreeNode.Identifier "a") (CParseTreeNode.Identifier "b"),
        CFormulaParser.mk [] "b" [] []) ∧
    ParseExpression 3 (CFormulaParser.init [⟨kTokenIdentifier, "a", none⟩,
        ⟨kTokenOperatorBinary 0, "+", none⟩, ⟨kTokenIdentifier, "b", none⟩,
        ⟨kTokenOperatorConditionalIf, "?", none⟩, ⟨kTokenNumber, "1", none⟩,
        ⟨kTokenNumber, "2", none⟩])
      = some (CParseTreeNode.BinaryOperator (kTokenOperatorBinary 0)
          (CParseTreeNode.Identifier "a")
          (CParseTreeNode.TernaryOperator kTokenOperatorConditionalIf
            (CParseTreeNode.Identifier "b") (CParseTreeNode.Number "1") CParseTreeNode.NULL),
        CFormulaParser.mk [] "2" [ParseError.MalformedConditionalExpression] []) ∧
    ParseExpression 3 (CFormulaParser.init [⟨kTokenOperatorUnary 0, "-", none⟩,
        ⟨kTokenIdentifier, "a", none⟩,
        ⟨kTokenOperatorConditionalIf, "?", none⟩, ⟨kTokenNumber, "1", none⟩,
        ⟨kTokenNumber, "2", none⟩])
      = some (CParseTreeNode.UnaryOperator (kTokenOperatorUnary 0)
          (CParseTreeNode.TernaryOperator kTokenOperatorConditionalIf
            (CParseTreeNode.Identifier "a") (CParseTreeNode.Number "1") CParseTreeNode.NULL),
        CFormulaParser.mk [] "2" [ParseError.MalformedConditionalExpression] []) := by
  refine ⟨by decide, by decide, by decide⟩

/-- C8 (amended): in `cond ? then X`, where `cond` is the operand directly
before "?" (what `ParseExpression` parses before it looks for an operator: an
identifier, a number or a bracket expression) and `X` is a token other than
the separator ":", `ParseExpression` consumes `X`, reports exactly one error,
"Malformed conditional expression", and still returns the ternary node of
`cond` and `then` with an absent else-branch; when the separator is present,
the else-branch is the tree parsed after it.  When `cond` is a sequence of
simple operands joined by binary operators, all this holds of the ternary
node built over the last operand of the sequence, and `ParseExpression`
returns the binary nodes of the sequence, nested to the right, with that
ternary node as the innermost right operand; when a unary operator stands
before a simple operand, it returns the unary node over the ternary node. -/
theorem ParseExpression_ternary (fuel : Nat) (s s1 s2 : CFormulaParser)
    (cond then_expression : CParseTreeNode)
    (hoperand : ParseExpression_operand (ParseExpression fuel) s = some (some cond, s1))
    (hif : LookAhead s1 = kTokenOperatorConditionalIf)
    (hthen : ParseExpression fuel (GetToken s1).2 = some (then_expression, s2)) :
    (LookAhead s2 ≠ kTokenOperatorConditionalElse →
      ∃ s3, ParseExpression (fuel + 1) s
          = some (CParseTreeNode.TernaryOperator kTokenOperatorConditionalIf cond
              then_expression CParseTreeNode.NULL, s3) ∧
        s3.errors = s2.errors ++ [ParseError.MalformedConditionalExpression] ∧
        s3.input = (GetToken s2).2.input) ∧
    (LookAhead s2 = kTokenOperatorConditionalElse →
      ∀ (else_expression : CParseTreeNode) (s3 : CFormulaParser),
        ParseExpression fuel (GetToken s2).2 = some (else_expression, s3) →
        ParseExpression (fuel + 1) s
          = some (CParseTreeNode.TernaryOperator kTokenOperatorConditionalIf cond
              then_expression else_expression, s3)) ∧
    (∀ (more : List (Token × Token)) (first q : Token) (rest : List Token)
        (t t2 : CFormulaParser) (then_tree : CParseTreeNode) (f : Nat),
      IsSimpleOperand first →
      (∀ p ∈ more, TokenIsBinary p.1.kind = true ∧ IsSimpleOperand p.2) →
      q.kind = kTokenOperatorConditionalIf →
      t.input = OperandSequence first more ++ q :: rest →
      ParseExpression f (CFormulaParser.mk rest q.text t.errors t.heap)
        = some (then_tree, t2) →
      (LookAhead t2 ≠ kTokenOperatorConditionalElse →
        ∃ t3, ParseExpression (f + 1 + more.length) t
            = some (RightNestedWith (fun last => CParseTreeNode.TernaryOperator
                kTokenOperatorConditionalIf (TerminalNode last) then_tree
                CParseTreeNode.NULL) first more, t3) ∧
          t3.errors = t2.errors ++ [ParseError.MalformedConditionalExpression] ∧
          t3.input = (GetToken t2).2.input) ∧
      (LookAhead t2 = kTokenOperatorConditionalElse →
        ∀ (else_tree : CParseTreeNode) (t3 : CFormulaParser),
          ParseExpression f (GetToken t2).2 = some (else_tree, t3) →
          ParseExpression (f + 1 + more.length) t
            = some (RightNestedWith (fun last => CParseTreeNode.TernaryOperator
                kTokenOperatorConditionalIf (TerminalNode last) then_tree else_tree)
                first more, t3))) ∧
    (∀ (u x q : Token) (rest : List Token) (t t2 : CFormulaParser)
        (then_tree : CParseTreeNode) (f : Nat),
      TokenIsUnary u.kind = true → TokenIsBracketOpen u.kind = false →
      IsSimpleOperand x → q.kind = kTokenOperatorConditionalIf →
      t.input = u :: x :: q :: rest →
      ParseExpression f (CFormulaParser.mk rest q.text t.errors t.heap)
        = some (then_tree, t2) →
      LookAhead t2 ≠ kTokenOperatorConditionalElse →
      EndsExpression (GetToken t2).2.input →
      ∃ t3, ParseExpression (f + 2) t
          = some (CParseTreeNode.UnaryOperator u.kind
              (CParseTreeNode.TernaryOperator kTokenOperatorConditionalIf (TerminalNode x)
                then_tree CParseTreeNode.NULL), t3) ∧
        t3.errors = t2.errors ++ [ParseError.MalformedConditionalExpression] ∧
        t3.input = (GetToken t2).2.input) := by
  refine ⟨fun hne => ?_, fun he else_expression s3 helse => ?_, ?_, ?_⟩
  · refine ⟨Error ParseError.MalformedConditionalExpression (GetToken s2).2,
      ParseExpression_ternary_missing_else fuel s s1 s2 cond then_expression hoperand hif
        hthen hne, ?_, rfl⟩
    simp [Error, GetToken_errors]
  · exact ParseExpression_ternary_with_else fuel s s1 s2 s3 cond then_expression
      else_expression hoperand hif hthen he helse
  · intro more first q rest t t2 then_tree f hfirst hmore hq hin hthen2
    constructor
    · intro hne
      refine ⟨Error ParseError.MalformedConditionalExpression (GetToken t2).2,
        ParseExpression_sequence_inner more first q rest t _ _ f hfirst hmore hin
          (fun last text hlast => ?_), ?_, rfl⟩
      · exact ParseExpression_ternary_missing_else f _
          (CFormulaParser.mk (q :: rest) last.text t.errors t.heap) t2 _ _
          (ParseExpression_operand_simple _ _ last (q :: rest) rfl hlast)
          (by simp [LookAhead, hq]) (by simpa [GetToken] using hthen2) hne
      · simp [Error, GetToken_errors]
    · intro he else_tree t3 helse
      refine ParseExpression_sequence_inner more first q rest t _ _ f hfirst hmore hin
        (fun last text hlast => ?_)
      exact ParseExpression_ternary_with_else f _
        (CFormulaParser.mk (q :: rest) last.text t.errors t.heap) t2 t3 _ _ _
        (ParseExpression_operand_simple _ _ last (q :: rest) rfl hlast)
        (by simp [LookAhead, hq]) (by simpa [GetToken] using hthen2) he helse
  · intro u x q rest t t2 then_tree f hu hnb hx hq hin hthen2 hne hend
    have hinner := ParseExpression_ternary_missing_else f
      (CFormulaParser.mk (x :: q :: rest) u.text t.errors t.heap)
      (CFormulaParser.mk (q :: rest) x.text t.errors t.heap) t2 _ _
      (ParseExpression_operand_simple _ _ x (q :: rest) rfl hx)
      (by simp [LookAhead, hq]) (by simpa [GetToken] using hthen2) hne
    obtain ⟨h1, h2⟩ := LookAhead_EndsExpression
      (Error ParseError.MalformedConditionalExpression (GetToken t2).2) hend
    refine ⟨Error ParseError.MalformedConditionalExpression (GetToken t2).2, ?_, ?_, rfl⟩
    · conv => lhs; unfold ParseExpression
      have hop : ParseExpression_operand (ParseExpression (f + 1)) t
          = some (some (CParseTreeNode.UnaryOperator u.kind
              (CParseTreeNode.TernaryOperator kTokenOperatorConditionalIf (TerminalNode x)
                then_tree CParseTreeNode.NULL)),
            Error ParseError.MalformedConditionalExpression (GetToken t2).2) := by
        have hg : GetToken t
            = (u.kind, CFormulaParser.mk (x :: q :: rest) u.text t.errors t.heap) := by
          simp [GetToken, hin]
        unfold ParseExpression_operand
        simp only [LookAhead, hin, hnb, hu]
        simp only [ParseUnaryExpression, hg]
        rw [hinner]
        simp
      rw [hop]
      simp only
      unfold ParseExpression_continue
      simp only [h1, h2]
      simp
    · simp [Error, GetToken_errors]

theorem ParseExpression_ternary_witness :
    (∃ s3, ParseExpression 2 (CFormulaParser.init [⟨kTokenIdentifier, "a", none⟩,
          ⟨kTokenOperatorConditionalIf, "?", none⟩, ⟨kTokenNumber, "1", none⟩,
          ⟨kTokenNumber, "2", none⟩])
        = some (CParseTreeNode.TernaryOperator kTokenOperatorConditionalIf
            (CParseTreeNode.Identifier "a") (CParseTreeNode.Number "1")
            CParseTreeNode.NULL, s3) ∧
      s3.errors = [] ++ [ParseError.MalformedConditionalExpression] ∧
      s3.input = []) ∧
    ParseExpression 2 (CFormulaParser.init [⟨kTokenIdentifier, "a", none⟩,
          ⟨kTokenOperatorConditionalIf, "?", none⟩, ⟨kTokenNumber, "1", none⟩,
          ⟨kTokenOperatorConditionalElse, ":", none⟩, ⟨kTokenNumber, "2", none⟩])
        = some (CParseTreeNode.TernaryOperator kTokenOperatorConditionalIf
            (CParseTreeNode.Identifier "a") (CParseTreeNode.Number "1")
            (CParseTreeNode.Number "2"),
          { input := [], token_string := "2", errors := [], heap := [] }) ∧
    (∃ t3, ParseExpression (1 + 1 + 1) (CFormulaParser.init [⟨kTokenIdentifier, "a", none⟩,
          ⟨kTokenOperatorBinary 0, "+", none⟩, ⟨kTokenIdentifier, "b", none⟩,
          ⟨kTokenOperatorConditionalIf, "?", none⟩, ⟨kTokenNumber, "1", none⟩,
          ⟨kTokenNumber, "2", none⟩])
        = some (RightNestedWith (fun last => CParseTreeNode.TernaryOperator
              kTokenOperatorConditionalIf (TerminalNode last) (CParseTreeNode.Number "1")
              CParseTreeNode.NULL)
            ⟨kTokenIdentifier, "a", none⟩
            [(⟨kTokenOperatorBinary 0, "+", none⟩, ⟨kTokenIdentifier, "b", none⟩)], t3) ∧
      t3.errors = [] ++ [ParseError.MalformedConditionalExpression] ∧
      t3.input = []) :=
  ⟨(ParseExpression_ternary 1
      (CFormulaParser.init [⟨kTokenIdentifier, "a", none⟩,
        ⟨kTokenOperatorConditionalIf, "?", none⟩, ⟨kTokenNumber, "1", none⟩,
        ⟨kTokenNumber, "2", none⟩])
      { input := [⟨kTokenOperatorConditionalIf, "?", none⟩, ⟨kTokenNumber, "1", none⟩,
          ⟨kTokenNumber, "2", none⟩],
        token_string := "a", errors := [], heap := [] }
      { input := [⟨kTokenNumber, "2", none⟩], token_string := "1", errors := [], heap := [] }
      (CParseTreeNode.Identifier "a") (CParseTreeNode.Number "1")
      (by decide) (by decide) (by decide)).1 (by decide),
   (ParseExpression_ternary 1
      (CFormulaParser.init [⟨kTokenIdentifier, "a", none⟩,
        ⟨kTokenOperatorConditionalIf, "?", none⟩, ⟨kTokenNumber, "1", none⟩,
        ⟨kTokenOperatorConditionalElse, ":", none⟩, ⟨kTokenNumber, "2", none⟩])
      { input := [⟨kTokenOperatorConditionalIf, "?", none⟩, ⟨kTokenNumber, "1", none⟩,
          ⟨kTokenOperatorConditionalElse, ":", none⟩, ⟨kTokenNumber, "2", none⟩],
        token_string := "a", errors := [], heap := [] }
      { input := [⟨kTokenOperatorConditionalElse, ":", none⟩, ⟨kTokenNumber, "2", none⟩],
        token_string := "1", errors := [], heap := [] }
      (CParseTreeNode.Identifier "a") (CParseTreeNode.Number "1")
      (by decide) (by decide) (by decide)).2.1 (by decide) _ _ (by decide),
   ((ParseExpression_ternary 1
      (CFormulaParser.init [⟨kTokenIdentifier, "a", none⟩,
        ⟨kTokenOperatorConditionalIf, "?", none⟩, ⟨kTokenNumber, "1", none⟩,
        ⟨kTokenNumber, "2", none⟩])
      { input := [⟨kTokenOperatorConditionalIf, "?", none⟩, ⟨kTokenNumber, "1", none⟩,
          ⟨kTokenNumber, "2", none⟩],
        token_string := "a", errors := [], heap := [] }
      { input := [⟨kTokenNumber, "2", none⟩], token_string := "1", errors := [], heap := [] }
      (CParseTreeNode.Identifier "a") (CParseTreeNode.Number "1")
      (by decide) (by decide) (by decide)).2.2.1
      [(⟨kTokenOperatorBinary 0, "+", none⟩, ⟨kTokenIdentifier, "b", none⟩)]
      ⟨kTokenIdentifier, "a", none⟩ ⟨kTokenOperatorConditionalIf, "?", none⟩
      [⟨kTokenNumber, "1", none⟩, ⟨kTokenNumber, "2", none⟩]
      (CFormulaParser.init [⟨kTokenIdentifier, "a", none⟩,
        ⟨kTokenOperatorBinary 0, "+", none⟩, ⟨kTokenIdentifier, "b", none⟩,
        ⟨kTokenOperatorConditionalIf, "?", none⟩, ⟨kTokenNumber, "1", none⟩,
        ⟨kTokenNumber, "2", none⟩])
      { input := [⟨kTokenNumber, "2", none⟩], token_string := "1", errors := [], heap := [] }
      (CParseTreeNode.Number "1") 1 (Or.inl rfl) (by simp [IsSimpleOperand, TokenIsBinary])
      rfl rfl (by decide)).1 (by decide)⟩


/-! ## The then links of a chain -/

theorem heap_after_link_length (last : TPParseTreeNode) (was_open : Bool) (v : TPParseTreeNode)
    (heap1 : List CParseTreeOperatorNode) :
    (if last ≠ TPParseTreeNode.null then
        if was_open = true then SetSecondSibbling last v heap1
        else SetThirdSibbling last v heap1
      else heap1).length = heap1.length := by
  split
  · split
    · exact SetSecondSibbling_length _ _ _
    · exact SetThirdSibbling_length _ _ _
  · rfl

theorem tree_ne_null (action : CParseTreeNode) (h : action ≠ CParseTreeNode.NULL) :
    TPParseTreeNode.tree action ≠ TPParseTreeNode.null := by
  intro hc
  injection hc with hc
  exact h hc

/-- The loop of the chain builder and its copy that tells how the loop was
left return the same node and state.  When the loop was left because
end-of-file or end-of-function follows a when-condition directly, the last
node has no second sibling; when it was left otherwise and no error was
reported, the last node it built has one. -/
theorem ParseOpenEndedWhenConditionSequence_loop_exit_spec (fuel : Nat) :
    ∀ (last : TPParseTreeNode) (was_open : Bool) (first : TPParseTreeNode)
      (s : CFormulaParser),
      s.input.length < fuel →
      (∀ j, last = TPParseTreeNode.when j → j < s.heap.length) →
      ∃ b r s1,
        ParseOpenEndedWhenConditionSequence_loop_exit fuel (LookAhead s) last was_open first s
          = some (b, r, s1) ∧
        ParseOpenEndedWhenConditionSequence_loop fuel (LookAhead s) last was_open first s
          = some (r, s1) ∧
        s.errors.length ≤ s1.errors.length ∧ s.heap.length ≤ s1.heap.length ∧
        (b = true → s.heap.length < s1.heap.length ∧
          ∃ n : CParseTreeOperatorNode, s1.heap[s1.heap.length - 1]? = some n ∧
            n._second_sibbling = TPParseTreeNode.null) ∧
        (b = false → s1.errors.length = s.errors.length →
          (LookAhead s ≠ kTokenOperatorConditionalWhen ∧ s1 = s) ∨
          (s.heap.length < s1.heap.length ∧
            ∃ n : CParseTreeOperatorNode, s1.heap[s1.heap.length - 1]? = some n ∧
              n._second_sibbling ≠ TPParseTreeNode.null)) := by
  induction fuel with
  | zero => intro _ _ _ s hs; omega
  | succ fuel ih =>
    intro last was_open first s hs hlast
    unfold ParseOpenEndedWhenConditionSequence_loop_exit ParseOpenEndedWhenConditionSequence_loop
    by_cases hw : LookAhead s = kTokenOperatorConditionalWhen
    swap
    · rw [if_pos hw, if_pos hw]
      exact ⟨false, first, s, rfl, rfl, le_refl _, le_refl _, fun h => (by cases h),
        fun _ _ => Or.inl ⟨hw, rfl⟩⟩
    · rw [if_neg (by simpa using hw), if_neg (by simpa using hw)]
      have hpos : 0 < s.input.length :=
        LookAhead_ne_EndOfFile_input s (by rw [hw]; decide)
      have hg := Advances_GetToken s
      have hglen := GetToken_input_length s
      have hgerr : (GetToken s).2.errors.length = s.errors.length := by rw [GetToken_errors]
      obtain ⟨condition, s1, hcond, ha1, _⟩ :=
        ParseExpression_returns fuel (GetToken s).2 (by omega)
      simp only [hcond]
      have hheap1 : s1.heap = s.heap := (hg.trans ha1).1
      have herr1 : s.errors.length ≤ s1.errors.length := by have := ha1.2.2; omega
      rw [hheap1]
      have hlen2 := heap_after_link_length last was_open (TPParseTreeNode.when s.heap.length)
        (s.heap ++ [MakeWhenCondition condition])
      obtain ⟨n2, hn2, hsec2, _⟩ := heap_after_link last was_open
        (TPParseTreeNode.when s.heap.length) (s.heap ++ [MakeWhenCondition condition])
        s.heap.length (MakeWhenCondition condition) (List.getElem?_concat_length s.heap _)
        (fun h => absurd (hlast _ h) (lt_irrefl _))
      generalize
        (if last ≠ TPParseTreeNode.null then
          if was_open = true then
            SetSecondSibbling last (TPParseTreeNode.when s.heap.length)
              (s.heap ++ [MakeWhenCondition condition])
          else
            SetThirdSibbling last (TPParseTreeNode.when s.heap.length)
              (s.heap ++ [MakeWhenCondition condition])
        else s.heap ++ [MakeWhenCondition condition]) = heap2 at hlen2 hn2 ⊢
      have hlen2b : heap2.length = s.heap.length + 1 := by
        rw [hlen2]
        simp
      generalize (if first = TPParseTreeNode.null then
        TPParseTreeNode.when s.heap.length else first) = first1
      obtain ⟨hla1, hla2, hla3, hla4⟩ := LookAheadAction_facts { s1 with heap := heap2 }
      generalize hla : LookAheadAction { s1 with heap := heap2 } = la at hla1 hla2 hla3 hla4 ⊢
      simp only at hla1 hla2 hla3
      have herrla : la.2.errors.length = s1.errors.length := by rw [hla2]
      have hheapla : la.2.heap.length = s.heap.length + 1 := by rw [hla1, hlen2b]
      have hs1len : s1.input.length ≤ s.input.length - 1 := by have := ha1.2.1; omega
      by_cases hact : TokenIsOpenPPLAction la.1 = true
      · rw [if_pos hact, if_pos hact]
        obtain ⟨action, s2, hact2, ha2, hnull⟩ :=
          ParseOpenPPLAction_returns fuel la.2 (by omega)
        simp only [hact2]
        have hheap2s : s2.heap = heap2 := by rw [ha2.1, hla1]
        rw [hheap2s]
        have hs2len : s2.input.length ≤ la.2.input.length := ha2.2.1
        have herr2 : la.2.errors.length ≤ s2.errors.length := ha2.2.2
        have hn3 := SetSecondSibbling_get_self s.heap.length (TPParseTreeNode.tree action)
          heap2 n2 hn2
        have hlen3 := SetSecondSibbling_length (TPParseTreeNode.when s.heap.length)
          (TPParseTreeNode.tree action) heap2
        generalize SetSecondSibbling (TPParseTreeNode.when s.heap.length)
          (TPParseTreeNode.tree action) heap2 = heap3 at hn3 hlen3 ⊢
        obtain ⟨b, r, sF, hx, hl, herrF, hheapF, hbt, hbf⟩ :=
          ih (TPParseTreeNode.when s.heap.length) false first1
            { s2 with heap := heap3 } (by show s2.input.length < fuel; omega)
            (by
              intro j hj
              injection hj with hj
              show j < heap3.length
              omega)
        have herrF : s2.errors.length ≤ sF.errors.length := herrF
        have hheapF : heap3.length ≤ sF.heap.length := hheapF
        refine ⟨b, r, sF, hx, hl, by omega, by omega, fun hb => ?_, fun hb heq => ?_⟩
        · obtain ⟨hlt, n, hn, hsec⟩ := hbt hb
          have hlt : heap3.length < sF.heap.length := hlt
          exact ⟨by omega, n, hn, hsec⟩
        · have heq3 : sF.errors.length = s2.errors.length := by omega
          rcases hbf hb heq3 with ⟨_, hsame⟩ | ⟨hlt, n, hn, hsec⟩
          · have haction : action ≠ CParseTreeNode.NULL := by
              intro hc
              have := hnull hc
              omega
            refine Or.inr ⟨?_, { n2 with _second_sibbling := TPParseTreeNode.tree action }, ?_,
              tree_ne_null action haction⟩
            · rw [hsame]
              show s.heap.length < heap3.length
              omega
            · rw [hsame]
              show heap3[heap3.length - 1]? = _
              have hidx : heap3.length - 1 = s.heap.length := by omega
              rw [hidx]
              exact hn3
          · have hlt : heap3.length < sF.heap.length := hlt
            exact Or.inr ⟨by omega, n, hn, hsec⟩
      · rw [if_neg hact, if_neg hact]
        by_cases hw2 : la.1 = kTokenOperatorConditionalWhen
        · rw [if_pos hw2, if_pos hw2]
          obtain ⟨b, r, sF, hx, hl, herrF, hheapF, hbt, hbf⟩ :=
            ih (TPParseTreeNode.when s.heap.length) true first1 la.2 (by omega)
              (by
                intro j hj
                injection hj with hj
                omega)
          rw [hla4]
          refine ⟨b, r, sF, hx, hl, by omega, by omega, fun hb => ?_, fun hb heq => ?_⟩
          · obtain ⟨hlt, n, hn, hsec⟩ := hbt hb
            exact ⟨by omega, n, hn, hsec⟩
          · rcases hbf hb (by omega) with ⟨hnw, _⟩ | ⟨hlt, n, hn, hsec⟩
            · exact absurd (hla4.symm.trans hw2) hnw
            · exact Or.inr ⟨by omega, n, hn, hsec⟩
        · rw [if_neg hw2, if_neg hw2]
          by_cases hend : la.1 = kTokenEndOfFile ∨ la.1 = kTokenEndOfFunction
          · rw [if_pos hend, if_pos hend]
            refine ⟨true, first1, la.2, rfl, rfl, by omega, by omega,
              fun _ => ⟨by omega, n2, ?_, ?_⟩, fun h => (by cases h)⟩
            · have hidx : la.2.heap.length - 1 = s.heap.length := by omega
              rw [hidx, hla1]
              exact hn2
            · rw [hsec2]
              rfl
          · rw [if_neg hend, if_neg hend]
            obtain ⟨e, he, _⟩ := ErrorMissingAction_result la.1 la.2
            rw [he]
            have hel := Error_errors_length e la.2
            refine ⟨false, first1, Error e la.2, rfl, rfl, by omega, ?_,
              fun h => (by cases h), fun _ heq => ?_⟩
            · show s.heap.length ≤ la.2.heap.length
              omega
            · omega


/-- C2 (amended): for every token stream that starts a when-condition chain,
after back-patching every when-condition of the chain has a third sibling
(else link); if no parse error was reported, every when-condition of the chain
has a second sibling (then link) as well, except the last one when the
sequence ends without action, that is when end-of-file or end-of-function
follows the condition of the last "when" directly; in that case the last
when-condition has no second sibling.  How the sequence ends is read off a
copy of the chain builder's loop that returns the same node and state; a
"when" and its condition directly followed by end-of-file or end-of-function
is such an end of the sequence. -/
theorem ParseFunctionBody_links_present (flag : Bool) (tokens : List Token) (fuel : Nat)
    (hfuel : tokens.length < fuel)
    (hwhen : LookAhead (CFormulaParser.init tokens) = kTokenOperatorConditionalWhen) :
    ∃ root s2, ParseFunctionBody flag fuel (CFormulaParser.init tokens) = some (root, s2) ∧
      root = TPParseTreeNode.when 0 ∧ s2.heap ≠ [] ∧
      (∀ i n, s2.heap[i]? = some n →
        n._third_sibbling ≠ TPParseTreeNode.null ∧
        (s2.errors = [] →
          (i + 1 < s2.heap.length
            ∨ EndsWithoutAction fuel (CFormulaParser.init tokens) = false) →
          n._second_sibbling ≠ TPParseTreeNode.null)) ∧
      (EndsWithoutAction fuel (CFormulaParser.init tokens) = true →
        ∃ n : CParseTreeOperatorNode, s2.heap[s2.heap.length - 1]? = some n ∧
          n._second_sibbling = TPParseTreeNode.null) ∧
      (ParseOpenEndedWhenConditionSequence_loop_exit fuel
          (LookAhead (CFormulaParser.init tokens)) TPParseTreeNode.null false
          TPParseTreeNode.null (CFormulaParser.init tokens)).map (fun r => r.2)
        = ParseOpenEndedWhenConditionSequence fuel (CFormulaParser.init tokens) ∧
      (∀ (f : Nat) (s sc : CFormulaParser) (condition : CParseTreeNode),
        LookAhead s = kTokenOperatorConditionalWhen →
        ParseExpression f (GetToken s).2 = some (condition, sc) →
        ((LookAheadAction sc).1 = kTokenEndOfFile
          ∨ (LookAheadAction sc).1 = kTokenEndOfFunction) →
        EndsWithoutAction (f + 1) s = true) := by
  obtain ⟨s1, heap1, hseq, _, hbody, hshape, hne, _, hlen, hget, htlp⟩ :=
    ParseFunctionBody_chain flag tokens fuel hfuel hwhen
  obtain ⟨b, r, sX, hx, hl, _, _, hbt, hbf⟩ :=
    ParseOpenEndedWhenConditionSequence_loop_exit_spec fuel TPParseTreeNode.null false
      TPParseTreeNode.null (CFormulaParser.init tokens) hfuel (fun j hj => by cases hj)
  have hsame : some (r, sX) = some (TPParseTreeNode.when 0, s1) := hl.symm.trans hseq
  injection hsame with hsame
  injection hsame with hr hsX
  subst hr
  subst hsX
  have hE : EndsWithoutAction fuel (CFormulaParser.init tokens) = b := by
    unfold EndsWithoutAction
    rw [hx]
  have hsecond : ∀ (i : Nat) (n1 : CParseTreeOperatorNode), heap1[i]? = some n1 →
      ∃ n : CParseTreeOperatorNode, sX.heap[i]? = some n ∧
        n1._second_sibbling = n._second_sibbling ∧
        n1._third_sibbling = BackPatchedThirdSibbling flag sX.heap i n := by
    intro i n1 hn1
    have hlt : i < sX.heap.length := by rw [← hlen]; exact getElem?_lt _ i n1 hn1
    obtain ⟨n, hn⟩ : ∃ n, sX.heap[i]? = some n := ⟨_, List.getElem?_eq_getElem hlt⟩
    rw [hget i n hn] at hn1
    injection hn1 with hn1
    subst hn1
    exact ⟨n, hn, rfl, rfl⟩
  refine ⟨_, _, hbody, rfl, ?_, fun i n1 hn1 => ?_, fun hEt => ?_, ?_, ?_⟩
  · show heap1 ≠ []
    intro h
    rw [h] at hlen
    exact hne (List.length_eq_zero.mp hlen.symm)
  · have hn1 : heap1[i]? = some n1 := hn1
    obtain ⟨n, hn, hsec, hthird⟩ := hsecond i n1 hn1
    have hlt : i < sX.heap.length := getElem?_lt _ i n hn
    refine ⟨?_, fun herr hcase => ?_⟩
    · rw [hthird]
      exact BackPatchedThirdSibbling_ne_null flag sX.heap hshape i n hn
    · have herr : sX.errors = [] := herr
      rw [hsec]
      by_cases hi : i + 1 < sX.heap.length
      · exact htlp herr i n hn hi
      · have hb : b = false := by
          rcases hcase with hc | hc
          · have hc : i + 1 < heap1.length := hc
            rw [hlen] at hc
            exact absurd hc hi
          · rw [← hE]
            exact hc
        rcases hbf hb (by rw [herr]; rfl) with ⟨hnw, _⟩ | ⟨_, n3, hn3, hsec3⟩
        · exact absurd hwhen hnw
        · have hidx : sX.heap.length - 1 = i := by omega
          rw [hidx, hn] at hn3
          injection hn3 with hn3
          rw [hn3]
          exact hsec3
  · have hb : b = true := by rw [← hE]; exact hEt
    obtain ⟨_, n, hn, hsec⟩ := hbt hb
    refine ⟨{ n with _third_sibbling :=
      BackPatchedThirdSibbling flag sX.heap (sX.heap.length - 1) n }, ?_, hsec⟩
    show heap1[heap1.length - 1]? = _
    rw [hlen]
    exact hget _ n hn
  · rw [hx, hseq]
    rfl
  · intro f s sc condition hw hcond hend
    unfold EndsWithoutAction ParseOpenEndedWhenConditionSequence_loop_exit
    rw [if_neg (by simpa using hw)]
    simp only [hcond]
    obtain ⟨hl1, _, _, _⟩ := LookAheadAction_heap_irrelevant sc
      (sc.heap ++ [MakeWhenCondition condition])
    simp only [ne_eq, not_true_eq_false, if_false]
    generalize LookAheadAction { sc with heap := sc.heap ++ [MakeWhenCondition condition] }
      = la at hl1 ⊢
    rw [← hl1] at hend
    have h1 : TokenIsOpenPPLAction la.1 = false := by
      rcases hend with h | h <;> rw [h] <;> rfl
    have h2 : la.1 ≠ kTokenOperatorConditionalWhen := by
      rcases hend with h | h <;> rw [h] <;> decide
    rw [if_neg (by simp [h1]), if_neg h2, if_pos hend]

theorem ParseFunctionBody_links_present_witness :
    ∃ root s2, ParseFunctionBody true 7 (CFormulaParser.init
        [⟨kTokenOperatorConditionalWhen, "when", none⟩, ⟨kTokenIdentifier, "a", none⟩,
          ⟨kTokenOperatorConditionalWhen, "when", none⟩, ⟨kTokenIdentifier, "b", none⟩,
          ⟨kTokenIdentifier, "Fold", some (kTokenActionFixed 0)⟩,
          ⟨kTokenKeywordForce, "Force", none⟩])
        = some (root, s2) ∧
      root = TPParseTreeNode.when 0 ∧ s2.errors = [] ∧ s2.heap.length = 2 ∧
      EndsWithoutAction 7 (CFormulaParser.init
        [⟨kTokenOperatorConditionalWhen, "when", none⟩, ⟨kTokenIdentifier, "a", none⟩,
          ⟨kTokenOperatorConditionalWhen, "when", none⟩, ⟨kTokenIdentifier, "b", none⟩,
          ⟨kTokenIdentifier, "Fold", some (kTokenActionFixed 0)⟩,
          ⟨kTokenKeywordForce, "Force", none⟩]) = false ∧
      ∀ (i : Nat) (n : CParseTreeOperatorNode), s2.heap[i]? = some n →
        n._third_sibbling ≠ TPParseTreeNode.null ∧
        n._second_sibbling ≠ TPParseTreeNode.null := by
  obtain ⟨root, s2, h, hroot, _, hall, _, _, _⟩ := ParseFunctionBody_links_present true
    [⟨kTokenOperatorConditionalWhen, "when", none⟩, ⟨kTokenIdentifier, "a", none⟩,
      ⟨kTokenOperatorConditionalWhen, "when", none⟩, ⟨kTokenIdentifier, "b", none⟩,
      ⟨kTokenIdentifier, "Fold", some (kTokenActionFixed 0)⟩,
      ⟨kTokenKeywordForce, "Force", none⟩]
    7 (by decide) (by decide)
  have hE : EndsWithoutAction 7 (CFormulaParser.init
      [⟨kTokenOperatorConditionalWhen, "when", none⟩, ⟨kTokenIdentifier, "a", none⟩,
        ⟨kTokenOperatorConditionalWhen, "when", none⟩, ⟨kTokenIdentifier, "b", none⟩,
        ⟨kTokenIdentifier, "Fold", some (kTokenActionFixed 0)⟩,
        ⟨kTokenKeywordForce, "Force", none⟩]) = false := by decide
  have hc : (ParseFunctionBody true 7 (CFormulaParser.init
      [⟨kTokenOperatorConditionalWhen, "when", none⟩, ⟨kTokenIdentifier, "a", none⟩,
        ⟨kTokenOperatorConditionalWhen, "when", none⟩, ⟨kTokenIdentifier, "b", none⟩,
        ⟨kTokenIdentifier, "Fold", some (kTokenActionFixed 0)⟩,
        ⟨kTokenKeywordForce, "Force", none⟩])).map (fun r => (r.2.errors, r.2.heap.length))
      = some ([], 2) := by decide
  rw [h] at hc
  simp only [Option.map_some', Option.some.injEq, Prod.mk.injEq] at hc
  exact ⟨root, s2, h, hroot, hc.1, hc.2, hE,
    fun i n hi => ⟨(hall i n hi).1, (hall i n hi).2 hc.1 (Or.inr hE)⟩⟩

end OpenHoldem
